import Mathlib

/-!
Verification development for the HopperKV repository.

This file gives a shallow embedding, over exact rationals, of
* the HARE allocation engine (`src/hopperkv/alloc/engine/{resrc,mrc,tenant,alloc,params}.h`),
* the inflight-deduplication registry (`src/hopperkv/redis_module/inflight.cpp`), and
* the GET/SET request-pipeline steps relevant to the claims
  (`src/hopperkv/redis_module/{get,set}.cpp`),
and proves or refutes the frozen claims about them.

Modelling conventions:
* C++ `double` is modelled as `ℚ` (exact arithmetic).  IEEE division by zero
  has no rational counterpart (`x / 0 = 0` in `ℚ`); every theorem that
  depends on the value of a quotient either assumes the denominator is
  nonzero or is instantiated at concrete inputs whose denominators are
  nonzero along the evaluated path.
* `uint64_t` is modelled as `ℕ`; the one place where the source can
  underflow past zero (a `cache_size - cache_delta` whose guard is absent)
  uses an explicit wrap-around subtraction `sub64`.
* Unbounded `while (true)` loops are modelled with explicit fuel; theorems
  about them hold for every fuel value.  The harvest loop is bounded by
  `max_trade_round` in the source and gets exactly that fuel.
-/

namespace HopperKV

/-! ## Wrap-around subtraction for `uint64_t` -/

/-- Subtraction of `uint64_t` values (assuming both arguments are below
`2^64`, which every quantity in this development is): `a - b`, wrapping
around modulo `2^64` when `b > a`, exactly as unsigned C++ arithmetic does. -/
def sub64 (a b : ℕ) : ℕ := if b ≤ a then a - b else 2 ^ 64 - (b - a)

/-! ## `hare::params` (params.h / params.cpp)

Compile-time constants are plain definitions; the runtime-mutable globals
(`policy::alloc_total_net_bw`, `alloc::cache_delta`, `alloc::min_cache_size`)
are collected in a `Params` record that is threaded through the engine. -/

/-- Runtime-configurable parameters of the allocation engine
(globals in `hare::params`, mutable through setters). -/
structure Params where
  /-- policy::alloc_total_net_bw (default true) -/
  alloc_total_net_bw : Bool := true
  /-- alloc::cache_delta (default 4 MiB) -/
  cache_delta : ℕ := 4 * 1024 * 1024
  /-- alloc::min_cache_size (default 4 MiB) -/
  min_cache_size : ℕ := 4 * 1024 * 1024
  deriving Repr, DecidableEq

namespace params

def alloc.max_trade_round : ℕ := 10000

def alloc.min_improve_ratio_delta : ℚ := 1 / 10000

def alloc.max_miss_ratio : ℚ := 1

def alloc.min_miss_ratio : ℚ := 0

/-- memshare::reserved_ratio is 0.5; the source computes
`base_resrc.cache_size * reserved_ratio` and truncates back to `uint64_t`,
which is division by two on the integer cache size. -/
def alloc.memshare.reserved_of (cache_size : ℕ) : ℕ := cache_size / 2

def numeric.db_rcu_epsilon : ℚ := 1 / 10000

def numeric.db_wcu_epsilon : ℚ := 1 / 10000

def numeric.net_bw_epsilon : ℚ := 1 / 10000

/-- numeric::epilson [sic] is `std::numeric_limits<double>::epsilon() = 2^-52`. -/
def numeric.epilson : ℚ := 1 / 2 ^ 52

def numeric.relinq_abort_offer : ℚ := 0

/-- numeric::compen_abort_offer is `std::numeric_limits<float>::max()`,
whose exact value is `(2 - 2^-23) * 2^127 = 2^128 - 2^104`. -/
def numeric.compen_abort_offer : ℚ := 2 ^ 128 - 2 ^ 104

def mrc.disable_interpolation_near_inf : Bool := false

def mrc.conservative_estimation_if_out_of_range : Bool := true

end params

/-! ## `hare::StatelessResrcVec` and `hare::ResrcVec` (resrc.h) -/

/-- Stateless resource triple `(db_rcu, db_wcu, net_bw)`. -/
structure StatelessResrcVec where
  db_rcu : ℚ := 0
  db_wcu : ℚ := 0
  net_bw : ℚ := 0
  deriving Repr, DecidableEq

namespace StatelessResrcVec

def add (a b : StatelessResrcVec) : StatelessResrcVec :=
  ⟨a.db_rcu + b.db_rcu, a.db_wcu + b.db_wcu, a.net_bw + b.net_bw⟩

def sub (a b : StatelessResrcVec) : StatelessResrcVec :=
  ⟨a.db_rcu - b.db_rcu, a.db_wcu - b.db_wcu, a.net_bw - b.net_bw⟩

def scale (a : StatelessResrcVec) (scale_factor : ℚ) : StatelessResrcVec :=
  ⟨a.db_rcu * scale_factor, a.db_wcu * scale_factor, a.net_bw * scale_factor⟩

/-- Min-ratio division `operator/(const StatelessResrcVec &)`:
`min(a.db_rcu/b.db_rcu, a.db_wcu/b.db_wcu, a.net_bw/b.net_bw)`. -/
def minRatioDiv (a b : StatelessResrcVec) : ℚ :=
  min (a.db_rcu / b.db_rcu) (min (a.db_wcu / b.db_wcu) (a.net_bw / b.net_bw))

/-- is_almost_empty(): every component is below its epsilon in absolute value. -/
def is_almost_empty (a : StatelessResrcVec) : Prop :=
  |a.db_rcu| < params.numeric.db_rcu_epsilon ∧
  |a.db_wcu| < params.numeric.db_wcu_epsilon ∧
  |a.net_bw| < params.numeric.net_bw_epsilon

instance (a : StatelessResrcVec) : Decidable a.is_almost_empty := by
  unfold is_almost_empty; infer_instance

end StatelessResrcVec

/-- Full resource vector: a cache size plus a stateless triple. -/
structure ResrcVec where
  cache_size : ℕ := 0
  stateless : StatelessResrcVec := {}
  deriving Repr, DecidableEq

/-! ## `hare::MissRatioCurve` (mrc.h)

The memoization map of `get_miss_ratio` caches results of the pure
`get_miss_ratio_const`, so the model only needs the latter. -/

inductive MrcError where
  | out_of_range
  | malformed_curve (msg : String)
  deriving Repr, DecidableEq

structure MissRatioCurve where
  ticks : List ℕ
  miss_ratios : List ℚ
  deriving Repr, DecidableEq

namespace MissRatioCurve

/-- MissRatioCurve::interpolate.  The flags and `epilson` are compile-time
constants in the source; the flag is kept as an argument `dni`
(= `params::mrc::disable_interpolation_near_inf`) so that both values can be
reasoned about. -/
def interpolate (dni : Bool) (l_val r_val : ℚ) (l_dist r_dist : ℕ) : ℚ :=
  if dni ∧ 1 - l_val < params.numeric.epilson then 1
  else
    let total_dist : ℚ := (l_dist : ℚ) + (r_dist : ℚ)
    let l_ratio : ℚ := (r_dist : ℚ) / total_dist
    let r_ratio : ℚ := (l_dist : ℚ) / total_dist
    l_val * l_ratio + r_val * r_ratio

/-- Index computed by `std::lower_bound(ticks.begin(), ticks.end(), x)`:
the first position whose tick is `≥ x` (list length if none). -/
def lowerBoundIdx (x : ℕ) : List ℕ → ℕ
  | [] => 0
  | t :: ts => if x ≤ t then 0 else lowerBoundIdx x ts + 1

/-- MissRatioCurve::get_miss_ratio_const.  `dni` and `cons` are the two
`params::mrc` compile-time flags (their source values are `false` and `true`
respectively); `throw` is modelled with `Except.error`.  The source's local
`tick_idx = lower_bound(...)` is written out inline. -/
def get_miss_ratio_const (dni cons : Bool) (c : MissRatioCurve)
    (cache_size : ℕ) : Except MrcError ℚ :=
  if c.ticks.getLastD 0 < cache_size then
    if cons then .ok (c.miss_ratios.getLastD 0)
    else .error .out_of_range
  else if cache_size < c.ticks.headD 0 then
    .ok (interpolate dni 1 (c.miss_ratios.headD 0) cache_size
      (c.ticks.headD 0 - cache_size))
  else if cache_size = c.ticks.getD (lowerBoundIdx cache_size c.ticks) 0 then
    .ok (c.miss_ratios.getD (lowerBoundIdx cache_size c.ticks) 0)
  else
    .ok (interpolate dni
      (c.miss_ratios.getD (lowerBoundIdx cache_size c.ticks - 1) 0)
      (c.miss_ratios.getD (lowerBoundIdx cache_size c.ticks) 0)
      (cache_size - c.ticks.getD (lowerBoundIdx cache_size c.ticks - 1) 0)
      (c.ticks.getD (lowerBoundIdx cache_size c.ticks) 0 - cache_size))

/-- The value returned by `get_miss_ratio` / `get_miss_ratio_const` under the
source's compiled `params::mrc` flags.  In conservative mode the function
never throws, so the error default is unreachable on curves with a tick. -/
def value (c : MissRatioCurve) (cache_size : ℕ) : ℚ :=
  match c.get_miss_ratio_const params.mrc.disable_interpolation_near_inf
      params.mrc.conservative_estimation_if_out_of_range cache_size with
  | .ok v => v
  | .error _ => 0

/-- The rational produced by `get_miss_ratio_const` with the source's
`disable_interpolation_near_inf = false`, an arbitrary out-of-range flag
`cons`, and an error default of 0 (in-range queries never error). -/
def mrAt (cons : Bool) (c : MissRatioCurve) (cache_size : ℕ) : ℚ :=
  match c.get_miss_ratio_const false cons cache_size with
  | .ok v => v
  | .error _ => 0

/-- Loop body of MissRatioCurve::check_sanity: `min_mr` is the constant 0,
`max_tick` is fixed at `ticks.back()`, `min_tick` and `max_mr` are updated
to the previous element's values at each step. -/
def check_sanity_loop (max_tick : ℕ) :
    List (ℕ × ℚ) → ℕ → ℚ → Except MrcError Unit
  | [], _, _ => .ok ()
  | (t, mr) :: rest, min_tick, max_mr =>
    if t < min_tick ∨ max_tick < t then
      .error (.malformed_curve "tick is out of range")
    else if mr < 0 ∨ max_mr < mr then
      .error (.malformed_curve "miss_ratio is out of range")
    else check_sanity_loop max_tick rest t mr

/-- MissRatioCurve::check_sanity. -/
def check_sanity (c : MissRatioCurve) : Except MrcError Unit :=
  if c.ticks = [] then .error (.malformed_curve "ticks is empty")
  else if c.ticks.length ≠ c.miss_ratios.length then
    .error (.malformed_curve "ticks.size() and miss_ratios.size() mismatches")
  else check_sanity_loop (c.ticks.getLastD 0) (c.ticks.zip c.miss_ratios)
    (c.ticks.headD 0) 1

/-- Well-formed curve in the sense of the specification: at least one anchor,
matching lengths, strictly increasing ticks, miss ratios within `[0, 1]`
and non-increasing. -/
def WF (c : MissRatioCurve) : Prop :=
  c.ticks ≠ [] ∧
  c.ticks.length = c.miss_ratios.length ∧
  c.ticks.Chain' (· < ·) ∧
  (∀ m ∈ c.miss_ratios, 0 ≤ m ∧ m ≤ 1) ∧
  c.miss_ratios.Chain' (· ≥ ·)

end MissRatioCurve

/-! ## `hare::Tenant` (tenant.h)

The `resrc` field of the source is split into `cache_size` and `stateless`.
The two `curr_mr == infinity` guards of the source are omitted: a rational
miss ratio is never infinite. -/

structure Tenant where
  t_idx : ℕ
  demand_cacheless : StatelessResrcVec
  cache_size : ℕ
  stateless : StatelessResrcVec
  mrc : MissRatioCurve
  net_bw_alpha : ℚ
  rcu_delta_relinq : ℚ := 0
  rcu_delta_compen : ℚ := 0
  net_delta_relinq : ℚ := 0
  net_delta_compen : ℚ := 0
  mr_inc_if_more_cache : ℚ := 0
  mr_dec_if_less_cache : ℚ := 0
  reserved_cache_size : ℕ
  deriving Repr, DecidableEq

namespace Tenant

/-- Tenant constructor: `reserved_cache_size` is
`base_resrc.cache_size * params::alloc::memshare::reserved_ratio`
truncated back to an integer. -/
def mk' (t_idx : ℕ) (demand_cacheless : StatelessResrcVec) (base_resrc : ResrcVec)
    (mrc : MissRatioCurve) (net_bw_alpha : ℚ) : Tenant where
  t_idx := t_idx
  demand_cacheless := demand_cacheless
  cache_size := base_resrc.cache_size
  stateless := base_resrc.stateless
  mrc := mrc
  net_bw_alpha := net_bw_alpha
  reserved_cache_size := params.alloc.memshare.reserved_of base_resrc.cache_size

/-- Tenant::collect_idle.  Returns the idle vector together with the updated
tenant (the source mutates `resrc.stateless` in place). -/
def collect_idle (p : Params) (t : Tenant) : StatelessResrcVec × Tenant :=
  let mr := t.mrc.value t.cache_size
  let demand : StatelessResrcVec :=
    { t.demand_cacheless with
      db_rcu := t.demand_cacheless.db_rcu * mr
      net_bw :=
        if p.alloc_total_net_bw then
          t.demand_cacheless.net_bw * (mr + (1 - t.net_bw_alpha) * (1 - mr))
        else t.demand_cacheless.net_bw }
  let tp := t.stateless.minRatioDiv demand
  let used := demand.scale tp
  let idle := t.stateless.sub used
  (idle, { t with stateless := used })

/-- The `abort_offer` label of Tenant::pred_rcu_net_delta_if_more_cache. -/
def pred_more_abort (p : Params) (t : Tenant) : Tenant :=
  { t with
    rcu_delta_relinq := params.numeric.relinq_abort_offer
    net_delta_relinq :=
      if p.alloc_total_net_bw then params.numeric.relinq_abort_offer
      else t.net_delta_relinq }

/-- Tenant::pred_rcu_net_delta_if_more_cache. -/
def pred_rcu_net_delta_if_more_cache (p : Params) (t : Tenant) : Tenant :=
  let curr_mr := t.mrc.value t.cache_size
  if curr_mr ≤ params.numeric.epilson then pred_more_abort p t
  else
    let pred_mr := t.mrc.value (t.cache_size + p.cache_delta)
    if pred_mr < params.alloc.min_miss_ratio then pred_more_abort p t
    else
      let delta_mr := curr_mr - pred_mr
      if delta_mr ≤ params.numeric.epilson then pred_more_abort p t
      else
        { t with
          rcu_delta_relinq := t.stateless.db_rcu * delta_mr / curr_mr
          net_delta_relinq :=
            if p.alloc_total_net_bw then
              t.stateless.net_bw * delta_mr * t.net_bw_alpha /
                (curr_mr * t.net_bw_alpha + 1 - t.net_bw_alpha)
            else t.net_delta_relinq }

/-- The `abort_offer` label of Tenant::pred_rcu_net_delta_if_less_cache. -/
def pred_less_abort (p : Params) (t : Tenant) : Tenant :=
  { t with
    rcu_delta_compen := params.numeric.compen_abort_offer
    net_delta_compen :=
      if p.alloc_total_net_bw then params.numeric.compen_abort_offer
      else t.net_delta_compen }

/-- The `immediate_offer` label of Tenant::pred_rcu_net_delta_if_less_cache. -/
def pred_less_immediate (p : Params) (t : Tenant) : Tenant :=
  { t with
    rcu_delta_compen := 0
    net_delta_compen := if p.alloc_total_net_bw then 0 else t.net_delta_compen }

/-- Tenant::pred_rcu_net_delta_if_less_cache.  The guard
`cache_size < min_cache_size + cache_delta` makes the later `ℕ` subtraction
`cache_size - cache_delta` exact. -/
def pred_rcu_net_delta_if_less_cache (p : Params) (t : Tenant) : Tenant :=
  if t.cache_size < p.min_cache_size + p.cache_delta then pred_less_abort p t
  else
    let curr_mr := t.mrc.value t.cache_size
    let pred_mr := t.mrc.value (t.cache_size - p.cache_delta)
    if params.alloc.max_miss_ratio < pred_mr then pred_less_abort p t
    else
      let delta_mr := pred_mr - curr_mr
      if delta_mr ≤ params.numeric.epilson then pred_less_immediate p t
      else if pred_mr ≤ params.numeric.epilson then pred_less_immediate p t
      else if curr_mr ≤ params.numeric.epilson then pred_less_abort p t
      else
        { t with
          rcu_delta_compen := t.stateless.db_rcu * delta_mr / curr_mr
          net_delta_compen :=
            if p.alloc_total_net_bw then
              t.stateless.net_bw * delta_mr * t.net_bw_alpha /
                (curr_mr * t.net_bw_alpha + 1 - t.net_bw_alpha)
            else 0 }

/-- Tenant::update_rcu_net_delta: run the two predictions in source order. -/
def update_rcu_net_delta (p : Params) (t : Tenant) : Tenant :=
  pred_rcu_net_delta_if_less_cache p (pred_rcu_net_delta_if_more_cache p t)

/-- Tenant::update_mr_delta.  `cache_size - cache_delta` is an unguarded
`uint64_t` subtraction in the source, hence `sub64`. -/
def update_mr_delta (p : Params) (t : Tenant) : Tenant :=
  let curr_mr := t.mrc.value t.cache_size
  let more_mr := t.mrc.value (t.cache_size + p.cache_delta)
  let less_mr := t.mrc.value (sub64 t.cache_size p.cache_delta)
  { t with
    mr_inc_if_more_cache := curr_mr - more_mr
    mr_dec_if_less_cache := less_mr - curr_mr }

/-- Tenant::can_donate (with the default argument `cache_delta`). -/
def can_donate (p : Params) (t : Tenant) : Prop :=
  t.reserved_cache_size + p.cache_delta ≤ t.cache_size

instance (p : Params) (t : Tenant) : Decidable (t.can_donate p) := by
  unfold can_donate; infer_instance

/-- Tenant::scale_stateless_resrc. -/
def scale_stateless_resrc (scale_factor : ℚ) (t : Tenant) : Tenant :=
  { t with stateless := t.stateless.scale scale_factor }

/-- Tenant::scale_stateless_resrc_by_owned: add `avail` back weighted by the
tenant's share of `sum`, falling back to `1 / even_denom` on dimensions
where `sum` is zero. -/
def scale_stateless_resrc_by_owned (avail sum : StatelessResrcVec)
    (even_denom : ℕ) (t : Tenant) : Tenant :=
  let db_rcu_factor : ℚ :=
    if sum.db_rcu ≠ 0 then t.stateless.db_rcu / sum.db_rcu
    else 1 / (even_denom : ℚ)
  let db_wcu_factor : ℚ :=
    if sum.db_wcu ≠ 0 then t.stateless.db_wcu / sum.db_wcu
    else 1 / (even_denom : ℚ)
  let net_bw_factor : ℚ :=
    if sum.net_bw ≠ 0 then t.stateless.net_bw / sum.net_bw
    else 1 / (even_denom : ℚ)
  { t with
    stateless :=
      ⟨t.stateless.db_rcu + avail.db_rcu * db_rcu_factor,
       t.stateless.db_wcu + avail.db_wcu * db_wcu_factor,
       t.stateless.net_bw + avail.net_bw * net_bw_factor⟩ }

/-- Tenant::relocate_cache, acting on the (receiver, donator) pair. -/
def relocate_cache (p : Params) (t_receiver t_donator : Tenant) :
    Tenant × Tenant :=
  ({ t_receiver with cache_size := t_receiver.cache_size + p.cache_delta },
   { t_donator with cache_size := sub64 t_donator.cache_size p.cache_delta })

/-- Tenant::relocate_resrc, acting on the (relinquisher, compensator) pair. -/
def relocate_resrc (p : Params) (t_relinq t_compen : Tenant)
    (rcu_relinq rcu_compen net_relinq net_compen : ℚ) : Tenant × Tenant :=
  let t_compen :=
    { t_compen with
      cache_size := sub64 t_compen.cache_size p.cache_delta
      stateless :=
        { t_compen.stateless with
          db_rcu := t_compen.stateless.db_rcu + rcu_compen
          net_bw :=
            if p.alloc_total_net_bw then t_compen.stateless.net_bw + net_compen
            else t_compen.stateless.net_bw } }
  let t_relinq :=
    { t_relinq with
      cache_size := t_relinq.cache_size + p.cache_delta
      stateless :=
        { t_relinq.stateless with
          db_rcu := t_relinq.stateless.db_rcu - rcu_relinq
          net_bw :=
            if p.alloc_total_net_bw then t_relinq.stateless.net_bw - net_relinq
            else t_relinq.stateless.net_bw } }
  (t_relinq, t_compen)

/-- Tenant::aggregate_resrc: sum of the tenants' stateless allocations. -/
def aggregate_resrc (tenants : List Tenant) : StatelessResrcVec :=
  tenants.foldl (fun s t => s.add t.stateless) {}

end Tenant

/-! ## `hare::Allocator` (alloc.h)

Tenants live in a list; the pointer lists that the source sorts and swaps
are lists of tenant indices.  `std::max_element` / `std::min_element`
return the first position attaining the extremum, which the helpers below
reproduce. -/

/-- Position (0-based) of the first minimum of `key` over a list
(`std::min_element`); 0 for the empty list. -/
def minPosBy (key : ℕ → ℚ) : List ℕ → ℕ
  | [] => 0
  | [_] => 0
  | a :: b :: rest =>
    let p := minPosBy key (b :: rest)
    if key ((b :: rest).getD p 0) < key a then p + 1 else 0

/-- Position (0-based) of the first maximum of `key` over a list
(`std::max_element`); 0 for the empty list. -/
def maxPosBy (key : ℕ → ℚ) : List ℕ → ℕ
  | [] => 0
  | [_] => 0
  | a :: b :: rest =>
    let p := maxPosBy key (b :: rest)
    if key a < key ((b :: rest).getD p 0) then p + 1 else 0

/-- Allocator policy flags (set at construction). -/
structure Policy where
  harvest : Bool := true
  conserving : Bool := true
  memshare : Bool := false
  deriving Repr, DecidableEq

/-- Allocator state: the tenant list and the accumulated total resources. -/
structure Allocator where
  policy : Policy
  tenants : List Tenant := []
  total_resrc : ResrcVec := {}
  deriving Repr, DecidableEq

namespace Allocator

/-- Allocator::add_tenant. -/
def add_tenant (a : Allocator) (demand_cacheless : StatelessResrcVec)
    (base_resrc : ResrcVec) (mrc : MissRatioCurve) (net_bw_alpha : ℚ) :
    Allocator :=
  { a with
    total_resrc :=
      ⟨a.total_resrc.cache_size + base_resrc.cache_size,
       a.total_resrc.stateless.add base_resrc.stateless⟩
    tenants :=
      a.tenants ++
        [Tenant.mk' a.tenants.length demand_cacheless base_resrc mrc
          net_bw_alpha] }

/-- Allocator::get_alloc_result. -/
def get_alloc_result (a : Allocator) : List ResrcVec :=
  a.tenants.map fun t => ⟨t.cache_size, t.stateless⟩

/-- Allocator::estimate_bottleneck: returns
(estimated_improve_ratio, is_rcu_bottleneck, is_net_bottleneck). -/
def estimate_bottleneck (total : StatelessResrcVec)
    (resrc_avail : StatelessResrcVec) : ℚ × Bool × Bool :=
  let resrc_sum := total.sub resrc_avail
  let ratio := resrc_avail.minRatioDiv resrc_sum
  (ratio,
   decide (ratio = resrc_avail.db_rcu / resrc_sum.db_rcu),
   decide (ratio = resrc_avail.net_bw / resrc_sum.net_bw))

/-- Mutable state of the harvest trading loop.  `rcu_compen_order` and
`net_compen_order` are the two pointer lists that `std::iter_swap` can
reorder; the two relinquish lists are never reordered and always hold
`0, 1, ..., n-1`. -/
structure HarvestState where
  tenants : List Tenant
  rcu_compen_order : List ℕ
  net_compen_order : List ℕ
  resrc_avail : StatelessResrcVec
  prev_ratio : ℚ
  is_rcu_bottleneck : Bool
  is_net_bottleneck : Bool
  deriving Repr, DecidableEq

/-- Default tenant used to totalize list indexing (never reached on the
in-bounds indices the algorithm produces). -/
def dummyTenant : Tenant :=
  { t_idx := 0, demand_cacheless := {}, cache_size := 0, stateless := {},
    mrc := ⟨[], []⟩, net_bw_alpha := 0, reserved_cache_size := 0 }

/-- The relinquisher/compensator selection of one harvest round, on the
bottleneck resource's key functions; returns
(i_relinq, i_compen, the possibly `iter_swap`ped compensator list).
On a collision the found compensator is swapped to the front of the list
and the search restarts from the second position on. -/
def harvestPick (relinqKey compenKey : ℕ → ℚ) (n : ℕ)
    (compen_list : List ℕ) : ℕ × ℕ × List ℕ :=
  let relinq_list := List.range n
  let i_relinq := relinq_list.getD (maxPosBy relinqKey relinq_list) 0
  let compen_pos := minPosBy compenKey compen_list
  let i_compen := compen_list.getD compen_pos 0
  let collision := i_relinq = i_compen
  let compen_list' :=
    if collision then
      (compen_list.set 0 i_compen).set compen_pos (compen_list.getD 0 0)
    else compen_list
  let tail := compen_list'.drop 1
  let i_compen :=
    if collision then tail.getD (minPosBy compenKey tail) 0 else i_compen
  (i_relinq, i_compen, compen_list')

/-- The commit of one harvest deal: move one `cache_delta` of cache from
the compensator to the relinquisher, exchange the offered stateless
resources, then refresh both tenants' predicted offers. -/
def harvestCommit (p : Params) (ts : List Tenant)
    (i_relinq i_compen : ℕ) : List Tenant :=
  let getT := fun i => ts.getD i dummyTenant
  let moved :=
    Tenant.relocate_resrc p (getT i_relinq) (getT i_compen)
      (getT i_relinq).rcu_delta_relinq (getT i_compen).rcu_delta_compen
      (getT i_relinq).net_delta_relinq (getT i_compen).net_delta_compen
  let ts' := (ts.set i_relinq moved.1).set i_compen moved.2
  let getT' := fun i => ts'.getD i dummyTenant
  let ts'' :=
    (ts'.set i_relinq (Tenant.update_rcu_net_delta p (getT' i_relinq)))
  let getT'' := fun i => ts''.getD i dummyTenant
  ts''.set i_compen (Tenant.update_rcu_net_delta p (getT'' i_compen))

/-- One iteration of the harvest `while (true)` loop, up to and including
the commit; `none` means the loop `break`s without changing anything. -/
def harvestStep (p : Params) (total : StatelessResrcVec) (s : HarvestState) :
    Option HarvestState :=
  let ts := s.tenants
  let getT := fun i => ts.getD i dummyTenant
  -- pick the relinquisher and compensator lists for the bottleneck resource
  if s.is_rcu_bottleneck ∨ (p.alloc_total_net_bw ∧ s.is_net_bottleneck) then
    let onRcu := s.is_rcu_bottleneck
    let relinqKey := fun i =>
      if onRcu then (getT i).rcu_delta_relinq else (getT i).net_delta_relinq
    let compenKey := fun i =>
      if onRcu then (getT i).rcu_delta_compen else (getT i).net_delta_compen
    let compen_list := if onRcu then s.rcu_compen_order else s.net_compen_order
    let picked := harvestPick relinqKey compenKey ts.length compen_list
    let i_relinq := picked.1
    let i_compen := picked.2.1
    let compen_list' := picked.2.2
    let rcu_delta_relinq := (getT i_relinq).rcu_delta_relinq
    let net_delta_relinq := (getT i_relinq).net_delta_relinq
    let rcu_delta_compen := (getT i_compen).rcu_delta_compen
    let net_delta_compen := (getT i_compen).net_delta_compen
    let rcu_profit := rcu_delta_relinq - rcu_delta_compen
    let net_profit := net_delta_relinq - net_delta_compen
    let resrc_if_deal :=
      { s.resrc_avail with
        db_rcu := s.resrc_avail.db_rcu + rcu_profit
        net_bw := s.resrc_avail.net_bw + net_profit }
    let est := estimate_bottleneck total resrc_if_deal
    if est.1 - s.prev_ratio < params.alloc.min_improve_ratio_delta then
      none -- deal cancelled due to low improvement gain
    else
      -- commit the deal
      some
        { tenants := harvestCommit p ts i_relinq i_compen
          rcu_compen_order := if onRcu then compen_list' else s.rcu_compen_order
          net_compen_order := if onRcu then s.net_compen_order else compen_list'
          resrc_avail := resrc_if_deal
          prev_ratio := est.1
          is_rcu_bottleneck := est.2.1
          is_net_bottleneck := est.2.2 }
  else none -- neither cache-correlated resource is the bottleneck

/-- The harvest trading loop, with fuel counting the remaining rounds
(the source bounds it by `params::alloc::max_trade_round`). -/
def harvestLoop (p : Params) (total : StatelessResrcVec) :
    ℕ → HarvestState → HarvestState
  | 0, s => s
  | fuel + 1, s =>
    match harvestStep p total s with
    | none => s
    | some s' => harvestLoop p total fuel s'

/-- Allocator::do_harvest: estimate the bottleneck, refresh every tenant's
relinquish/compensate predictions, then trade. -/
def do_harvest (p : Params) (total : StatelessResrcVec) (tenants : List Tenant)
    (resrc_avail : StatelessResrcVec) :
    List Tenant × StatelessResrcVec :=
  let est := estimate_bottleneck total resrc_avail
  let ts := tenants.map (Tenant.update_rcu_net_delta p)
  let n := ts.length
  let s := harvestLoop p total params.alloc.max_trade_round
    { tenants := ts
      rcu_compen_order := List.range n
      net_compen_order := List.range n
      resrc_avail := resrc_avail
      prev_ratio := est.1
      is_rcu_bottleneck := est.2.1
      is_net_bottleneck := est.2.2 }
  (s.tenants, s.resrc_avail)

/-- The receiver choice of the memshare pass:
`std::max_element(cache_more_list, less_mr_inc)` where the source's
comparator deliberately compares `lhs->mr_inc_if_more_cache` against
`rhs->mr_dec_if_less_cache` (kept exactly as in the source). -/
def memshareReceiver (ts : List Tenant) : ℕ :=
  match List.range ts.length with
  | [] => 0
  | h :: rest =>
    rest.foldl
      (fun best i =>
        if (ts.getD best dummyTenant).mr_inc_if_more_cache <
            (ts.getD i dummyTenant).mr_dec_if_less_cache
        then i else best) h

/-- One iteration of the memshare `while (true)` loop; `none` means the
loop terminates.  `std::sort` over the donator list is modelled with a
stable merge sort on the same key (the source's ordering among equal keys
is unspecified). -/
def memshareStep (p : Params) (ts : List Tenant) : Option (List Tenant) :=
  let ts := ts.map (Tenant.update_mr_delta p)
  let getT := fun i => ts.getD i dummyTenant
  let idxs := List.range ts.length
  let i_receiver := memshareReceiver ts
  let sorted :=
    idxs.mergeSort fun i j =>
      (getT i).mr_dec_if_less_cache ≤ (getT j).mr_dec_if_less_cache
  match sorted.find? fun i => i ≠ i_receiver ∧ (getT i).can_donate p with
  | none => none -- fail to find a donator
  | some i_donator =>
    let mr_inc := (getT i_receiver).mr_inc_if_more_cache
    let mr_dec := (getT i_donator).mr_dec_if_less_cache
    if mr_dec < mr_inc then
      let moved := Tenant.relocate_cache p (getT i_receiver) (getT i_donator)
      some ((ts.set i_receiver moved.1).set i_donator moved.2)
    else none -- relocating does not profit

/-- The memshare loop.  The source loop is unbounded (`while (true)` with
no round limit); the model makes the fuel explicit and the theorems hold
for every fuel. -/
def memshareLoop (p : Params) : ℕ → List Tenant → List Tenant
  | 0, ts => ts
  | fuel + 1, ts =>
    match memshareStep p ts with
    | none => ts
    | some ts' => memshareLoop p fuel ts'

/-- Allocator::do_redistribute: returns the new tenants, the leftover
`resrc_avail` and the improvement ratio. -/
def do_redistribute (_p : Params) (pol : Policy) (total : StatelessResrcVec)
    (tenants : List Tenant) (resrc_avail : StatelessResrcVec) :
    List Tenant × StatelessResrcVec × ℚ :=
  let resrc_sum := total.sub resrc_avail
  let improve_ratio := resrc_avail.minRatioDiv resrc_sum
  if pol.conserving then
    (tenants.map
      (Tenant.scale_stateless_resrc_by_owned resrc_avail resrc_sum
        tenants.length),
     {}, improve_ratio)
  else
    let scale_factor := 1 + improve_ratio
    let ts := tenants.map (Tenant.scale_stateless_resrc scale_factor)
    (ts, total.sub (Tenant.aggregate_resrc ts), improve_ratio)

/-- Allocator::do_alloc.  `memshare_fuel` bounds the unbounded memshare
loop of the source.  Returns the updated allocator and the improvement
ratio. -/
def do_alloc (p : Params) (memshare_fuel : ℕ) (a : Allocator) :
    Allocator × ℚ :=
  if a.tenants.length ≤ 1 then (a, 0)
  else
    let ts0 :=
      if a.policy.memshare then memshareLoop p memshare_fuel a.tenants
      else a.tenants
    let collected := ts0.map (Tenant.collect_idle p)
    let resrc_avail :=
      collected.foldl (fun s pr => s.add pr.1) ({} : StatelessResrcVec)
    let ts1 := collected.map (·.2)
    let harvested :=
      if a.policy.harvest then
        do_harvest p a.total_resrc.stateless ts1 resrc_avail
      else (ts1, resrc_avail)
    if harvested.2.is_almost_empty then ({ a with tenants := harvested.1 }, 0)
    else
      let redistributed :=
        do_redistribute p a.policy a.total_resrc.stateless harvested.1
          harvested.2
      ({ a with tenants := redistributed.1 }, redistributed.2.2)

end Allocator

/-! ## `hopper::utils::resrc` (utils.h) -/

namespace utils.resrc

def kv_to_rcu (key_size val_size : ℕ) : ℕ := (key_size + val_size) / 4096 + 1

def kv_to_wcu (key_size val_size : ℕ) : ℕ := (key_size + val_size) / 1024 + 1

def kv_to_net_get_client (key_size val_size : ℕ) : ℕ := key_size + val_size

def kv_to_net_set_client (key_size val_size : ℕ) : ℕ := key_size + val_size

def kv_to_net_get_storage (key_size val_size : ℕ) : ℕ := key_size + val_size

def kv_to_net_set_storage (key_size val_size : ℕ) : ℕ := key_size + val_size

end utils.resrc

/-! ## `hopper::inflight` (inflight.cpp)

`inflight_map` is an `std::unordered_map<std::string, TaskGet *>`; it is
modelled as an association list of `(key, task identity)` pairs with the
map operations spelled out, so that "at most one entry per key" is a
provable invariant of the operation semantics rather than an axiom of the
container.  Task pointers are identified by natural numbers. -/

namespace inflight

/-- config::cache::enable_inflight_dedup (a compile-time constant). -/
def enable_inflight_dedup : Bool := true

abbrev Registry := List (String × ℕ)

def containsKey (m : Registry) (key : String) : Bool := m.any (·.1 = key)

/-- `inflight_map.find(key)`: the stored task for `key`, if any. -/
def findTask (m : Registry) (key : String) : Option ℕ :=
  (m.find? (·.1 = key)).map (·.2)

/-- `inflight_map.erase(key)` / `inflight_map.erase(it)`: drop the entry
for `key`. -/
def eraseKey (m : Registry) (key : String) : Registry :=
  m.filter (·.1 ≠ key)

/-- `inflight_map[key] = t`: overwrite the entry if present, insert
otherwise. -/
def setTask (m : Registry) (key : String) (t : ℕ) : Registry :=
  if containsKey m key then
    m.map fun e => if e.1 = key then (key, t) else e
  else m ++ [(key, t)]

/-- hopper::inflight::check_inflight.  `dedup` is
`config::cache::enable_inflight_dedup`. -/
def check_inflight (dedup : Bool) (m : Registry) (key : String) : Bool :=
  if ¬dedup then false else containsKey m key

/-- hopper::inflight::begin_inflight. -/
def begin_inflight (dedup : Bool) (m : Registry) (key : String) (t : ℕ) :
    Registry :=
  if ¬dedup then m else setTask m key t

/-- hopper::inflight::end_inflight: returns the updated registry and
whether the cache may be updated from the task's value. -/
def end_inflight (dedup : Bool) (m : Registry) (key : String) (t : ℕ) :
    Registry × Bool :=
  if ¬dedup then (m, true)
  else
    match findTask m key with
    | none => (m, false)
    | some t' => if t' ≠ t then (m, false) else (eraseKey m key, true)

/-- hopper::inflight::invalidate_inflight. -/
def invalidate_inflight (dedup : Bool) (m : Registry) (key : String) :
    Registry :=
  if ¬dedup then m else eraseKey m key

/-- The registry-mutating operations, for stating invariants over arbitrary
operation sequences (`finish` is `end_inflight`, whose boolean result is
irrelevant to the registry contents). -/
inductive Op where
  | begin_ (key : String) (t : ℕ)
  | finish (key : String) (t : ℕ)
  | invalidate (key : String)
  deriving Repr, DecidableEq

def applyOp (dedup : Bool) (m : Registry) : Op → Registry
  | .begin_ key t => begin_inflight dedup m key t
  | .finish key t => (end_inflight dedup m key t).1
  | .invalidate key => invalidate_inflight dedup m key

def run (dedup : Bool) (ops : List Op) : Registry :=
  ops.foldl (applyOp dedup) []

end inflight

/-! ## Request pipeline pieces (get.cpp / set.cpp)

The pipeline steps are modelled as pure functions from the relevant
instance state to the updated state plus the externally observable effects
(replies, unblocked clients, ghost-cache accesses, statistics records,
egress/upstream bandwidth charges, tasks handed to the storage worker).
Redis keys may hold values of a non-string type written by other commands,
hence the `RVal` tag. -/

/-- A cached Redis value: a string, or a value of some other Redis type. -/
inductive RVal where
  | str (s : String)
  | other
  deriving Repr, DecidableEq

/-- The Redis keyspace. -/
def Cache := String → Option RVal

/-- Task::Status. -/
inductive Status where
  | NONE
  | OK
  | ERR
  deriving Repr, DecidableEq

/-- task::TaskGet, at completion time: the pointer identity, key, fetched
value (or error string), terminal status, and registered dependents
(blocked clients, identified by naturals). -/
structure TaskGet where
  id : ℕ
  key : String
  value : String
  status : Status
  dependents : List ℕ
  deriving Repr, DecidableEq

/-- A reply sent to a client. -/
inductive Reply where
  | value (s : String)
  | simple (s : String)
  | error (s : String)
  deriving Repr, DecidableEq

/-- stats events (stats.cpp records). -/
inductive StatEvent where
  | get_done (k_len v_len : ℕ) (is_miss : Bool)
  | set_done (k_len v_len : ℕ)
  deriving Repr, DecidableEq

/-- A ghost-cache access `ghost::access_key(key, val_size, update_miss_ratio)`. -/
structure GhostAccess where
  key : String
  val_size : ℕ
  update_miss_ratio : Bool
  deriving Repr, DecidableEq

/-- Observable outcome of get::storage_callback. -/
structure GetCbResult where
  registry : inflight.Registry
  cache : Cache
  /-- ghost::update_kv_size calls performed -/
  ghost_updates : List (String × ℕ)
  /-- the reply sent to the task's own (primary) client -/
  owner_reply : Reply
  /-- dependents unblocked, each with its private-data payload -/
  wakes : List (ℕ × Option String)
  stats : List StatEvent
  /-- bytes charged to the egress limiter -/
  net_consumed : ℕ

/-- get::storage_callback: completion of the upstream fetch owned by this
task.  `dedup` is `config::cache::enable_inflight_dedup` and `alloc_total`
is `config::policy::alloc_total_net_bw`. -/
def get.storage_callback (dedup alloc_total : Bool) (cache : Cache)
    (reg : inflight.Registry) (t : TaskGet) : GetCbResult :=
  let er := inflight.end_inflight dedup reg t.key t.id
  let update_cache := er.2
  if t.status = .ERR then
    { registry := er.1
      cache := cache
      ghost_updates := []
      owner_reply := .error "ERR Fail to get from DynamoDB"
      wakes := t.dependents.map fun bc => (bc, none)
      stats := []
      net_consumed := 0 }
  else
    { registry := er.1
      cache :=
        if update_cache then
          fun k => if k = t.key then some (.str t.value) else cache k
        else cache
      ghost_updates := if update_cache then [(t.key, t.value.length)] else []
      owner_reply := .value t.value
      wakes := t.dependents.map fun bc => (bc, some t.value)
      stats := [.get_done t.key.length t.value.length true]
      net_consumed :=
        utils.resrc.kv_to_net_get_client t.key.length t.value.length +
          if alloc_total then
            utils.resrc.kv_to_net_get_storage t.key.length t.value.length
          else 0 }

/-- Observable outcome of get::inflight_callback (a dependent waking up). -/
structure InflightCbResult where
  reply : Reply
  stats : List StatEvent
  net_consumed : ℕ
  deriving Repr, DecidableEq

/-- get::inflight_callback: a dependent client wakes with the payload its
unblock call carried (`none` models the null private data). -/
def get.inflight_callback (payload : Option String) (k_len : ℕ) :
    InflightCbResult :=
  match payload with
  | none => { reply := .error "ERR Fail to get from DynamoDB", stats := [], net_consumed := 0 }
  | some s =>
    { reply := .value s
      stats := [.get_done k_len s.length false]
      net_consumed := utils.resrc.kv_to_net_get_client k_len s.length }

/-- Per-instance state touched by RedisModule_HopperSet. -/
structure SetState where
  cache : Cache
  registry : inflight.Registry
  ghost_accesses : List GhostAccess
  stats : List StatEvent
  net_consumed : ℕ
  /-- Set tasks handed to the storage worker (key, value) -/
  storage_queue : List (String × String)

/-- RedisModule_HopperSet with key and value arguments.
`admit_write` is `config::cache::admit_write`; the wrongtype branch leaves
the state untouched and replies with an error. -/
def hopperSet (admit_write dedup alloc_total : Bool) (st : SetState)
    (key val : String) : SetState × Reply :=
  let proceed : Cache → inflight.Registry → SetState × Reply :=
    fun cache' reg' =>
      ({ cache := cache'
         registry := reg'
         ghost_accesses := st.ghost_accesses ++ [⟨key, val.length, false⟩]
         stats := st.stats ++ [.set_done key.length val.length]
         net_consumed :=
           st.net_consumed +
             (utils.resrc.kv_to_net_set_client key.length val.length +
               if alloc_total then
                 utils.resrc.kv_to_net_set_storage key.length val.length
               else 0)
         storage_queue := st.storage_queue ++ [(key, val)] },
       .simple "OK")
  match st.cache key with
  | some (.str _) =>
    -- the key already holds a string: update it for cache coherence
    proceed (fun k => if k = key then some (.str val) else st.cache k)
      (inflight.invalidate_inflight dedup st.registry key)
  | none =>
    -- not present yet: admit the write only if config::cache::admit_write
    if admit_write then
      proceed (fun k => if k = key then some (.str val) else st.cache k)
        (inflight.invalidate_inflight dedup st.registry key)
    else proceed st.cache st.registry
  | some .other => (st, .error "WRONGTYPE")

/-! ## Auxiliary predicates and concrete instances used by the theorems -/

/-- Concrete well-formed curve used by the MRC witnesses. -/
def mrcW : MissRatioCurve := ⟨[2, 4], [3/4, 1/4]⟩

/-- With `alloc_total_net_bw` disabled, the source's relocate_resrc asserts
that the net deltas being moved are zero; this predicate states that every
tenant's stored net offers are zero, which `add_tenant` establishes and all
tenant updates preserve. -/
def netDeltaOk (p : Params) (ts : List Tenant) : Prop :=
  p.alloc_total_net_bw = false →
    ∀ t ∈ ts, t.net_delta_relinq = 0 ∧ t.net_delta_compen = 0

/-- Invariant carried through the harvest trading loop: at least two
tenants; the tenants' aggregate stateless allocation plus the available
pool equals the fixed total; the two compensator pointer lists are
duplicate-free, in-bounds permutations of the tenant indices; and the
stored net offers are zero whenever `alloc_total_net_bw` is off. -/
def Allocator.HarvestInv (p : Params) (total : StatelessResrcVec)
    (s : Allocator.HarvestState) : Prop :=
  2 ≤ s.tenants.length ∧
  (Tenant.aggregate_resrc s.tenants).add s.resrc_avail = total ∧
  s.rcu_compen_order.Nodup ∧
  s.net_compen_order.Nodup ∧
  (∀ i ∈ s.rcu_compen_order, i < s.tenants.length) ∧
  (∀ i ∈ s.net_compen_order, i < s.tenants.length) ∧
  s.rcu_compen_order.length = s.tenants.length ∧
  s.net_compen_order.length = s.tenants.length ∧
  netDeltaOk p s.tenants

/-- Concrete miss-ratio curve for the harvest counterexamples:
anchors (4, 9/10), (12, 89/100), (20, 1/2).  With one `cache_delta = 8` of
extra cache the miss ratio drops a lot (89/100 → 1/2); giving up one delta
costs little (89/100 → 9/10). -/
def mrcEx : MissRatioCurve := ⟨[4, 12, 20], [9/10, 89/100, 1/2]⟩

/-- Parameters for the harvest counterexamples: default policy
(`alloc_total_net_bw = true`), `cache_delta = 8` bytes,
`min_cache_size = 0` (both settable through the engine's exported
setters). -/
def pEx : Params := { alloc_total_net_bw := true, cache_delta := 8, min_cache_size := 0 }

/-- The identical base allocation of the two counterexample tenants:
12 bytes of cache and stateless vector (89/100, 2, 2). -/
def bEx : ResrcVec := ⟨12, ⟨89/100, 2, 2⟩⟩

/-- The identical demand vector of the two counterexample tenants. -/
def dEx : StatelessResrcVec := ⟨1, 1, 1⟩

/-- Two-tenant allocator (harvest and conserving enabled) with two
identical tenants, built through add_tenant; `net_bw_alpha = 0`. -/
def aEx : Allocator :=
  ((Allocator.mk ⟨true, true, false⟩ [] {}).add_tenant dEx bEx mrcEx 0).add_tenant
    dEx bEx mrcEx 0

/-- Two-tenant allocator in plain DRF mode (harvest and memshare both
disabled, conserving on) with the same two identical tenants. -/
def aEx2 : Allocator :=
  ((Allocator.mk ⟨false, true, false⟩ [] {}).add_tenant dEx bEx mrcEx 0).add_tenant
    dEx bEx mrcEx 0

/-- The two identical counterexample tenants as built by add_tenant. -/
def tBase0 : Tenant :=
  { t_idx := 0, demand_cacheless := dEx, cache_size := 12,
    stateless := ⟨89/100, 2, 2⟩, mrc := mrcEx, net_bw_alpha := 0,
    reserved_cache_size := 6 }

def tBase1 : Tenant := { tBase0 with t_idx := 1 }

/-- The counterexample tenants right after collect_idle. -/
def cEx0 : Tenant := { tBase0 with stateless := ⟨89/100, 1, 1⟩ }

def cEx1 : Tenant := { cEx0 with t_idx := 1 }

/-- The state of the counterexample tenants after collect_idle and the
first prediction refresh of do_harvest. -/
def tEx0 : Tenant :=
  { t_idx := 0, demand_cacheless := dEx, cache_size := 12,
    stateless := ⟨89/100, 1, 1⟩, mrc := mrcEx, net_bw_alpha := 0,
    rcu_delta_relinq := 39/100, rcu_delta_compen := 1/100,
    net_delta_relinq := 0, net_delta_compen := 0,
    reserved_cache_size := 6 }

def tEx1 : Tenant := { tEx0 with t_idx := 1 }

/-- The harvest state entering the trading loop of the counterexample. -/
def sEx0 : Allocator.HarvestState :=
  { tenants := [tEx0, tEx1]
    rcu_compen_order := [0, 1]
    net_compen_order := [0, 1]
    resrc_avail := ⟨0, 2, 2⟩
    prev_ratio := 0
    is_rcu_bottleneck := true
    is_net_bottleneck := false }

/-- The harvest state after the single committed trade of the
counterexample: tenant 0 relinquishes rcu and gains cache, tenant 1 is
compensated and drops to 4 bytes of cache (below its reserved 6). -/
def sEx1 : Allocator.HarvestState :=
  { tenants :=
      [{ tEx0 with
          cache_size := 20
          stateless := ⟨1/2, 1, 1⟩
          rcu_delta_relinq := 0
          rcu_delta_compen := 39/100 },
       { tEx1 with
          cache_size := 4
          stateless := ⟨9/10, 1, 1⟩
          rcu_delta_relinq := 1/100
          rcu_delta_compen := params.numeric.compen_abort_offer
          net_delta_compen := params.numeric.compen_abort_offer }]
    rcu_compen_order := [0, 1]
    net_compen_order := [0, 1]
    resrc_avail := ⟨38/100, 2, 2⟩
    prev_ratio := 19/70
    is_rcu_bottleneck := true
    is_net_bottleneck := false }

/-! # Theorems

First, general lemmas about list indexing, chains and the lower-bound
search used by `get_miss_ratio_const`. -/

lemma getLastD_eq_getD {α : Type} (d : α) :
    ∀ l : List α, l ≠ [] → l.getLastD d = l.getD (l.length - 1) d
  | [], h => absurd rfl h
  | [a], _ => rfl
  | a :: b :: t, _ => by
    have ih := getLastD_eq_getD d (b :: t) (by simp)
    simpa [List.getLastD_cons] using ih

lemma headD_eq_getD {α : Type} (d : α) (l : List α) : l.headD d = l.getD 0 d := by
  cases l <;> rfl

lemma chain'_getD_lt {l : List ℕ} (h : l.Chain' (· < ·)) {i j : ℕ}
    (hij : i < j) (hj : j < l.length) : l.getD i 0 < l.getD j 0 := by
  have hp : l.Pairwise (· < ·) := List.chain'_iff_pairwise.mp h
  have hi : i < l.length := lt_trans hij hj
  rw [List.getD_eq_getElem _ _ hi, List.getD_eq_getElem _ _ hj]
  exact List.pairwise_iff_get.mp hp ⟨i, hi⟩ ⟨j, hj⟩ hij

lemma chain'_getD_le {l : List ℕ} (h : l.Chain' (· < ·)) {i j : ℕ}
    (hij : i ≤ j) (hj : j < l.length) : l.getD i 0 ≤ l.getD j 0 := by
  rcases eq_or_lt_of_le hij with rfl | hlt
  · exact le_refl _
  · exact le_of_lt (chain'_getD_lt h hlt hj)

lemma chain'_getD_ge {l : List ℚ} (h : l.Chain' (· ≥ ·)) {i j : ℕ}
    (hij : i ≤ j) (hj : j < l.length) : l.getD j 0 ≤ l.getD i 0 := by
  rcases eq_or_lt_of_le hij with rfl | hlt
  · exact le_refl _
  · have hp : l.Pairwise (· ≥ ·) := List.chain'_iff_pairwise.mp h
    have hi : i < l.length := lt_trans hlt hj
    rw [List.getD_eq_getElem _ _ hi, List.getD_eq_getElem _ _ hj]
    exact List.pairwise_iff_get.mp hp ⟨i, hi⟩ ⟨j, hj⟩ hlt

namespace MissRatioCurve

lemma lowerBoundIdx_le_length (x : ℕ) :
    ∀ l : List ℕ, lowerBoundIdx x l ≤ l.length
  | [] => le_refl 0
  | t :: ts => by
    unfold lowerBoundIdx
    by_cases h : x ≤ t
    · simp [h]
    · simpa [h] using lowerBoundIdx_le_length x ts

lemma lowerBoundIdx_lt_length {x : ℕ} :
    ∀ {l : List ℕ}, (∃ t ∈ l, x ≤ t) → lowerBoundIdx x l < l.length
  | [], h => by simp at h
  | t :: ts, h => by
    unfold lowerBoundIdx
    by_cases hx : x ≤ t
    · simp [hx]
    · have : ∃ u ∈ ts, x ≤ u := by
        rcases h with ⟨u, hu, hxu⟩
        rcases List.mem_cons.mp hu with rfl | hmem
        · exact absurd hxu hx
        · exact ⟨u, hmem, hxu⟩
      simpa [hx] using lowerBoundIdx_lt_length this

lemma le_getD_lowerBoundIdx {x : ℕ} :
    ∀ {l : List ℕ}, lowerBoundIdx x l < l.length →
      x ≤ l.getD (lowerBoundIdx x l) 0
  | [], h => by simp [lowerBoundIdx] at h
  | t :: ts, h => by
    unfold lowerBoundIdx at h ⊢
    by_cases hx : x ≤ t
    · simp [hx]
    · simp only [hx, if_false] at h ⊢
      have h' : lowerBoundIdx x ts < ts.length := by
        simpa using h
      simpa using le_getD_lowerBoundIdx h'

lemma getD_lt_of_lt_lowerBoundIdx {x : ℕ} :
    ∀ {l : List ℕ} {j : ℕ}, j < lowerBoundIdx x l → l.getD j 0 < x
  | [], j, h => by simp [lowerBoundIdx] at h
  | t :: ts, j, h => by
    unfold lowerBoundIdx at h
    by_cases hx : x ≤ t
    · simp [hx] at h
    · simp only [hx, if_false] at h
      match j with
      | 0 => simpa using Nat.lt_of_not_le hx
      | j' + 1 =>
        have : j' < lowerBoundIdx x ts := by omega
        simpa using getD_lt_of_lt_lowerBoundIdx this

lemma lowerBoundIdx_eq {x : ℕ} {l : List ℕ} {i : ℕ} (hi : i < l.length)
    (h1 : x ≤ l.getD i 0) (h2 : ∀ j < i, l.getD j 0 < x) :
    lowerBoundIdx x l = i := by
  rcases lt_trichotomy (lowerBoundIdx x l) i with hlt | heq | hgt
  · have hk : lowerBoundIdx x l < l.length := lt_trans hlt hi
    have := le_getD_lowerBoundIdx hk
    exact absurd this (not_le_of_lt (h2 _ hlt))
  · exact heq
  · exact absurd h1 (not_le_of_lt (getD_lt_of_lt_lowerBoundIdx hgt))

end MissRatioCurve

namespace MissRatioCurve

/-! Evaluation lemmas for `get_miss_ratio_const` on well-formed curves.
Throughout, `T i` abbreviates `c.ticks.getD i 0` and `M i` abbreviates
`c.miss_ratios.getD i 0`. -/

lemma get_ok_exists (cons : Bool) {c : MissRatioCurve} {x : ℕ}
    (hx : x ≤ c.ticks.getLastD 0) :
    ∃ v, c.get_miss_ratio_const false cons x = .ok v := by
  unfold get_miss_ratio_const
  rw [if_neg (not_lt_of_le hx)]
  by_cases h2 : x < c.ticks.headD 0
  · exact ⟨_, if_pos h2⟩
  · rw [if_neg h2]
    by_cases h3 : x = c.ticks.getD (lowerBoundIdx x c.ticks) 0
    · exact ⟨_, if_pos h3⟩
    · exact ⟨_, if_neg h3⟩

lemma get_ok_of_le_last (cons : Bool) {c : MissRatioCurve} {x : ℕ}
    (hx : x ≤ c.ticks.getLastD 0) :
    c.get_miss_ratio_const false cons x = .ok (mrAt cons c x) := by
  obtain ⟨v, hv⟩ := get_ok_exists cons hx
  unfold mrAt
  rw [hv]

lemma head_le_last {c : MissRatioCurve} (h : c.WF) :
    c.ticks.headD 0 ≤ c.ticks.getLastD 0 := by
  obtain ⟨hne, _, hchain, _, _⟩ := h
  have hn : 0 < c.ticks.length := List.length_pos.mpr hne
  rw [headD_eq_getD, getLastD_eq_getD 0 _ hne]
  exact chain'_getD_le hchain (Nat.zero_le _) (by omega)

lemma anchor_eval (dni cons : Bool) {c : MissRatioCurve} (h : c.WF) {i : ℕ}
    (hi : i < c.ticks.length) :
    c.get_miss_ratio_const dni cons (c.ticks.getD i 0) =
      .ok (c.miss_ratios.getD i 0) := by
  obtain ⟨hne, hlen, hchain, hmem, hmr⟩ := h
  have hn : 0 < c.ticks.length := List.length_pos.mpr hne
  have hle_last : c.ticks.getD i 0 ≤ c.ticks.getLastD 0 := by
    rw [getLastD_eq_getD 0 _ hne]
    exact chain'_getD_le hchain (by omega) (by omega)
  have hge_head : c.ticks.headD 0 ≤ c.ticks.getD i 0 := by
    rw [headD_eq_getD]
    exact chain'_getD_le hchain (Nat.zero_le i) hi
  have hlb : lowerBoundIdx (c.ticks.getD i 0) c.ticks = i :=
    lowerBoundIdx_eq hi (le_refl _) fun j hj => chain'_getD_lt hchain hj hi
  unfold get_miss_ratio_const
  rw [if_neg (not_lt_of_le hle_last), if_neg (not_lt_of_le hge_head), hlb,
    if_pos rfl]

lemma mrAt_anchor_val (cons : Bool) {c : MissRatioCurve} (h : c.WF) {i : ℕ}
    (hi : i < c.ticks.length) :
    mrAt cons c (c.ticks.getD i 0) = c.miss_ratios.getD i 0 := by
  have h1 := anchor_eval false cons h hi
  have hle : c.ticks.getD i 0 ≤ c.ticks.getLastD 0 := by
    obtain ⟨hne, _, hchain, _, _⟩ := h
    rw [getLastD_eq_getD 0 _ hne]
    exact chain'_getD_le hchain (by omega) (by have := List.length_pos.mpr hne; omega)
  have h2 := get_ok_of_le_last cons hle
  rw [h1] at h2
  exact (Except.ok.injEq _ _).mp h2.symm

lemma mrAt_below_first (cons : Bool) {c : MissRatioCurve} (h : c.WF) {x : ℕ}
    (hx : x < c.ticks.headD 0) :
    c.get_miss_ratio_const false cons x =
      .ok (interpolate false 1 (c.miss_ratios.headD 0) x
        (c.ticks.headD 0 - x)) := by
  have hle : x ≤ c.ticks.getLastD 0 := le_of_lt (lt_of_lt_of_le hx (head_le_last h))
  unfold get_miss_ratio_const
  rw [if_neg (not_lt_of_le hle), if_pos hx]

lemma mrAt_in_segment (cons : Bool) {c : MissRatioCurve} (h : c.WF) {i x : ℕ}
    (hi : i + 1 < c.ticks.length) (hx1 : c.ticks.getD i 0 < x)
    (hx2 : x < c.ticks.getD (i + 1) 0) :
    c.get_miss_ratio_const false cons x =
      .ok (interpolate false (c.miss_ratios.getD i 0)
        (c.miss_ratios.getD (i + 1) 0) (x - c.ticks.getD i 0)
        (c.ticks.getD (i + 1) 0 - x)) := by
  obtain ⟨hne, hlen, hchain, hmem, hmr⟩ := h
  have hn : 0 < c.ticks.length := List.length_pos.mpr hne
  have hle_last : x ≤ c.ticks.getLastD 0 := by
    rw [getLastD_eq_getD 0 _ hne]
    exact le_of_lt (lt_of_lt_of_le hx2 (chain'_getD_le hchain (by omega) (by omega)))
  have hge_head : c.ticks.headD 0 ≤ x := by
    rw [headD_eq_getD]
    exact le_of_lt (lt_of_le_of_lt (chain'_getD_le hchain (Nat.zero_le i) (by omega)) hx1)
  have hlb : lowerBoundIdx x c.ticks = i + 1 := by
    refine lowerBoundIdx_eq hi (le_of_lt hx2) fun j hj => ?_
    exact lt_of_le_of_lt (chain'_getD_le hchain (by omega) (by omega)) hx1
  have hne_tick : x ≠ c.ticks.getD (i + 1) 0 := ne_of_lt hx2
  unfold get_miss_ratio_const
  rw [if_neg (not_lt_of_le hle_last), if_neg (not_lt_of_le hge_head), hlb,
    if_neg hne_tick, Nat.add_sub_cancel]

/-! Algebraic facts about `interpolate` with the compiled
`disable_interpolation_near_inf = false`. -/

lemma interpolate_false_eq (l r : ℚ) (ld rd : ℕ) (h : 0 < ld + rd) :
    interpolate false l r ld rd = (l * rd + r * ld) / (ld + rd) := by
  have h0 : (0:ℚ) < (ld : ℚ) + (rd : ℚ) := by exact_mod_cast h
  unfold interpolate
  simp only [Bool.false_eq_true, false_and, if_false]
  field_simp

lemma interpolate_false_bounds {l r : ℚ} (ld rd : ℕ) (hle : r ≤ l)
    (h : 0 < ld + rd) :
    r ≤ interpolate false l r ld rd ∧ interpolate false l r ld rd ≤ l := by
  have h0 : (0:ℚ) < (ld : ℚ) + (rd : ℚ) := by exact_mod_cast h
  have hld : (0:ℚ) ≤ (ld : ℚ) := Nat.cast_nonneg ld
  have hrd : (0:ℚ) ≤ (rd : ℚ) := Nat.cast_nonneg rd
  rw [interpolate_false_eq _ _ _ _ h]
  constructor
  · rw [le_div_iff₀ h0]; nlinarith
  · rw [div_le_iff₀ h0]; nlinarith

lemma interpolate_false_anti {l r : ℚ} {ld rd ld' rd' : ℕ} (hle : r ≤ l)
    (hsum : ld + rd = ld' + rd') (hld : ld ≤ ld') (h : 0 < ld + rd) :
    interpolate false l r ld' rd' ≤ interpolate false l r ld rd := by
  have h' : 0 < ld' + rd' := hsum ▸ h
  have h0 : (0:ℚ) < (ld : ℚ) + (rd : ℚ) := by exact_mod_cast h
  have h0' : (0:ℚ) < (ld' : ℚ) + (rd' : ℚ) := by exact_mod_cast h'
  have hsumq : (ld' : ℚ) + (rd' : ℚ) = (ld : ℚ) + (rd : ℚ) := by exact_mod_cast hsum.symm
  have hldq : (ld : ℚ) ≤ (ld' : ℚ) := by exact_mod_cast hld
  rw [interpolate_false_eq _ _ _ _ h, interpolate_false_eq _ _ _ _ h', hsumq,
    div_le_div_iff_of_pos_right h0]
  have hrdq : (rd' : ℚ) = (ld : ℚ) + (rd : ℚ) - (ld' : ℚ) := by
    have : (ld : ℚ) + (rd : ℚ) = (ld' : ℚ) + (rd' : ℚ) := by exact_mod_cast hsum
    linarith
  have key : l * (rd' : ℚ) + r * (ld' : ℚ) - (l * (rd : ℚ) + r * (ld : ℚ)) =
      (r - l) * ((ld' : ℚ) - (ld : ℚ)) := by
    rw [hrdq]; ring
  nlinarith [key, hle, hldq]

/-- Helper to read the value off a successful query. -/
lemma mrAt_eq_of_get {cons : Bool} {c : MissRatioCurve} {x : ℕ} {v : ℚ}
    (h : c.get_miss_ratio_const false cons x = .ok v) : mrAt cons c x = v := by
  unfold mrAt
  rw [h]

lemma mrs_getD_mem {c : MissRatioCurve} {i : ℕ} (hi : i < c.miss_ratios.length) :
    c.miss_ratios.getD i 0 ∈ c.miss_ratios := by
  rw [List.getD_eq_getElem _ _ hi]
  exact List.getElem_mem _

/-- In the open segment between anchors `i` and `i+1`, the query value is
between the two anchor miss ratios. -/
lemma mrAt_seg_bounds (cons : Bool) {c : MissRatioCurve} (h : c.WF) {i x : ℕ}
    (hi : i + 1 < c.ticks.length) (hx1 : c.ticks.getD i 0 < x)
    (hx2 : x < c.ticks.getD (i + 1) 0) :
    c.miss_ratios.getD (i + 1) 0 ≤ mrAt cons c x ∧
      mrAt cons c x ≤ c.miss_ratios.getD i 0 := by
  have hv := mrAt_eq_of_get (mrAt_in_segment cons h hi hx1 hx2)
  have hle : c.miss_ratios.getD (i + 1) 0 ≤ c.miss_ratios.getD i 0 :=
    chain'_getD_ge h.2.2.2.2 (Nat.le_succ i) (h.2.1 ▸ hi)
  have hsum : 0 < (x - c.ticks.getD i 0) + (c.ticks.getD (i + 1) 0 - x) := by
    omega
  rw [hv]
  exact interpolate_false_bounds _ _ hle hsum

/-- Below the first anchor, the query value is between `M 0` and 1. -/
lemma mrAt_pre_bounds (cons : Bool) {c : MissRatioCurve} (h : c.WF) {x : ℕ}
    (hx : x < c.ticks.headD 0) :
    c.miss_ratios.getD 0 0 ≤ mrAt cons c x ∧ mrAt cons c x ≤ 1 := by
  have hv := mrAt_eq_of_get (mrAt_below_first cons h hx)
  have hlen : 0 < c.miss_ratios.length := by
    have h1 := List.length_pos.mpr h.1
    have h2 := h.2.1
    omega
  have hm : c.miss_ratios.headD 0 ≤ 1 := by
    rw [headD_eq_getD]
    exact (h.2.2.2.1 _ (mrs_getD_mem hlen)).2
  have hsum : 0 < x + (c.ticks.headD 0 - x) := by omega
  rw [hv, ← headD_eq_getD]
  exact interpolate_false_bounds _ _ hm hsum

/-- Every in-range query position at or above the first anchor lies in some
anchor segment `[T i, T (i+1))`. -/
lemma exists_segment {c : MissRatioCurve} (h : c.WF) {x : ℕ}
    (hx0 : c.ticks.headD 0 ≤ x)
    (hxl : x < c.ticks.getD (c.ticks.length - 1) 0) :
    ∃ i, i + 1 < c.ticks.length ∧ c.ticks.getD i 0 ≤ x ∧
      x < c.ticks.getD (i + 1) 0 := by
  have hn : 0 < c.ticks.length := List.length_pos.mpr h.1
  have hk : lowerBoundIdx (x + 1) c.ticks < c.ticks.length := by
    refine lowerBoundIdx_lt_length ⟨c.ticks.getD (c.ticks.length - 1) 0, ?_, by omega⟩
    rw [List.getD_eq_getElem _ _ (by omega)]
    exact List.getElem_mem _
  have hkpos : 0 < lowerBoundIdx (x + 1) c.ticks := by
    by_contra h0
    have h0' : lowerBoundIdx (x + 1) c.ticks = 0 := by omega
    have := le_getD_lowerBoundIdx (x := x + 1) (l := c.ticks) (by omega)
    rw [h0', ← headD_eq_getD] at this
    omega
  refine ⟨lowerBoundIdx (x + 1) c.ticks - 1, by omega, ?_, ?_⟩
  · have := getD_lt_of_lt_lowerBoundIdx
      (x := x + 1) (l := c.ticks) (j := lowerBoundIdx (x + 1) c.ticks - 1)
      (by omega)
    omega
  · have := le_getD_lowerBoundIdx (x := x + 1) (l := c.ticks) hk
    have heq : lowerBoundIdx (x + 1) c.ticks - 1 + 1 =
        lowerBoundIdx (x + 1) c.ticks := by omega
    rw [heq]
    omega

/-- One-step monotonicity: on a well-formed curve the query value cannot
increase when the size grows by one byte (within range). -/
lemma mrAt_succ_le (cons : Bool) {c : MissRatioCurve} (h : c.WF) {x : ℕ}
    (hx : x + 1 ≤ c.ticks.getLastD 0) :
    mrAt cons c (x + 1) ≤ mrAt cons c x := by
  have hn : 0 < c.ticks.length := List.length_pos.mpr h.1
  have hlast : c.ticks.getLastD 0 = c.ticks.getD (c.ticks.length - 1) 0 :=
    getLastD_eq_getD 0 _ h.1
  rcases lt_trichotomy (x + 1) (c.ticks.headD 0) with hA | hA | hA
  · -- both strictly below the first anchor
    have hx0 : x < c.ticks.headD 0 := by omega
    have hv1 := mrAt_eq_of_get (mrAt_below_first cons h hA)
    have hv0 := mrAt_eq_of_get (mrAt_below_first cons h hx0)
    have hm : c.miss_ratios.headD 0 ≤ 1 := by
      have hlen : 0 < c.miss_ratios.length := by
        have h1 := List.length_pos.mpr h.1
        have h2 := h.2.1
        omega
      rw [headD_eq_getD]
      exact (h.2.2.2.1 _ (mrs_getD_mem hlen)).2
    rw [hv1, hv0]
    exact interpolate_false_anti hm (by omega) (Nat.le_succ x) (by omega)
  · -- x + 1 is exactly the first anchor
    have hx0 : x < c.ticks.headD 0 := by omega
    have hv1 : mrAt cons c (x + 1) = c.miss_ratios.getD 0 0 := by
      have := mrAt_anchor_val cons h hn
      rw [← headD_eq_getD (0 : ℕ) c.ticks, ← hA] at this
      exact this
    rw [hv1]
    exact (mrAt_pre_bounds cons h hx0).1
  · -- x is at or above the first anchor: locate its segment
    have hx0 : c.ticks.headD 0 ≤ x := by omega
    have hxl : x < c.ticks.getD (c.ticks.length - 1) 0 := by
      rw [hlast] at hx
      omega
    obtain ⟨i, hi, hTi, hxT⟩ := exists_segment h hx0 hxl
    rcases eq_or_lt_of_le hTi with hTi | hTi
    · -- x is exactly anchor i
      have hv0 : mrAt cons c x = c.miss_ratios.getD i 0 := by
        rw [← hTi]
        exact mrAt_anchor_val cons h (by omega)
      rcases eq_or_lt_of_le (Nat.succ_le_of_lt hxT) with hE | hE
      · have hv1 : mrAt cons c (x + 1) = c.miss_ratios.getD (i + 1) 0 := by
          rw [show x + 1 = c.ticks.getD (i + 1) 0 from hE]
          exact mrAt_anchor_val cons h hi
        rw [hv0, hv1]
        exact chain'_getD_ge h.2.2.2.2 (Nat.le_succ i) (h.2.1 ▸ hi)
      · have := (mrAt_seg_bounds cons h hi (by omega) hE).2
        rw [hv0]
        exact this
    · -- x is strictly inside segment i
      rcases eq_or_lt_of_le (Nat.succ_le_of_lt hxT) with hE | hE
      · have hv1 : mrAt cons c (x + 1) = c.miss_ratios.getD (i + 1) 0 := by
          rw [show x + 1 = c.ticks.getD (i + 1) 0 from hE]
          exact mrAt_anchor_val cons h hi
        rw [hv1]
        exact (mrAt_seg_bounds cons h hi hTi hxT).1
      · have hv0 := mrAt_eq_of_get (mrAt_in_segment cons h hi hTi hxT)
        have hv1 := mrAt_eq_of_get (mrAt_in_segment cons h hi (by omega) hE)
        have hle : c.miss_ratios.getD (i + 1) 0 ≤ c.miss_ratios.getD i 0 :=
          chain'_getD_ge h.2.2.2.2 (Nat.le_succ i) (h.2.1 ▸ hi)
        rw [hv0, hv1]
        exact interpolate_false_anti hle (by omega) (by omega) (by omega)

/-- Monotonicity of the query value over any in-range pair of sizes. -/
lemma mrAt_anti (cons : Bool) {c : MissRatioCurve} (h : c.WF) {tl tr : ℕ}
    (hle : tl ≤ tr) (hr : tr ≤ c.ticks.getLastD 0) :
    mrAt cons c tr ≤ mrAt cons c tl := by
  induction tr, hle using Nat.le_induction with
  | base => exact le_refl _
  | succ n hn ih =>
    exact le_trans (mrAt_succ_le cons h hr) (ih (by omega))

end MissRatioCurve

open MissRatioCurve in
/-- C4: for every MissRatioCurve whose ticks are strictly increasing and
whose miss ratios lie in [0,1] and are non-increasing, and for all query
sizes `t_l < t_r` (each at most the last tick),
`get_miss_ratio_const t_l ≥ get_miss_ratio_const t_r`; moreover, for a
query strictly between two adjacent anchors with ratios `m_l` and `m_r`,
the interpolated result lies within `[min(m_l, m_r), max(m_l, m_r)]`.
(The compiled `disable_interpolation_near_inf` flag is `false`.) -/
theorem C4_mrc_monotone_and_interpolation_bounds :
    (∀ (cons : Bool) (c : MissRatioCurve) (t_l t_r : ℕ), c.WF → t_l < t_r →
      t_r ≤ c.ticks.getLastD 0 →
      ∃ a b, c.get_miss_ratio_const false cons t_l = .ok a ∧
        c.get_miss_ratio_const false cons t_r = .ok b ∧ b ≤ a) ∧
    (∀ (cons : Bool) (c : MissRatioCurve) (i x : ℕ), c.WF →
      i + 1 < c.ticks.length → c.ticks.getD i 0 < x →
      x < c.ticks.getD (i + 1) 0 →
      ∃ v, c.get_miss_ratio_const false cons x = .ok v ∧
        min (c.miss_ratios.getD i 0) (c.miss_ratios.getD (i + 1) 0) ≤ v ∧
        v ≤ max (c.miss_ratios.getD i 0) (c.miss_ratios.getD (i + 1) 0)) := by
  constructor
  · intro cons c t_l t_r hw hlt hr
    exact ⟨mrAt cons c t_l, mrAt cons c t_r,
      get_ok_of_le_last cons (by omega), get_ok_of_le_last cons hr,
      mrAt_anti cons hw (le_of_lt hlt) hr⟩
  · intro cons c i x hw hi hx1 hx2
    have hxlast : x ≤ c.ticks.getLastD 0 := by
      rw [getLastD_eq_getD 0 _ hw.1]
      have := chain'_getD_le hw.2.2.1 (i := i + 1) (j := c.ticks.length - 1)
        (by omega) (by omega)
      omega
    have hb := mrAt_seg_bounds cons hw hi hx1 hx2
    have hle : c.miss_ratios.getD (i + 1) 0 ≤ c.miss_ratios.getD i 0 :=
      chain'_getD_ge hw.2.2.2.2 (Nat.le_succ i) (hw.2.1 ▸ hi)
    exact ⟨mrAt cons c x, get_ok_of_le_last cons hxlast,
      by rw [min_eq_right hle]; exact hb.1,
      by rw [max_eq_left hle]; exact hb.2⟩

lemma mrcW_wf : mrcW.WF := by
  refine ⟨by simp [mrcW], by simp [mrcW], ?_, ?_, ?_⟩
  · simp [mrcW]
  · intro m hm
    simp only [mrcW, List.mem_cons, List.not_mem_nil, or_false] at hm
    rcases hm with rfl | rfl <;> norm_num
  · simp [mrcW]
    norm_num

/-- Witness for C4 at the concrete curve `[(2, 3/4), (4, 1/4)]`, query
pair (1, 3) and interior query 3 of segment 0. -/
theorem C4_mrc_monotone_and_interpolation_bounds_witness :
    (∃ a b, mrcW.get_miss_ratio_const false true 1 = .ok a ∧
      mrcW.get_miss_ratio_const false true 3 = .ok b ∧ b ≤ a) ∧
    (∃ v, mrcW.get_miss_ratio_const false true 3 = .ok v ∧
      min (mrcW.miss_ratios.getD 0 0) (mrcW.miss_ratios.getD 1 0) ≤ v ∧
      v ≤ max (mrcW.miss_ratios.getD 0 0) (mrcW.miss_ratios.getD 1 0)) :=
  ⟨C4_mrc_monotone_and_interpolation_bounds.1 true mrcW 1 3 mrcW_wf
    (by norm_num) (by simp [mrcW]),
   C4_mrc_monotone_and_interpolation_bounds.2 true mrcW 0 3 mrcW_wf
    (by simp [mrcW]) (by simp [mrcW]) (by simp [mrcW])⟩

/-- C5: collect_idle returns `idle = R.stateless − used`, sets
`R.stateless` to `used`, where `used = demand · tp`, `tp` is the min-ratio
quotient `R.stateless ÷ demand`, `demand.db_rcu = D.db_rcu · mr`,
`demand.db_wcu = D.db_wcu`, `demand.net_bw = D.net_bw · (mr + (1−α)·(1−mr))`
when total-net-bandwidth allocation is enabled and `D.net_bw` otherwise,
and `mr = mrc(R.cache_size)`; `R.cache_size` and the demand vector `D` are
unchanged. -/
theorem C5_collect_idle_spec (p : Params) (t : Tenant) :
    (Tenant.collect_idle p t).1 =
      t.stateless.sub
        ((⟨t.demand_cacheless.db_rcu * t.mrc.value t.cache_size,
           t.demand_cacheless.db_wcu,
           if p.alloc_total_net_bw then
             t.demand_cacheless.net_bw *
               (t.mrc.value t.cache_size +
                 (1 - t.net_bw_alpha) * (1 - t.mrc.value t.cache_size))
           else t.demand_cacheless.net_bw⟩ : StatelessResrcVec).scale
          (t.stateless.minRatioDiv
            ⟨t.demand_cacheless.db_rcu * t.mrc.value t.cache_size,
             t.demand_cacheless.db_wcu,
             if p.alloc_total_net_bw then
               t.demand_cacheless.net_bw *
                 (t.mrc.value t.cache_size +
                   (1 - t.net_bw_alpha) * (1 - t.mrc.value t.cache_size))
             else t.demand_cacheless.net_bw⟩)) ∧
    (Tenant.collect_idle p t).2 =
      { t with
        stateless :=
          (⟨t.demand_cacheless.db_rcu * t.mrc.value t.cache_size,
            t.demand_cacheless.db_wcu,
            if p.alloc_total_net_bw then
              t.demand_cacheless.net_bw *
                (t.mrc.value t.cache_size +
                  (1 - t.net_bw_alpha) * (1 - t.mrc.value t.cache_size))
            else t.demand_cacheless.net_bw⟩ : StatelessResrcVec).scale
            (t.stateless.minRatioDiv
              ⟨t.demand_cacheless.db_rcu * t.mrc.value t.cache_size,
               t.demand_cacheless.db_wcu,
               if p.alloc_total_net_bw then
                 t.demand_cacheless.net_bw *
                   (t.mrc.value t.cache_size +
                     (1 - t.net_bw_alpha) * (1 - t.mrc.value t.cache_size))
               else t.demand_cacheless.net_bw⟩) } :=
  ⟨rfl, rfl⟩

open MissRatioCurve in
/-- C6 counterexample: on the well-formed curve `[(1, 9/10), (2, 1/2)]`,
an out-of-range query in conservative mode returns `1/2`, the miss ratio of
the LAST anchor, not `9/10 = mr_0`, the miss ratio of the first anchor; and
with conservative estimation disabled, a query equal to the last tick (a
size "≥ the last tick") returns `1/2` instead of raising. -/
theorem C6_counterexample :
    MissRatioCurve.get_miss_ratio_const false true ⟨[1, 2], [9/10, 1/2]⟩ 3 =
      .ok (1/2) ∧
    (1/2 : ℚ) ≠ 9/10 ∧
    MissRatioCurve.get_miss_ratio_const false false ⟨[1, 2], [9/10, 1/2]⟩ 2 =
      .ok (1/2) := by
  refine ⟨?_, by norm_num, ?_⟩
  · unfold get_miss_ratio_const
    norm_num
  · norm_num [get_miss_ratio_const, lowerBoundIdx]

open MissRatioCurve in
/-- C6 (amended): for every well-formed curve, a query strictly above the
last tick returns the LAST anchor's miss ratio in conservative mode and
raises out-of-range otherwise; a query equal to the last tick returns the
last anchor's miss ratio in both modes. -/
theorem C6_out_of_range_behavior (dni cons : Bool) (c : MissRatioCurve)
    (x : ℕ) (hw : c.WF) (hx : c.ticks.getLastD 0 ≤ x) :
    (c.ticks.getLastD 0 < x →
      (cons = true →
        c.get_miss_ratio_const dni cons x = .ok (c.miss_ratios.getLastD 0)) ∧
      (cons = false →
        c.get_miss_ratio_const dni cons x = .error .out_of_range)) ∧
    (x = c.ticks.getLastD 0 →
      c.get_miss_ratio_const dni cons x = .ok (c.miss_ratios.getLastD 0)) := by
  constructor
  · intro hlt
    constructor <;> intro hc <;> subst hc <;>
      · unfold get_miss_ratio_const
        rw [if_pos hlt]
        simp
  · intro hx_eq
    subst hx_eq
    have hn : 0 < c.ticks.length := List.length_pos.mpr hw.1
    have hlen : c.ticks.length = c.miss_ratios.length := hw.2.1
    have hmne : c.miss_ratios ≠ [] := by
      intro hnil
      have hl := hw.2.1
      rw [hnil] at hl
      simp at hl
      exact hw.1 hl
    have hidx : c.ticks.length - 1 = c.miss_ratios.length - 1 := by omega
    rw [getLastD_eq_getD 0 _ hw.1, getLastD_eq_getD 0 _ hmne, ← hidx]
    exact anchor_eval dni cons hw (by omega)

/-- Witness for C6 (amended) at the curve `[(1, 9/10), (2, 1/2)]` and
query 2. -/
theorem C6_out_of_range_behavior_witness :
    MissRatioCurve.get_miss_ratio_const false true ⟨[1, 2], [9/10, 1/2]⟩ 2 =
      .ok (1/2) := by
  have h := (C6_out_of_range_behavior false true ⟨[1, 2], [9/10, 1/2]⟩ 2
    (by
      refine ⟨by simp, by simp, by simp, ?_, by simp; norm_num⟩
      intro m hm
      simp only [List.mem_cons, List.not_mem_nil, or_false] at hm
      rcases hm with rfl | rfl <;> norm_num)
    (by simp)).2 (by simp)
  simpa using h

/-! ### C7: check_sanity -/

lemma chain'_le_getD {l : List ℕ} (h : l.Chain' (· ≤ ·)) {i j : ℕ}
    (hij : i ≤ j) (hj : j < l.length) : l.getD i 0 ≤ l.getD j 0 := by
  rcases eq_or_lt_of_le hij with rfl | hlt
  · exact le_refl _
  · have hp : l.Pairwise (· ≤ ·) := List.chain'_iff_pairwise.mp h
    have hi : i < l.length := lt_trans hlt hj
    rw [List.getD_eq_getElem _ _ hi, List.getD_eq_getElem _ _ hj]
    exact List.pairwise_iff_get.mp hp ⟨i, hi⟩ ⟨j, hj⟩ hlt

lemma mem_le_getLastD {l : List ℕ} (hc : l.Chain' (· ≤ ·)) (hne : l ≠ [])
    {t : ℕ} (ht : t ∈ l) : t ≤ l.getLastD 0 := by
  obtain ⟨⟨i, hi⟩, rfl⟩ := List.mem_iff_get.mp ht
  rw [getLastD_eq_getD 0 _ hne]
  have hget : l.get ⟨i, hi⟩ = l.getD i 0 := by
    rw [List.getD_eq_getElem _ _ hi]
    rfl
  rw [hget]
  exact chain'_le_getD hc (by omega) (by omega)

namespace MissRatioCurve

lemma check_sanity_loop_ok_iff (max_tick : ℕ) :
    ∀ (l : List (ℕ × ℚ)) (min_tick : ℕ) (max_mr : ℚ),
      check_sanity_loop max_tick l min_tick max_mr = .ok () ↔
      (List.Chain' (· ≤ ·) (min_tick :: l.map Prod.fst) ∧
       (∀ t ∈ l.map Prod.fst, t ≤ max_tick) ∧
       List.Chain' (· ≥ ·) (max_mr :: l.map Prod.snd) ∧
       (∀ m ∈ l.map Prod.snd, 0 ≤ m))
  | [], min_tick, max_mr => by simp [check_sanity_loop]
  | (t, mr) :: rest, min_tick, max_mr => by
    rw [check_sanity_loop]
    by_cases h1 : t < min_tick ∨ max_tick < t
    · rw [if_pos h1]
      constructor
      · intro h
        exact absurd h (by simp)
      · rintro ⟨hc1, hmax, -, -⟩
        rcases h1 with h1 | h1
        · rw [List.map_cons, List.chain'_cons] at hc1
          exact absurd hc1.1 (not_le_of_lt h1)
        · exact absurd (hmax t (by simp)) (not_le_of_lt h1)
    · rw [if_neg h1]
      by_cases h2 : mr < 0 ∨ max_mr < mr
      · rw [if_pos h2]
        constructor
        · intro h
          exact absurd h (by simp)
        · rintro ⟨-, -, hc2, h0⟩
          rcases h2 with h2 | h2
          · exact absurd (h0 mr (by simp)) (not_le_of_lt h2)
          · rw [List.map_cons, List.chain'_cons] at hc2
            exact absurd hc2.1 (not_le_of_lt h2)
      · rw [if_neg h2]
        push_neg at h1 h2
        rw [check_sanity_loop_ok_iff max_tick rest t mr]
        simp only [List.map_cons, List.chain'_cons, List.forall_mem_cons,
          ge_iff_le]
        constructor
        · rintro ⟨c1, f1, c2, f2⟩
          exact ⟨⟨h1.1, c1⟩, ⟨h1.2, f1⟩, ⟨h2.2, c2⟩, ⟨h2.1, f2⟩⟩
        · rintro ⟨⟨-, c1⟩, ⟨-, f1⟩, ⟨-, c2⟩, ⟨-, f2⟩⟩
          exact ⟨c1, f1, c2, f2⟩

lemma chain'_headD_cons_le {l : List ℕ} (hne : l ≠ []) :
    List.Chain' (· ≤ ·) (l.headD 0 :: l) ↔ List.Chain' (· ≤ ·) l := by
  cases l with
  | nil => exact absurd rfl hne
  | cons a l' => simp [List.chain'_cons]

lemma one_cons_chain_iff (mrs : List ℚ) :
    (List.Chain' (· ≥ ·) ((1 : ℚ) :: mrs) ∧ (∀ m ∈ mrs, 0 ≤ m)) ↔
      ((∀ m ∈ mrs, 0 ≤ m ∧ m ≤ 1) ∧ List.Chain' (· ≥ ·) mrs) := by
  constructor
  · rintro ⟨hc, h0⟩
    have hp : ((1 : ℚ) :: mrs).Pairwise (· ≥ ·) :=
      List.chain'_iff_pairwise.mp hc
    rw [List.pairwise_cons] at hp
    exact ⟨fun m hm => ⟨h0 m hm, hp.1 m hm⟩,
      List.chain'_iff_pairwise.mpr hp.2⟩
  · rintro ⟨hb, hc⟩
    refine ⟨List.chain'_cons'.mpr ⟨?_, hc⟩, fun m hm => (hb m hm).1⟩
    intro y hy
    exact (hb y (List.mem_of_mem_head? hy)).2

end MissRatioCurve

open MissRatioCurve in
/-- C7 (amended): check_sanity accepts exactly the curves with at least one
anchor, matching list lengths, NON-DECREASING (not necessarily strictly
increasing) ticks, miss ratios in `[0, 1]`, and non-increasing miss ratios.
In particular every well-formed curve passes, but the "strictly increasing"
part of the claim is not enforced: equal adjacent ticks also pass. -/
theorem C7_check_sanity_iff (c : MissRatioCurve) :
    c.check_sanity = .ok () ↔
      (c.ticks ≠ [] ∧ c.ticks.length = c.miss_ratios.length ∧
       c.ticks.Chain' (· ≤ ·) ∧
       (∀ m ∈ c.miss_ratios, 0 ≤ m ∧ m ≤ 1) ∧
       c.miss_ratios.Chain' (· ≥ ·)) := by
  unfold check_sanity
  by_cases hne : c.ticks = []
  · rw [if_pos hne]
    simp [hne]
  · rw [if_neg hne]
    by_cases hlen : c.ticks.length ≠ c.miss_ratios.length
    · rw [if_pos hlen]
      constructor
      · intro h
        exact absurd h (by simp)
      · rintro ⟨-, h, -⟩
        exact absurd h hlen
    · rw [if_neg hlen]
      push_neg at hlen
      rw [check_sanity_loop_ok_iff]
      have hfst : (c.ticks.zip c.miss_ratios).map Prod.fst = c.ticks :=
        List.map_fst_zip _ _ (le_of_eq hlen)
      have hsnd : (c.ticks.zip c.miss_ratios).map Prod.snd = c.miss_ratios :=
        List.map_snd_zip _ _ (ge_of_eq hlen)
      rw [hfst, hsnd, chain'_headD_cons_le hne]
      constructor
      · rintro ⟨hc1, -, hc2, h0⟩
        have := (one_cons_chain_iff c.miss_ratios).mp ⟨hc2, h0⟩
        exact ⟨hne, hlen, hc1, this.1, this.2⟩
      · rintro ⟨-, -, hc1, hb, hc2⟩
        have := (one_cons_chain_iff c.miss_ratios).mpr ⟨hb, hc2⟩
        exact ⟨hc1, fun t ht => mem_le_getLastD hc1 hne ht, this.1, this.2⟩

/-- Witness for C7 (amended): the well-formed curve `[(1, 9/10), (2, 1/2)]`
passes check_sanity. -/
theorem C7_check_sanity_iff_witness :
    (⟨[1, 2], [9/10, 1/2]⟩ : MissRatioCurve).check_sanity = .ok () := by
  rw [C7_check_sanity_iff]
  refine ⟨by simp, by simp, by simp, ?_, by simp; norm_num⟩
  intro m hm
  simp only [List.mem_cons, List.not_mem_nil, or_false] at hm
  rcases hm with rfl | rfl <;> norm_num

/-- C7 counterexample: the curve with ticks `[1, 1]` (NOT strictly
increasing) and miss ratios `[1/2, 1/2]` passes check_sanity without
throwing, refuting the claimed "throws if and only if ... not strictly
increasing". -/
theorem C7_counterexample :
    (⟨[1, 1], [1/2, 1/2]⟩ : MissRatioCurve).check_sanity = .ok () ∧
    ¬ List.Chain' (· < ·) ([1, 1] : List ℕ) := by
  constructor
  · rw [MissRatioCurve.check_sanity, if_neg (by simp), if_neg (by simp)]
    norm_num [MissRatioCurve.check_sanity_loop]
  · simp

/-! ### C8: inflight registry -/

namespace inflight

lemma findTask_eraseKey_self (m : Registry) (k : String) :
    findTask (eraseKey m k) k = none := by
  unfold findTask eraseKey
  rw [List.find?_eq_none.mpr]
  · rfl
  · intro x hx
    have := (List.mem_filter.mp hx).2
    simp only [ne_eq, decide_not, Bool.not_eq_true', decide_eq_false_iff_not]
      at this
    simp [this]

lemma findTask_eraseKey_other : ∀ (m : Registry) (k k' : String),
    k' ≠ k → findTask (eraseKey m k) k' = findTask m k'
  | [], _, _, _ => rfl
  | e :: rest, k, k', hne => by
    have ih := findTask_eraseKey_other rest k k' hne
    unfold findTask eraseKey at ih ⊢
    rw [List.filter_cons]
    by_cases he : e.1 = k
    · have hpe : ¬ e.1 = k' := by
        rw [he]
        exact fun hh => hne hh.symm
      rw [if_neg (by simp [he]), List.find?_cons_of_neg _ (by simp [hpe])]
      exact ih
    · by_cases hpe : e.1 = k'
      · rw [if_pos (by simp [he]), List.find?_cons_of_pos _ (by simp [hpe]),
          List.find?_cons_of_pos _ (by simp [hpe])]
      · rw [if_pos (by simp [he]), List.find?_cons_of_neg _ (by simp [hpe]),
          List.find?_cons_of_neg _ (by simp [hpe])]
        exact ih

lemma keys_sublist_eraseKey (m : Registry) (k : String) :
    ((eraseKey m k).map Prod.fst).Sublist (m.map Prod.fst) :=
  (List.filter_sublist m).map Prod.fst

lemma not_mem_keys_of_not_contains {m : Registry} {k : String}
    (h : containsKey m k = false) : k ∉ m.map Prod.fst := by
  intro hmem
  obtain ⟨e, he, hek⟩ := List.mem_map.mp hmem
  have : containsKey m k = true := by
    unfold containsKey
    exact List.any_eq_true.mpr ⟨e, he, by simp [hek]⟩
  rw [this] at h
  cases h

lemma keys_setTask_of_contains {m : Registry} {k : String} (t : ℕ)
    (h : containsKey m k = true) :
    (setTask m k t).map Prod.fst = m.map Prod.fst := by
  unfold setTask
  rw [if_pos h, List.map_map]
  refine List.map_congr_left fun e _ => ?_
  by_cases he : e.1 = k
  · simp [he]
  · simp [he]

lemma nodup_keys_setTask {m : Registry} {k : String} (t : ℕ)
    (h : (m.map Prod.fst).Nodup) : ((setTask m k t).map Prod.fst).Nodup := by
  by_cases hc : containsKey m k
  · rw [keys_setTask_of_contains t hc]
    exact h
  · unfold setTask
    rw [if_neg hc, List.map_append]
    simp only [List.map_cons, List.map_nil]
    rw [List.nodup_append]
    refine ⟨h, List.nodup_singleton k, ?_⟩
    intro a ha hb
    simp only [List.mem_singleton] at hb
    subst hb
    exact not_mem_keys_of_not_contains (by simpa using hc) ha

lemma nodup_keys_end_inflight {m : Registry} (k : String) (t : ℕ)
    (h : (m.map Prod.fst).Nodup) :
    (((end_inflight true m k t).1).map Prod.fst).Nodup := by
  unfold end_inflight
  rw [if_neg (by simp)]
  cases hf : findTask m k with
  | none => exact h
  | some t' =>
    by_cases ht : t' = t
    · simp only [ht, ne_eq, not_true_eq_false, if_false]
      exact (keys_sublist_eraseKey m k).nodup h
    · simp only [ne_eq, ht, not_false_eq_true, if_true]
      exact h

lemma nodup_keys_applyOp (dedup : Bool) (op : Op) (m : Registry)
    (h : (m.map Prod.fst).Nodup) :
    ((applyOp dedup m op).map Prod.fst).Nodup := by
  cases dedup with
  | false =>
    cases op <;>
      simp only [applyOp, begin_inflight, end_inflight, invalidate_inflight] <;>
      simpa using h
  | true =>
    cases op with
    | begin_ k t =>
      have e1 : applyOp true m (.begin_ k t) = setTask m k t := by
        simp [applyOp, begin_inflight]
      rw [e1]
      exact nodup_keys_setTask t h
    | finish k t =>
      have e1 : applyOp true m (.finish k t) = (end_inflight true m k t).1 :=
        rfl
      rw [e1]
      exact nodup_keys_end_inflight k t h
    | invalidate k =>
      have e1 : applyOp true m (.invalidate k) = eraseKey m k := by
        simp [applyOp, invalidate_inflight]
      rw [e1]
      exact (keys_sublist_eraseKey m k).nodup h

lemma nodup_keys_foldl (dedup : Bool) :
    ∀ (ops : List Op) (m : Registry), (m.map Prod.fst).Nodup →
      ((ops.foldl (applyOp dedup) m).map Prod.fst).Nodup
  | [], _, h => h
  | op :: rest, m, h =>
    nodup_keys_foldl dedup rest _ (nodup_keys_applyOp dedup op m h)

end inflight

/-- C8: with inflight deduplication enabled, end_inflight returns true and
removes the entry for the key exactly when the registry currently maps the
key to the same task; otherwise it returns false and removes nothing;
invalidate_inflight removes any entry for the key unconditionally (other
keys untouched); and over any operation sequence the registry holds at most
one entry per key. -/
theorem C8_inflight_registry :
    (∀ (m : inflight.Registry) (k : String) (t : ℕ),
      inflight.findTask m k = some t →
        inflight.end_inflight true m k t = (inflight.eraseKey m k, true)) ∧
    (∀ (m : inflight.Registry) (k : String) (t : ℕ),
      inflight.findTask m k ≠ some t →
        inflight.end_inflight true m k t = (m, false)) ∧
    (∀ (m : inflight.Registry) (k : String),
      inflight.findTask (inflight.invalidate_inflight true m k) k = none ∧
      ∀ k' : String, k' ≠ k →
        inflight.findTask (inflight.invalidate_inflight true m k) k' =
          inflight.findTask m k') ∧
    (∀ ops : List inflight.Op,
      ((inflight.run true ops).map Prod.fst).Nodup) := by
  refine ⟨?_, ?_, ?_, ?_⟩
  · intro m k t h
    unfold inflight.end_inflight
    rw [if_neg (by simp), h]
    simp
  · intro m k t h
    unfold inflight.end_inflight
    rw [if_neg (by simp)]
    cases hf : inflight.findTask m k with
    | none => rfl
    | some t' =>
      have : t' ≠ t := fun he => h (he ▸ hf)
      simp [this]
  · intro m k
    unfold inflight.invalidate_inflight
    rw [if_neg (by simp)]
    exact ⟨inflight.findTask_eraseKey_self m k,
      fun k' hk' => inflight.findTask_eraseKey_other m k k' hk'⟩
  · intro ops
    exact inflight.nodup_keys_foldl true ops [] (by simp)

/-- Witness for C8 at a concrete registry and operation sequence. -/
theorem C8_inflight_registry_witness :
    inflight.end_inflight true [("a", 7)] "a" 7 =
      (inflight.eraseKey [("a", 7)] "a", true) ∧
    inflight.end_inflight true [("a", 7)] "a" 8 = ([("a", 7)], false) ∧
    inflight.findTask
      (inflight.invalidate_inflight true [("a", 7), ("b", 3)] "a") "a" =
        none ∧
    ((inflight.run true
      [.begin_ "a" 7, .begin_ "b" 3, .finish "a" 7]).map Prod.fst).Nodup :=
  ⟨C8_inflight_registry.1 [("a", 7)] "a" 7 (by rfl),
   C8_inflight_registry.2.1 [("a", 7)] "a" 8 (by simp [inflight.findTask]),
   (C8_inflight_registry.2.2.1 [("a", 7), ("b", 3)] "a").1,
   C8_inflight_registry.2.2.2 [.begin_ "a" 7, .begin_ "b" 3, .finish "a" 7]⟩

/-! ### C9 and C10: request pipeline -/

/-- C9: when the upstream fetch of a GET completes with status Err, the
completion callback never writes the fetched value into the cache (nor the
ghost size), wakes every dependent with a null payload, replies the
DynamoDB error to the owner, and a dependent waking with a null payload
replies the same error instead of a value. -/
theorem C9_get_error_path (dedup alloc_total : Bool) (cache : Cache)
    (reg : inflight.Registry) (t : TaskGet) (h : t.status = .ERR) :
    (get.storage_callback dedup alloc_total cache reg t).cache = cache ∧
    (get.storage_callback dedup alloc_total cache reg t).ghost_updates = [] ∧
    (get.storage_callback dedup alloc_total cache reg t).owner_reply =
      .error "ERR Fail to get from DynamoDB" ∧
    (get.storage_callback dedup alloc_total cache reg t).wakes =
      t.dependents.map (fun bc => (bc, none)) ∧
    (∀ k_len : ℕ, (get.inflight_callback none k_len).reply =
      .error "ERR Fail to get from DynamoDB") := by
  unfold get.storage_callback
  rw [if_pos h]
  exact ⟨rfl, rfl, rfl, rfl, fun _ => rfl⟩

/-- Witness for C9 at a concrete failed task with two dependents. -/
theorem C9_get_error_path_witness :
    (get.storage_callback true true (fun _ => none) [("k", 0)]
        ⟨0, "k", "boom", .ERR, [1, 2]⟩).cache = (fun _ => none) ∧
    (get.storage_callback true true (fun _ => none) [("k", 0)]
        ⟨0, "k", "boom", .ERR, [1, 2]⟩).wakes = [(1, none), (2, none)] :=
  let r := C9_get_error_path true true (fun _ => none) [("k", 0)]
    ⟨0, "k", "boom", .ERR, [1, 2]⟩ rfl
  ⟨r.1, r.2.2.2.1⟩

/-- C10: a SET whose key is absent while cache.admit_write is false leaves
the cache and the inflight registry untouched, yet still enqueues the Set
task to the storage worker, performs the ghost-cache access, records the
statistics, and charges the egress (and, with alloc_total_net_bw, the
upstream) bandwidth, replying OK. -/
theorem C10_set_miss_no_admit (dedup alloc_total : Bool) (st : SetState)
    (k v : String) (hmiss : st.cache k = none) :
    (hopperSet false dedup alloc_total st k v).1.cache = st.cache ∧
    (hopperSet false dedup alloc_total st k v).1.registry = st.registry ∧
    (hopperSet false dedup alloc_total st k v).1.storage_queue =
      st.storage_queue ++ [(k, v)] ∧
    (hopperSet false dedup alloc_total st k v).1.ghost_accesses =
      st.ghost_accesses ++ [⟨k, v.length, false⟩] ∧
    (hopperSet false dedup alloc_total st k v).1.stats =
      st.stats ++ [.set_done k.length v.length] ∧
    (hopperSet false dedup alloc_total st k v).1.net_consumed =
      st.net_consumed +
        (utils.resrc.kv_to_net_set_client k.length v.length +
          if alloc_total then
            utils.resrc.kv_to_net_set_storage k.length v.length
          else 0) ∧
    (hopperSet false dedup alloc_total st k v).2 = .simple "OK" := by
  unfold hopperSet
  rw [hmiss]
  exact ⟨rfl, rfl, rfl, rfl, rfl, rfl, rfl⟩

/-- Witness for C10 at a concrete state with an empty cache. -/
theorem C10_set_miss_no_admit_witness :
    (hopperSet false true true
        ⟨fun _ => none, [("x", 5)], [], [], 0, []⟩ "x" "vv").1.registry =
      [("x", 5)] ∧
    (hopperSet false true true
        ⟨fun _ => none, [("x", 5)], [], [], 0, []⟩ "x" "vv").1.storage_queue =
      [("x", "vv")] :=
  let r := C10_set_miss_no_admit true true
    ⟨fun _ => none, [("x", 5)], [], [], 0, []⟩ "x" "vv" rfl
  ⟨r.2.1, by rw [r.2.2.1]; rfl⟩

/-! ### Infrastructure for the allocator claims (C1, C2, C3) -/

/-- Folding stateless additions characterized through componentwise list
sums. -/
lemma foldl_add_eq {α : Type} (f : α → StatelessResrcVec) :
    ∀ (l : List α) (acc : StatelessResrcVec),
      l.foldl (fun s x => s.add (f x)) acc =
        ⟨acc.db_rcu + (l.map fun x => (f x).db_rcu).sum,
         acc.db_wcu + (l.map fun x => (f x).db_wcu).sum,
         acc.net_bw + (l.map fun x => (f x).net_bw).sum⟩
  | [], acc => by cases acc; simp
  | x :: rest, acc => by
    rw [List.foldl_cons, foldl_add_eq f rest]
    simp only [StatelessResrcVec.add, List.map_cons, List.sum_cons,
      StatelessResrcVec.mk.injEq]
    refine ⟨by ring, by ring, by ring⟩

lemma aggregate_resrc_eq (ts : List Tenant) :
    Tenant.aggregate_resrc ts =
      ⟨(ts.map fun t => t.stateless.db_rcu).sum,
       (ts.map fun t => t.stateless.db_wcu).sum,
       (ts.map fun t => t.stateless.net_bw).sum⟩ := by
  have h := foldl_add_eq (fun t : Tenant => t.stateless) ts {}
  simpa [Tenant.aggregate_resrc] using h

lemma sum_map_sub {α : Type} (f g : α → ℚ) :
    ∀ l : List α, (l.map fun x => f x - g x).sum = (l.map f).sum - (l.map g).sum
  | [] => by simp
  | x :: rest => by
    simp only [List.map_cons, List.sum_cons, sum_map_sub f g rest]
    ring

lemma sum_map_set (f : Tenant → ℚ) :
    ∀ (ts : List Tenant) (i : ℕ) (t' : Tenant), i < ts.length →
      ((ts.set i t').map f).sum =
        (ts.map f).sum - f (ts.getD i Allocator.dummyTenant) + f t'
  | [], i, _, h => by simp at h
  | t :: rest, 0, t', _ => by
    simp only [List.set_cons_zero, List.map_cons, List.sum_cons, List.getD]
    simp
    ring
  | t :: rest, i + 1, t', h => by
    simp only [List.set_cons_succ, List.map_cons, List.sum_cons]
    rw [sum_map_set f rest i t' (by simpa using h)]
    simp only [List.getD_cons_succ]
    ring

lemma getD_mem_of_lt {l : List ℕ} {i : ℕ} (h : i < l.length) :
    l.getD i 0 ∈ l := by
  rw [List.getD_eq_getElem _ _ h]
  exact List.getElem_mem _

lemma getD_tenant_mem {l : List Tenant} {i : ℕ} (h : i < l.length) :
    l.getD i Allocator.dummyTenant ∈ l := by
  rw [List.getD_eq_getElem _ _ h]
  exact List.getElem_mem _

lemma minPosBy_lt_length (key : ℕ → ℚ) :
    ∀ l : List ℕ, l ≠ [] → minPosBy key l < l.length
  | [], h => absurd rfl h
  | [_], _ => by simp [minPosBy]
  | a :: b :: rest, _ => by
    rw [minPosBy]
    have ih := minPosBy_lt_length key (b :: rest) (by simp)
    by_cases hc : key ((b :: rest).getD (minPosBy key (b :: rest)) 0) < key a
    · simp only [hc, if_true]
      simpa using ih
    · simp only [hc, if_false]
      simp

lemma maxPosBy_lt_length (key : ℕ → ℚ) :
    ∀ l : List ℕ, l ≠ [] → maxPosBy key l < l.length
  | [], h => absurd rfl h
  | [_], _ => by simp [maxPosBy]
  | a :: b :: rest, _ => by
    rw [maxPosBy]
    have ih := maxPosBy_lt_length key (b :: rest) (by simp)
    by_cases hc : key a < key ((b :: rest).getD (maxPosBy key (b :: rest)) 0)
    · simp only [hc, if_true]
      simpa using ih
    · simp only [hc, if_false]
      simp

lemma getD_range (n i : ℕ) (h : i < n) : (List.range n).getD i 0 = i := by
  rw [List.getD_eq_getElem _ _ (by simpa using h)]
  simp

/-- The cons-set permutation at the heart of the `iter_swap` argument. -/
lemma cons_set_perm :
    ∀ (rest : List ℕ) (q a : ℕ), q < rest.length →
      ((rest.getD q 0) :: rest.set q a).Perm (a :: rest)
  | [], _, _, h => by simp at h
  | b :: v, 0, a, _ => by
    simpa using List.Perm.swap a b v
  | b :: v, q + 1, a, h => by
    have ih := cons_set_perm v q a (by simpa using h)
    have h0 : ((b :: v).getD (q + 1) 0 :: (b :: v).set (q + 1) a) =
        (v.getD q 0 :: b :: v.set q a) := by simp
    rw [h0]
    exact (List.Perm.swap b (v.getD q 0) (v.set q a)).trans
      ((ih.cons b).trans (List.Perm.swap a b v))

/-- The `std::iter_swap(it_compen, list.begin())` of the harvest loop
produces a permutation of the original pointer list. -/
lemma set_set_swap_perm (l : List ℕ) (p : ℕ) (hp : p < l.length) :
    (((l.set 0 (l.getD p 0)).set p (l.getD 0 0))).Perm l := by
  cases l with
  | nil => simp at hp
  | cons a rest =>
    cases p with
    | zero => simp
    | succ q =>
      have hq : q < rest.length := by simpa using hp
      have h1 : ((a :: rest).set 0 ((a :: rest).getD (q + 1) 0)).set (q + 1)
          ((a :: rest).getD 0 0) = (rest.getD q 0) :: rest.set q a := by
        simp
      rw [h1]
      exact cons_set_perm rest q a hq

/-- All tenant-level prediction updates leave everything except the four
delta fields unchanged. -/
lemma pred_more_frame (p : Params) (t : Tenant) :
    (Tenant.pred_rcu_net_delta_if_more_cache p t).stateless = t.stateless ∧
    (Tenant.pred_rcu_net_delta_if_more_cache p t).cache_size = t.cache_size ∧
    (Tenant.pred_rcu_net_delta_if_more_cache p t).reserved_cache_size =
      t.reserved_cache_size ∧
    (Tenant.pred_rcu_net_delta_if_more_cache p t).rcu_delta_compen =
      t.rcu_delta_compen ∧
    (Tenant.pred_rcu_net_delta_if_more_cache p t).net_delta_compen =
      t.net_delta_compen := by
  simp only [Tenant.pred_rcu_net_delta_if_more_cache, Tenant.pred_more_abort]
  split_ifs <;> exact ⟨rfl, rfl, rfl, rfl, rfl⟩

lemma pred_less_frame (p : Params) (t : Tenant) :
    (Tenant.pred_rcu_net_delta_if_less_cache p t).stateless = t.stateless ∧
    (Tenant.pred_rcu_net_delta_if_less_cache p t).cache_size = t.cache_size ∧
    (Tenant.pred_rcu_net_delta_if_less_cache p t).reserved_cache_size =
      t.reserved_cache_size ∧
    (Tenant.pred_rcu_net_delta_if_less_cache p t).rcu_delta_relinq =
      t.rcu_delta_relinq ∧
    (Tenant.pred_rcu_net_delta_if_less_cache p t).net_delta_relinq =
      t.net_delta_relinq := by
  simp only [Tenant.pred_rcu_net_delta_if_less_cache, Tenant.pred_less_abort,
    Tenant.pred_less_immediate]
  split_ifs <;> exact ⟨rfl, rfl, rfl, rfl, rfl⟩

lemma update_rcu_net_delta_frame (p : Params) (t : Tenant) :
    (Tenant.update_rcu_net_delta p t).stateless = t.stateless ∧
    (Tenant.update_rcu_net_delta p t).cache_size = t.cache_size ∧
    (Tenant.update_rcu_net_delta p t).reserved_cache_size =
      t.reserved_cache_size := by
  unfold Tenant.update_rcu_net_delta
  obtain ⟨h1, h2, h3, -, -⟩ :=
    pred_less_frame p (Tenant.pred_rcu_net_delta_if_more_cache p t)
  obtain ⟨g1, g2, g3, -, -⟩ := pred_more_frame p t
  exact ⟨h1.trans g1, h2.trans g2, h3.trans g3⟩

lemma update_mr_delta_frame (p : Params) (t : Tenant) :
    (Tenant.update_mr_delta p t).stateless = t.stateless ∧
    (Tenant.update_mr_delta p t).cache_size = t.cache_size ∧
    (Tenant.update_mr_delta p t).reserved_cache_size =
      t.reserved_cache_size ∧
    (Tenant.update_mr_delta p t).net_delta_relinq = t.net_delta_relinq ∧
    (Tenant.update_mr_delta p t).net_delta_compen = t.net_delta_compen :=
  ⟨rfl, rfl, rfl, rfl, rfl⟩

/-- With total-net allocation off, the prediction updates keep the stored
net offers at zero. -/
lemma pred_more_netzero (p : Params) (hp : p.alloc_total_net_bw = false)
    (t : Tenant) (h : t.net_delta_relinq = 0) :
    (Tenant.pred_rcu_net_delta_if_more_cache p t).net_delta_relinq = 0 := by
  simp only [Tenant.pred_rcu_net_delta_if_more_cache, Tenant.pred_more_abort]
  split_ifs <;> simp_all [params.numeric.relinq_abort_offer]

lemma pred_less_netzero (p : Params) (hp : p.alloc_total_net_bw = false)
    (t : Tenant) (h : t.net_delta_compen = 0) :
    (Tenant.pred_rcu_net_delta_if_less_cache p t).net_delta_compen = 0 := by
  simp only [Tenant.pred_rcu_net_delta_if_less_cache, Tenant.pred_less_abort,
    Tenant.pred_less_immediate]
  split_ifs <;> simp_all

lemma update_rcu_net_delta_netzero (p : Params) (hp : p.alloc_total_net_bw = false)
    (t : Tenant) (h : t.net_delta_relinq = 0 ∧ t.net_delta_compen = 0) :
    (Tenant.update_rcu_net_delta p t).net_delta_relinq = 0 ∧
    (Tenant.update_rcu_net_delta p t).net_delta_compen = 0 := by
  unfold Tenant.update_rcu_net_delta
  constructor
  · rw [(pred_less_frame p _).2.2.2.2]
    exact pred_more_netzero p hp t h.1
  · refine pred_less_netzero p hp _ ?_
    rw [(pred_more_frame p t).2.2.2.2]
    exact h.2

/-! Collect-idle phase. -/

lemma collect_idle_stateless (p : Params) (t : Tenant) :
    (Tenant.collect_idle p t).2.stateless =
      t.stateless.sub ((Tenant.collect_idle p t).1) := by
  simp only [Tenant.collect_idle, StatelessResrcVec.sub, StatelessResrcVec.scale,
    StatelessResrcVec.mk.injEq]
  refine ⟨by ring, by ring, by ring⟩

lemma collect_idle_frame (p : Params) (t : Tenant) :
    (Tenant.collect_idle p t).2.cache_size = t.cache_size ∧
    (Tenant.collect_idle p t).2.reserved_cache_size = t.reserved_cache_size ∧
    (Tenant.collect_idle p t).2.net_delta_relinq = t.net_delta_relinq ∧
    (Tenant.collect_idle p t).2.net_delta_compen = t.net_delta_compen :=
  ⟨rfl, rfl, rfl, rfl⟩

lemma sum_map_add_split (f g h : Tenant → ℚ) (hfg : ∀ t, f t + g t = h t) :
    ∀ ts : List Tenant, (ts.map f).sum + (ts.map g).sum = (ts.map h).sum
  | [] => by simp
  | t :: rest => by
    simp only [List.map_cons, List.sum_cons]
    have := sum_map_add_split f g h hfg rest
    have ht := hfg t
    linarith

/-- The collect phase conserves the sum of stateless allocations plus the
collected pool, exactly. -/
lemma collect_phase_conserve (p : Params) (ts : List Tenant) :
    (Tenant.aggregate_resrc ((ts.map (Tenant.collect_idle p)).map (·.2))).add
      ((ts.map (Tenant.collect_idle p)).foldl (fun s pr => s.add pr.1) {}) =
    Tenant.aggregate_resrc ts := by
  have hfold := foldl_add_eq (fun pr : StatelessResrcVec × Tenant => pr.1)
    (ts.map (Tenant.collect_idle p)) {}
  rw [aggregate_resrc_eq, aggregate_resrc_eq, hfold]
  simp only [List.map_map, Function.comp_def, StatelessResrcVec.add,
    StatelessResrcVec.mk.injEq]
  have hcomp : ∀ t : Tenant,
      ((Tenant.collect_idle p t).2.stateless.db_rcu =
        t.stateless.db_rcu - (Tenant.collect_idle p t).1.db_rcu) ∧
      ((Tenant.collect_idle p t).2.stateless.db_wcu =
        t.stateless.db_wcu - (Tenant.collect_idle p t).1.db_wcu) ∧
      ((Tenant.collect_idle p t).2.stateless.net_bw =
        t.stateless.net_bw - (Tenant.collect_idle p t).1.net_bw) := by
    intro t
    have := collect_idle_stateless p t
    rw [this]
    exact ⟨rfl, rfl, rfl⟩
  refine ⟨?_, ?_, ?_⟩
  · have hs := sum_map_add_split (fun t => (Tenant.collect_idle p t).2.stateless.db_rcu)
      (fun t => (Tenant.collect_idle p t).1.db_rcu)
      (fun t => t.stateless.db_rcu)
      (fun t => by have := (hcomp t).1; linarith) ts
    rw [zero_add]
    exact hs
  · have hs := sum_map_add_split (fun t => (Tenant.collect_idle p t).2.stateless.db_wcu)
      (fun t => (Tenant.collect_idle p t).1.db_wcu)
      (fun t => t.stateless.db_wcu)
      (fun t => by have := (hcomp t).2.1; linarith) ts
    rw [zero_add]
    exact hs
  · have hs := sum_map_add_split (fun t => (Tenant.collect_idle p t).2.stateless.net_bw)
      (fun t => (Tenant.collect_idle p t).1.net_bw)
      (fun t => t.stateless.net_bw)
      (fun t => by have := (hcomp t).2.2; linarith) ts
    rw [zero_add]
    exact hs

/-! Aggregate preservation under maps and sets. -/

lemma aggregate_map_eq {f : Tenant → Tenant}
    (hf : ∀ t, (f t).stateless = t.stateless) (ts : List Tenant) :
    Tenant.aggregate_resrc (ts.map f) = Tenant.aggregate_resrc ts := by
  rw [aggregate_resrc_eq, aggregate_resrc_eq]
  simp [List.map_map, Function.comp_def, hf]

lemma aggregate_set_eq {ts : List Tenant} {i : ℕ} {t' : Tenant}
    (hi : i < ts.length)
    (hst : t'.stateless = (ts.getD i Allocator.dummyTenant).stateless) :
    Tenant.aggregate_resrc (ts.set i t') = Tenant.aggregate_resrc ts := by
  rw [aggregate_resrc_eq, aggregate_resrc_eq]
  simp only [StatelessResrcVec.mk.injEq]
  refine ⟨?_, ?_, ?_⟩
  · rw [sum_map_set _ ts i t' hi, hst]
    ring
  · rw [sum_map_set _ ts i t' hi, hst]
    ring
  · rw [sum_map_set _ ts i t' hi, hst]
    ring

/-- A left fold that at each step keeps either the accumulator or the new
element lands on the seed or a list element. -/
lemma foldl_pick_mem (g : ℕ → ℕ → ℕ) (hg : ∀ b i, g b i = b ∨ g b i = i) :
    ∀ (l : List ℕ) (a : ℕ), l.foldl g a ∈ a :: l
  | [], a => by simp
  | b :: rest, a => by
    rw [List.foldl_cons]
    have ih := foldl_pick_mem g hg rest (g a b)
    rcases List.mem_cons.mp ih with h | h
    · rw [h]
      rcases hg a b with h2 | h2 <;> simp [h2]
    · simp [List.mem_cons.mpr (Or.inr (List.mem_cons.mpr (Or.inr h)))]

/-! Memshare phase. -/

lemma relocate_cache_frame (p : Params) (tr td : Tenant) :
    (Tenant.relocate_cache p tr td).1.stateless = tr.stateless ∧
    (Tenant.relocate_cache p tr td).2.stateless = td.stateless ∧
    (Tenant.relocate_cache p tr td).1.reserved_cache_size =
      tr.reserved_cache_size ∧
    (Tenant.relocate_cache p tr td).2.reserved_cache_size =
      td.reserved_cache_size ∧
    (Tenant.relocate_cache p tr td).1.net_delta_relinq = tr.net_delta_relinq ∧
    (Tenant.relocate_cache p tr td).1.net_delta_compen = tr.net_delta_compen ∧
    (Tenant.relocate_cache p tr td).2.net_delta_relinq = td.net_delta_relinq ∧
    (Tenant.relocate_cache p tr td).2.net_delta_compen = td.net_delta_compen :=
  ⟨rfl, rfl, rfl, rfl, rfl, rfl, rfl, rfl⟩

lemma getD_set_ne {α : Type} (d : α) (l : List α) {i j : ℕ} (a : α)
    (hij : i ≠ j) : (l.set i a).getD j d = l.getD j d := by
  by_cases hj : j < l.length
  · rw [List.getD_eq_getElem _ _ (by simpa using hj), List.getD_eq_getElem _ _ hj]
    exact List.getElem_set_ne hij _
  · rw [List.getD_eq_default _ _ (by simpa using hj),
      List.getD_eq_default _ _ (by omega)]

lemma sub64_of_le {a b : ℕ} (h : b ≤ a) : sub64 a b = a - b := if_pos h

/-- The receiver picked by the memshare phase is a valid index whenever the
tenant list is nonempty. -/
lemma memshareReceiver_lt (ts : List Tenant) (hne : ts ≠ []) :
    Allocator.memshareReceiver ts < ts.length := by
  unfold Allocator.memshareReceiver
  cases hr : List.range ts.length with
  | nil =>
    exact absurd (List.length_eq_zero.mp (by simpa using congrArg List.length hr)) hne
  | cons hh tt =>
    have hmem := foldl_pick_mem
      (fun best i =>
        if (ts.getD best Allocator.dummyTenant).mr_inc_if_more_cache <
            (ts.getD i Allocator.dummyTenant).mr_dec_if_less_cache then i else best)
      (fun b i => by
        by_cases hc : (ts.getD b Allocator.dummyTenant).mr_inc_if_more_cache <
            (ts.getD i Allocator.dummyTenant).mr_dec_if_less_cache
        · exact Or.inr (if_pos hc)
        · exact Or.inl (if_neg hc)) tt hh
    rw [← hr] at hmem
    exact List.mem_range.mp hmem

/-- Facts about a committed memshare round: the stateless aggregate, the
list length, the zero-net-offer predicate and the reserved floor are all
preserved (the donor is guarded by can_donate). -/
lemma memshareStep_facts (p : Params) (ts ts' : List Tenant)
    (h : Allocator.memshareStep p ts = some ts') :
    Tenant.aggregate_resrc ts' = Tenant.aggregate_resrc ts ∧
    ts'.length = ts.length ∧
    (netDeltaOk p ts → netDeltaOk p ts') ∧
    ((∀ t ∈ ts, t.reserved_cache_size ≤ t.cache_size) →
      ∀ t ∈ ts', t.reserved_cache_size ≤ t.cache_size) := by
  simp only [Allocator.memshareStep] at h
  split at h
  · exact absurd h (by simp)
  · next i_donator hfind =>
    split at h
    · next hprofit =>
      rw [Option.some.injEq] at h
      subst h
      -- names for the pieces
      set ts1 := ts.map (Tenant.update_mr_delta p) with hts1
      have hlen1 : ts1.length = ts.length := by simp [hts1]
      have hdon_pred := List.find?_some hfind
      have hdon_mem := List.mem_of_find?_eq_some hfind
      have hdon_mem' : i_donator < ts1.length := by
        have hperm : (List.range ts1.length).mergeSort
            (fun i j => (ts1.getD i Allocator.dummyTenant).mr_dec_if_less_cache ≤
              (ts1.getD j Allocator.dummyTenant).mr_dec_if_less_cache)
            |>.Perm (List.range ts1.length) := List.mergeSort_perm _ _
        have := hperm.mem_iff.mp hdon_mem
        simpa using this
      simp only [decide_eq_true_eq] at hdon_pred
      obtain ⟨hdon_ne, hdon_can⟩ := hdon_pred
      have hne1 : ts1 ≠ [] := by
        intro hnil
        rw [hnil] at hdon_mem'
        simp at hdon_mem'
      have hrec_lt : Allocator.memshareReceiver ts1 < ts1.length :=
        memshareReceiver_lt ts1 hne1
      set i_r := Allocator.memshareReceiver ts1 with hir
      set tR := (Tenant.relocate_cache p (ts1.getD i_r Allocator.dummyTenant)
        (ts1.getD i_donator Allocator.dummyTenant)).1 with htR
      set tD := (Tenant.relocate_cache p (ts1.getD i_r Allocator.dummyTenant)
        (ts1.getD i_donator Allocator.dummyTenant)).2 with htD
      have hmem_map : ∀ u ∈ ts1, ∃ t0 ∈ ts, u = Tenant.update_mr_delta p t0 := by
        intro u hu
        rw [hts1] at hu
        obtain ⟨t0, ht0, heq⟩ := List.mem_map.mp hu
        exact ⟨t0, ht0, heq.symm⟩
      refine ⟨?_, ?_, ?_, ?_⟩
      · have h2 : Tenant.aggregate_resrc ((ts1.set i_r tR).set i_donator tD) =
            Tenant.aggregate_resrc (ts1.set i_r tR) := by
          refine aggregate_set_eq (by simpa using hdon_mem') ?_
          rw [getD_set_ne _ _ _ (Ne.symm hdon_ne)]
          exact (relocate_cache_frame p _ _).2.1
        have h1 : Tenant.aggregate_resrc (ts1.set i_r tR) =
            Tenant.aggregate_resrc ts1 :=
          aggregate_set_eq hrec_lt (relocate_cache_frame p _ _).1
        have h0 : Tenant.aggregate_resrc ts1 = Tenant.aggregate_resrc ts := by
          rw [hts1]
          exact aggregate_map_eq (fun t => (update_mr_delta_frame p t).1) ts
        rw [h2, h1, h0]
      · simp [hlen1]
      · intro hnd hp t ht
        have hdelta : ∀ u ∈ ts1, u.net_delta_relinq = 0 ∧ u.net_delta_compen = 0 := by
          intro u hu
          obtain ⟨t0, ht0, rfl⟩ := hmem_map u hu
          rw [(update_mr_delta_frame p t0).2.2.2.1,
            (update_mr_delta_frame p t0).2.2.2.2]
          exact hnd hp t0 ht0
        rcases List.mem_or_eq_of_mem_set ht with ht2 | rfl
        · rcases List.mem_or_eq_of_mem_set ht2 with ht3 | rfl
          · exact hdelta t ht3
          · rw [(relocate_cache_frame p _ _).2.2.2.2.1,
              (relocate_cache_frame p _ _).2.2.2.2.2.1]
            exact hdelta _ (getD_tenant_mem hrec_lt)
        · rw [(relocate_cache_frame p _ _).2.2.2.2.2.2.1,
            (relocate_cache_frame p _ _).2.2.2.2.2.2.2]
          exact hdelta _ (getD_tenant_mem (by simpa using hdon_mem'))
      · intro hfl t ht
        have hfl1 : ∀ u ∈ ts1, u.reserved_cache_size ≤ u.cache_size := by
          intro u hu
          obtain ⟨t0, ht0, rfl⟩ := hmem_map u hu
          rw [(update_mr_delta_frame p t0).2.1,
            (update_mr_delta_frame p t0).2.2.1]
          exact hfl t0 ht0
        rcases List.mem_or_eq_of_mem_set ht with ht2 | rfl
        · rcases List.mem_or_eq_of_mem_set ht2 with ht3 | rfl
          · exact hfl1 t ht3
          · have hbase := hfl1 _ (getD_tenant_mem hrec_lt)
            rw [htR]
            unfold Tenant.relocate_cache
            simp only
            omega
        · have hcan := hdon_can
          unfold Tenant.can_donate at hcan
          rw [htD]
          unfold Tenant.relocate_cache
          simp only
          rw [sub64_of_le (by omega)]
          omega
    · exact absurd h (by simp)

/-- The memshare loop preserves the stateless aggregate, the tenant count,
the zero-net-offer predicate and the reserved cache floor, for every fuel. -/
lemma memshareLoop_facts (p : Params) :
    ∀ (fuel : ℕ) (ts : List Tenant),
      Tenant.aggregate_resrc (Allocator.memshareLoop p fuel ts) =
        Tenant.aggregate_resrc ts ∧
      (Allocator.memshareLoop p fuel ts).length = ts.length ∧
      (netDeltaOk p ts → netDeltaOk p (Allocator.memshareLoop p fuel ts)) ∧
      ((∀ t ∈ ts, t.reserved_cache_size ≤ t.cache_size) →
        ∀ t ∈ Allocator.memshareLoop p fuel ts,
          t.reserved_cache_size ≤ t.cache_size)
  | 0, ts => by
    exact ⟨rfl, rfl, fun h => h, fun h => h⟩
  | fuel + 1, ts => by
    cases hstep : Allocator.memshareStep p ts with
    | none =>
      have hred : Allocator.memshareLoop p (fuel + 1) ts = ts := by
        simp only [Allocator.memshareLoop, hstep]
      rw [hred]
      exact ⟨rfl, rfl, fun h => h, fun h => h⟩
    | some ts2 =>
      have hred : Allocator.memshareLoop p (fuel + 1) ts =
          Allocator.memshareLoop p fuel ts2 := by
        simp only [Allocator.memshareLoop, hstep]
      rw [hred]
      have hs := memshareStep_facts p ts ts2 hstep
      have ih := memshareLoop_facts p fuel ts2
      exact ⟨ih.1.trans hs.1, ih.2.1.trans hs.2.1,
        fun h => ih.2.2.1 (hs.2.2.1 h), fun h => ih.2.2.2 (hs.2.2.2 h)⟩

/-- The harvest pick returns in-bound, distinct relinquisher and
compensator indices, and permutes the compensator pointer list. -/
lemma harvestPick_facts (rk ck : ℕ → ℚ) (n : ℕ) (cl : List ℕ)
    (hn : 2 ≤ n) (hnd : cl.Nodup) (hb : ∀ i ∈ cl, i < n)
    (hlen : cl.length = n) :
    (Allocator.harvestPick rk ck n cl).1 < n ∧
    (Allocator.harvestPick rk ck n cl).2.1 < n ∧
    (Allocator.harvestPick rk ck n cl).1 ≠
      (Allocator.harvestPick rk ck n cl).2.1 ∧
    (Allocator.harvestPick rk ck n cl).2.2.Perm cl := by
  have hcl_ne : cl ≠ [] := by
    intro h0
    rw [h0] at hlen
    simp at hlen
    omega
  have hcl_pos : 0 < cl.length := by
    cases cl with
    | nil => exact absurd rfl hcl_ne
    | cons a t => simp
  have hrange_ne : (List.range n) ≠ [] := by
    simp only [ne_eq, List.range_eq_nil]
    omega
  have hmax := maxPosBy_lt_length rk (List.range n) hrange_ne
  rw [List.length_range] at hmax
  have hir_lt : (List.range n).getD (maxPosBy rk (List.range n)) 0 < n := by
    rw [getD_range n _ hmax]
    exact hmax
  have hcpos := minPosBy_lt_length ck cl hcl_ne
  have hic0_lt : cl.getD (minPosBy ck cl) 0 < n :=
    hb _ (getD_mem_of_lt hcpos)
  by_cases hcol : (List.range n).getD (maxPosBy rk (List.range n)) 0 =
      cl.getD (minPosBy ck cl) 0
  · -- collision: the found compensator is swapped to the front and the
    -- search is redone over the tail
    have hperm : ((cl.set 0 (cl.getD (minPosBy ck cl) 0)).set (minPosBy ck cl)
        (cl.getD 0 0)).Perm cl := set_set_swap_perm cl _ hcpos
    simp only [Allocator.harvestPick, if_pos hcol]
    set cl' := (cl.set 0 (cl.getD (minPosBy ck cl) 0)).set (minPosBy ck cl)
      (cl.getD 0 0) with hcl'
    have hcl'_len : cl'.length = cl.length := by simp [hcl']
    have htail_ne : cl'.drop 1 ≠ [] := by
      intro h0
      have := congrArg List.length h0
      simp [hcl'_len] at this
      omega
    have htpos := minPosBy_lt_length ck (cl'.drop 1) htail_ne
    have hic_mem : (cl'.drop 1).getD (minPosBy ck (cl'.drop 1)) 0 ∈
        cl'.drop 1 := getD_mem_of_lt htpos
    have hic_mem' : (cl'.drop 1).getD (minPosBy ck (cl'.drop 1)) 0 ∈ cl :=
      hperm.mem_iff.mp (List.mem_of_mem_drop hic_mem)
    refine ⟨hir_lt, hb _ hic_mem', ?_, hperm⟩
    -- the head of the swapped list is exactly the relinquisher, and the
    -- list is duplicate-free, so nothing in the tail can equal it
    have hcl'_pos : 0 < cl'.length := by omega
    have hhead : cl'.getD 0 0 = cl.getD (minPosBy ck cl) 0 := by
      rw [hcl', List.getD_eq_getElem _ _ (by simpa using hcl_pos)]
      by_cases hz : minPosBy ck cl = 0
      · rw [hz]
        exact List.getElem_set_self _
      · rw [List.getElem_set_ne hz _]
        exact List.getElem_set_self _
    have hsplit : cl'.getD 0 0 :: cl'.drop 1 = cl' := by
      cases hc : cl' with
      | nil =>
        rw [hc] at hcl'_pos
        simp at hcl'_pos
      | cons a t => simp
    have hnd' : cl'.Nodup := hperm.nodup_iff.mpr hnd
    have hnotin : cl'.getD 0 0 ∉ cl'.drop 1 := by
      rw [← hsplit] at hnd'
      exact (List.nodup_cons.mp hnd').1
    intro heq
    apply hnotin
    rw [hhead, ← hcol, heq]
    exact hic_mem
  · simp only [Allocator.harvestPick, if_neg hcol]
    exact ⟨hir_lt, hic0_lt, hcol, List.Perm.refl cl⟩

lemma getD_set_self {α : Type} (d : α) (l : List α) {i : ℕ} (a : α)
    (hi : i < l.length) : (l.set i a).getD i d = a := by
  rw [List.getD_eq_getElem _ _ (by simpa using hi)]
  exact List.getElem_set_self _

/-- One committed harvest deal moves exactly the offered db_rcu (and, with
total-net allocation on, net_bw) between the two tenants: the aggregate
changes by the relinquished minus the compensated amounts, the length is
unchanged, and zero net offers stay zero. -/
lemma harvestCommit_facts (p : Params) (ts : List Tenant) (iR iC : ℕ)
    (hiR : iR < ts.length) (hiC : iC < ts.length) (hne : iR ≠ iC) :
    Tenant.aggregate_resrc (Allocator.harvestCommit p ts iR iC) =
      ⟨(Tenant.aggregate_resrc ts).db_rcu
          - (ts.getD iR Allocator.dummyTenant).rcu_delta_relinq
          + (ts.getD iC Allocator.dummyTenant).rcu_delta_compen,
        (Tenant.aggregate_resrc ts).db_wcu,
        if p.alloc_total_net_bw then
          (Tenant.aggregate_resrc ts).net_bw
            - (ts.getD iR Allocator.dummyTenant).net_delta_relinq
            + (ts.getD iC Allocator.dummyTenant).net_delta_compen
        else (Tenant.aggregate_resrc ts).net_bw⟩ ∧
    (Allocator.harvestCommit p ts iR iC).length = ts.length ∧
    (netDeltaOk p ts → netDeltaOk p (Allocator.harvestCommit p ts iR iC)) := by
  simp only [Allocator.harvestCommit]
  set m := Tenant.relocate_resrc p (ts.getD iR Allocator.dummyTenant)
    (ts.getD iC Allocator.dummyTenant)
    (ts.getD iR Allocator.dummyTenant).rcu_delta_relinq
    (ts.getD iC Allocator.dummyTenant).rcu_delta_compen
    (ts.getD iR Allocator.dummyTenant).net_delta_relinq
    (ts.getD iC Allocator.dummyTenant).net_delta_compen with hm
  set tsA := (ts.set iR m.1).set iC m.2 with htsA
  have hA_len : tsA.length = ts.length := by simp [htsA]
  set u1 := Tenant.update_rcu_net_delta p (tsA.getD iR Allocator.dummyTenant)
    with hu1
  set tsB := tsA.set iR u1 with htsB
  have hB_len : tsB.length = ts.length := by simp [htsB, hA_len]
  set u2 := Tenant.update_rcu_net_delta p (tsB.getD iC Allocator.dummyTenant)
    with hu2
  have hgA_iR : tsA.getD iR Allocator.dummyTenant = m.1 := by
    rw [htsA, getD_set_ne _ _ _ (Ne.symm hne), getD_set_self _ _ _ hiR]
  have hgA_iC : tsA.getD iC Allocator.dummyTenant = m.2 := by
    rw [htsA, getD_set_self _ _ _ (by simpa using hiC)]
  have hgB_iC : tsB.getD iC Allocator.dummyTenant = m.2 := by
    rw [htsB, getD_set_ne _ _ _ hne, hgA_iC]
  have hsum_upd : ∀ (l : List Tenant) (i : ℕ) (u : Tenant), i < l.length →
      u.stateless = (l.getD i Allocator.dummyTenant).stateless →
      ∀ f : StatelessResrcVec → ℚ,
      ((l.set i u).map fun t => f t.stateless).sum =
        (l.map fun t => f t.stateless).sum := by
    intro l i u hi hu f
    rw [sum_map_set _ l i u hi, hu]
    ring
  refine ⟨?_, by simp [hB_len], ?_⟩
  · rw [aggregate_resrc_eq, aggregate_resrc_eq]
    have hstep2 : ∀ f : StatelessResrcVec → ℚ,
        ((tsB.set iC u2).map fun t => f t.stateless).sum =
          (tsA.map fun t => f t.stateless).sum := by
      intro f
      rw [hsum_upd tsB iC u2 (by omega)
        ((update_rcu_net_delta_frame p _).1) f]
      rw [htsB]
      exact hsum_upd tsA iR u1 (by omega)
        ((update_rcu_net_delta_frame p _).1) f
    have hstepA : ∀ f : StatelessResrcVec → ℚ,
        (tsA.map fun t => f t.stateless).sum =
          (ts.map fun t => f t.stateless).sum
            - f (ts.getD iR Allocator.dummyTenant).stateless
            + f m.1.stateless
            - f (ts.getD iC Allocator.dummyTenant).stateless
            + f m.2.stateless := by
      intro f
      rw [htsA, sum_map_set _ (ts.set iR m.1) iC m.2 (by simpa using hiC),
        getD_set_ne _ _ _ hne,
        sum_map_set _ ts iR m.1 hiR]
    simp only [StatelessResrcVec.mk.injEq]
    refine ⟨?_, ?_, ?_⟩
    · rw [hstep2 (fun v => v.db_rcu), hstepA (fun v => v.db_rcu)]
      have h1 : m.1.stateless.db_rcu =
          (ts.getD iR Allocator.dummyTenant).stateless.db_rcu
            - (ts.getD iR Allocator.dummyTenant).rcu_delta_relinq := rfl
      have h2 : m.2.stateless.db_rcu =
          (ts.getD iC Allocator.dummyTenant).stateless.db_rcu
            + (ts.getD iC Allocator.dummyTenant).rcu_delta_compen := rfl
      rw [h1, h2]
      ring
    · rw [hstep2 (fun v => v.db_wcu), hstepA (fun v => v.db_wcu)]
      have h1 : m.1.stateless.db_wcu =
          (ts.getD iR Allocator.dummyTenant).stateless.db_wcu := rfl
      have h2 : m.2.stateless.db_wcu =
          (ts.getD iC Allocator.dummyTenant).stateless.db_wcu := rfl
      rw [h1, h2]
      ring
    · rw [hstep2 (fun v => v.net_bw), hstepA (fun v => v.net_bw)]
      by_cases hp : p.alloc_total_net_bw = true
      · have h1 : m.1.stateless.net_bw =
            (ts.getD iR Allocator.dummyTenant).stateless.net_bw
              - (ts.getD iR Allocator.dummyTenant).net_delta_relinq := by
          rw [hm]
          simp only [Tenant.relocate_resrc, if_pos hp]
        have h2 : m.2.stateless.net_bw =
            (ts.getD iC Allocator.dummyTenant).stateless.net_bw
              + (ts.getD iC Allocator.dummyTenant).net_delta_compen := by
          rw [hm]
          simp only [Tenant.relocate_resrc, if_pos hp]
        rw [h1, h2, if_pos hp]
        ring
      · have h1 : m.1.stateless.net_bw =
            (ts.getD iR Allocator.dummyTenant).stateless.net_bw := by
          rw [hm]
          simp only [Tenant.relocate_resrc, if_neg hp]
        have h2 : m.2.stateless.net_bw =
            (ts.getD iC Allocator.dummyTenant).stateless.net_bw := by
          rw [hm]
          simp only [Tenant.relocate_resrc, if_neg hp]
        rw [h1, h2, if_neg hp]
        ring
  · intro hnd hp t ht
    have hm1z : m.1.net_delta_relinq = 0 ∧ m.1.net_delta_compen = 0 := by
      have := hnd hp _ (getD_tenant_mem hiR)
      exact ⟨this.1, this.2⟩
    have hm2z : m.2.net_delta_relinq = 0 ∧ m.2.net_delta_compen = 0 := by
      have := hnd hp _ (getD_tenant_mem hiC)
      exact ⟨this.1, this.2⟩
    rcases List.mem_or_eq_of_mem_set ht with ht1 | rfl
    · rcases List.mem_or_eq_of_mem_set ht1 with ht2 | rfl
      · rcases List.mem_or_eq_of_mem_set ht2 with ht3 | rfl
        · rcases List.mem_or_eq_of_mem_set ht3 with ht4 | rfl
          · exact hnd hp t ht4
          · exact hm1z
        · exact hm2z
      · rw [hu1, hgA_iR]
        exact update_rcu_net_delta_netzero p hp m.1 hm1z
    · rw [hu2, hgB_iC]
      exact update_rcu_net_delta_netzero p hp m.2 hm2z

lemma vec_ext {v w : StatelessResrcVec} (h1 : v.db_rcu = w.db_rcu)
    (h2 : v.db_wcu = w.db_wcu) (h3 : v.net_bw = w.net_bw) : v = w := by
  cases v
  cases w
  simp_all

/-- A committed harvest deal together with any permissible new pointer
lists re-establishes the harvest invariant. -/
lemma harvestInv_commit (p : Params) (total : StatelessResrcVec)
    (s : Allocator.HarvestState)
    (iR iC : ℕ) (o1 o2 : List ℕ) (ratio : ℚ) (b1 b2 : Bool)
    (hn : 2 ≤ s.tenants.length)
    (hcons : (Tenant.aggregate_resrc s.tenants).add s.resrc_avail = total)
    (hnet : netDeltaOk p s.tenants)
    (hiR : iR < s.tenants.length) (hiC : iC < s.tenants.length)
    (hne : iR ≠ iC)
    (hnd1 : o1.Nodup) (hnd2 : o2.Nodup)
    (hb1 : ∀ i ∈ o1, i < s.tenants.length)
    (hb2 : ∀ i ∈ o2, i < s.tenants.length)
    (hlo1 : o1.length = s.tenants.length)
    (hlo2 : o2.length = s.tenants.length) :
    Allocator.HarvestInv p total
      { tenants := Allocator.harvestCommit p s.tenants iR iC
        rcu_compen_order := o1
        net_compen_order := o2
        resrc_avail :=
          { s.resrc_avail with
            db_rcu := s.resrc_avail.db_rcu +
              ((s.tenants.getD iR Allocator.dummyTenant).rcu_delta_relinq -
                (s.tenants.getD iC Allocator.dummyTenant).rcu_delta_compen)
            net_bw := s.resrc_avail.net_bw +
              ((s.tenants.getD iR Allocator.dummyTenant).net_delta_relinq -
                (s.tenants.getD iC Allocator.dummyTenant).net_delta_compen) }
        prev_ratio := ratio
        is_rcu_bottleneck := b1
        is_net_bottleneck := b2 } := by
  obtain ⟨hagg, hlen, hnd⟩ := harvestCommit_facts p s.tenants iR iC hiR hiC hne
  have h1 : (Tenant.aggregate_resrc s.tenants).db_rcu +
      s.resrc_avail.db_rcu = total.db_rcu := by
    rw [← hcons]
    rfl
  have h2 : (Tenant.aggregate_resrc s.tenants).db_wcu +
      s.resrc_avail.db_wcu = total.db_wcu := by
    rw [← hcons]
    rfl
  have h3 : (Tenant.aggregate_resrc s.tenants).net_bw +
      s.resrc_avail.net_bw = total.net_bw := by
    rw [← hcons]
    rfl
  refine ⟨by simpa [hlen] using hn, ?_, hnd1, hnd2,
    fun i hi => by simpa [hlen] using hb1 i hi,
    fun i hi => by simpa [hlen] using hb2 i hi,
    by simpa [hlen] using hlo1, by simpa [hlen] using hlo2, hnd hnet⟩
  refine vec_ext ?_ ?_ ?_
  · show (Tenant.aggregate_resrc
        (Allocator.harvestCommit p s.tenants iR iC)).db_rcu +
      (s.resrc_avail.db_rcu +
        ((s.tenants.getD iR Allocator.dummyTenant).rcu_delta_relinq -
          (s.tenants.getD iC Allocator.dummyTenant).rcu_delta_compen)) =
      total.db_rcu
    rw [hagg, ← h1]
    show (Tenant.aggregate_resrc s.tenants).db_rcu -
        (s.tenants.getD iR Allocator.dummyTenant).rcu_delta_relinq +
        (s.tenants.getD iC Allocator.dummyTenant).rcu_delta_compen + _ = _
    ring
  · show (Tenant.aggregate_resrc
        (Allocator.harvestCommit p s.tenants iR iC)).db_wcu +
      s.resrc_avail.db_wcu = total.db_wcu
    rw [hagg, ← h2]
  · show (Tenant.aggregate_resrc
        (Allocator.harvestCommit p s.tenants iR iC)).net_bw +
      (s.resrc_avail.net_bw +
        ((s.tenants.getD iR Allocator.dummyTenant).net_delta_relinq -
          (s.tenants.getD iC Allocator.dummyTenant).net_delta_compen)) =
      total.net_bw
    rw [hagg, ← h3]
    by_cases hp : p.alloc_total_net_bw = true
    · show (if p.alloc_total_net_bw then
          (Tenant.aggregate_resrc s.tenants).net_bw -
            (s.tenants.getD iR Allocator.dummyTenant).net_delta_relinq +
            (s.tenants.getD iC Allocator.dummyTenant).net_delta_compen
        else (Tenant.aggregate_resrc s.tenants).net_bw) + _ = _
      rw [if_pos hp]
      ring
    · have hp' : p.alloc_total_net_bw = false := by simpa using hp
      have hzR := hnet hp' _ (getD_tenant_mem hiR)
      have hzC := hnet hp' _ (getD_tenant_mem hiC)
      show (if p.alloc_total_net_bw then
          (Tenant.aggregate_resrc s.tenants).net_bw -
            (s.tenants.getD iR Allocator.dummyTenant).net_delta_relinq +
            (s.tenants.getD iC Allocator.dummyTenant).net_delta_compen
        else (Tenant.aggregate_resrc s.tenants).net_bw) + _ = _
      rw [if_neg hp, hzR.1, hzC.2]
      ring

/-- One harvest trading round preserves the harvest invariant. -/
lemma harvestStep_inv (p : Params) (total : StatelessResrcVec)
    {s s' : Allocator.HarvestState}
    (hinv : Allocator.HarvestInv p total s)
    (h : Allocator.harvestStep p total s = some s') :
    Allocator.HarvestInv p total s' := by
  obtain ⟨hn, hcons, hnd_r, hnd_n, hb_r, hb_n, hl_r, hl_n, hnet⟩ := hinv
  cases honr : s.is_rcu_bottleneck with
  | true =>
    simp only [Allocator.harvestStep, honr, true_or, if_true, ite_true,
      eq_self_iff_true, true_and] at h
    split at h
    · exact absurd h (by simp)
    · obtain ⟨hiR, hiC, hne, hperm⟩ := harvestPick_facts
        (fun i => (s.tenants.getD i Allocator.dummyTenant).rcu_delta_relinq)
        (fun i => (s.tenants.getD i Allocator.dummyTenant).rcu_delta_compen)
        s.tenants.length s.rcu_compen_order hn hnd_r hb_r hl_r
      obtain rfl := Option.some.inj h
      exact harvestInv_commit p total s _ _ _ _ _ _ _ hn hcons hnet hiR hiC
        hne (hperm.nodup_iff.mpr hnd_r) hnd_n
        (fun i hi => hb_r i (hperm.mem_iff.mp hi)) hb_n
        (hperm.length_eq.trans hl_r) hl_n
  | false =>
    simp only [Allocator.harvestStep, honr, false_or, if_false,
      Bool.false_eq_true, false_and] at h
    split at h
    · split at h
      · exact absurd h (by simp)
      · obtain ⟨hiR, hiC, hne, hperm⟩ := harvestPick_facts
          (fun i => (s.tenants.getD i Allocator.dummyTenant).net_delta_relinq)
          (fun i => (s.tenants.getD i Allocator.dummyTenant).net_delta_compen)
          s.tenants.length s.net_compen_order hn hnd_n hb_n hl_n
        obtain rfl := Option.some.inj h
        exact harvestInv_commit p total s _ _ _ _ _ _ _ hn hcons hnet hiR hiC
          hne hnd_r (hperm.nodup_iff.mpr hnd_n)
          hb_r (fun i hi => hb_n i (hperm.mem_iff.mp hi))
          hl_r (hperm.length_eq.trans hl_n)
    · exact absurd h (by simp)

/-- Unfolding lemma: a successful round continues the harvest loop. -/
lemma harvestLoop_step (p : Params) (total : StatelessResrcVec)
    {s s' : Allocator.HarvestState} (fuel : ℕ)
    (h : Allocator.harvestStep p total s = some s') :
    Allocator.harvestLoop p total (fuel + 1) s =
      Allocator.harvestLoop p total fuel s' := by
  simp only [Allocator.harvestLoop, h]

/-- Unfolding lemma: once a round breaks, the harvest loop is over. -/
lemma harvestLoop_stop (p : Params) (total : StatelessResrcVec)
    {s : Allocator.HarvestState}
    (h : Allocator.harvestStep p total s = none) :
    ∀ fuel, Allocator.harvestLoop p total fuel s = s
  | 0 => rfl
  | fuel + 1 => by
    simp only [Allocator.harvestLoop, h]

/-- The harvest loop preserves the harvest invariant, for every fuel. -/
lemma harvestLoop_inv (p : Params) (total : StatelessResrcVec) :
    ∀ (fuel : ℕ) (s : Allocator.HarvestState),
      Allocator.HarvestInv p total s →
      Allocator.HarvestInv p total (Allocator.harvestLoop p total fuel s)
  | 0, s, hinv => hinv
  | fuel + 1, s, hinv => by
    cases hstep : Allocator.harvestStep p total s with
    | none =>
      rw [harvestLoop_stop p total hstep]
      exact hinv
    | some s2 =>
      rw [harvestLoop_step p total fuel hstep]
      exact harvestLoop_inv p total fuel s2 (harvestStep_inv p total hinv hstep)

/-- The harvest phase conserves the aggregate-plus-available total, keeps
at least two tenants, and keeps the stored net offers at zero when
total-net allocation is off. -/
lemma do_harvest_facts (p : Params) (total : StatelessResrcVec)
    (tenants : List Tenant) (avail : StatelessResrcVec)
    (hn : 2 ≤ tenants.length)
    (hcons : (Tenant.aggregate_resrc tenants).add avail = total)
    (hnet : netDeltaOk p tenants) :
    (Tenant.aggregate_resrc (Allocator.do_harvest p total tenants avail).1).add
      (Allocator.do_harvest p total tenants avail).2 = total ∧
    2 ≤ (Allocator.do_harvest p total tenants avail).1.length ∧
    netDeltaOk p (Allocator.do_harvest p total tenants avail).1 := by
  have hinv0 : Allocator.HarvestInv p total
      { tenants := tenants.map (Tenant.update_rcu_net_delta p)
        rcu_compen_order :=
          List.range (tenants.map (Tenant.update_rcu_net_delta p)).length
        net_compen_order :=
          List.range (tenants.map (Tenant.update_rcu_net_delta p)).length
        resrc_avail := avail
        prev_ratio := (Allocator.estimate_bottleneck total avail).1
        is_rcu_bottleneck := (Allocator.estimate_bottleneck total avail).2.1
        is_net_bottleneck :=
          (Allocator.estimate_bottleneck total avail).2.2 } := by
    refine ⟨by simpa using hn, ?_, List.nodup_range _, List.nodup_range _,
      fun i hi => List.mem_range.mp hi, fun i hi => List.mem_range.mp hi,
      by simp, by simp, ?_⟩
    · rw [aggregate_map_eq (fun t => (update_rcu_net_delta_frame p t).1)]
      exact hcons
    · intro hp t ht
      obtain ⟨t0, ht0, rfl⟩ := List.mem_map.mp ht
      exact update_rcu_net_delta_netzero p hp t0 (hnet hp t0 ht0)
  have hinv := harvestLoop_inv p total params.alloc.max_trade_round _ hinv0
  exact ⟨hinv.2.1, hinv.1, hinv.2.2.2.2.2.2.2.2⟩

lemma sum_map_add2 {α : Type} (f g : α → ℚ) :
    ∀ l : List α, (l.map fun x => f x + g x).sum = (l.map f).sum + (l.map g).sum
  | [] => by simp
  | x :: rest => by
    simp only [List.map_cons, List.sum_cons, sum_map_add2 f g rest]
    ring

lemma sum_map_mul_div {α : Type} (f : α → ℚ) (a b : ℚ) :
    ∀ l : List α,
      (l.map fun x => a * (f x / b)).sum = a * ((l.map f).sum / b)
  | [] => by simp
  | x :: rest => by
    simp only [List.map_cons, List.sum_cons, sum_map_mul_div f a b rest,
      add_div]
    ring

lemma sum_map_const_q {α : Type} (c : ℚ) :
    ∀ l : List α, (l.map fun _ => c).sum = (l.length : ℚ) * c
  | [] => by simp
  | x :: rest => by
    simp only [List.map_cons, List.sum_cons, sum_map_const_q c rest,
      List.length_cons]
    push_cast
    ring

/-- Distributing an available amount `A` proportionally to each tenant's
share of `S` (or evenly when `S = 0`) adds exactly `A` to the sum, when
the sum really is `S`. -/
lemma sum_owned_factor (c : Tenant → ℚ) (A S : ℚ) (ts : List Tenant)
    (hS : (ts.map c).sum = S) (hne : ts ≠ []) :
    (ts.map fun t =>
      c t + A * (if S ≠ 0 then c t / S else 1 / (ts.length : ℚ))).sum =
      S + A := by
  have hlen : (ts.length : ℚ) ≠ 0 := by
    have : 0 < ts.length := List.length_pos.mpr hne
    exact_mod_cast this.ne'
  by_cases hz : S = 0
  · have hif : (fun t =>
        c t + A * (if S ≠ 0 then c t / S else 1 / (ts.length : ℚ))) =
        fun t => c t + A * (1 / (ts.length : ℚ)) := by
      funext t
      rw [if_neg (not_not_intro hz)]
    rw [hif, sum_map_add2 c (fun _ => A * (1 / (ts.length : ℚ))),
      sum_map_const_q, hS, hz]
    field_simp
  · have hif : (fun t =>
        c t + A * (if S ≠ 0 then c t / S else 1 / (ts.length : ℚ))) =
        fun t => c t + A * (c t / S) := by
      funext t
      rw [if_pos hz]
    rw [hif, sum_map_add2 c (fun t => A * (c t / S)),
      sum_map_mul_div c A S, hS, div_self hz]
    ring

/-- In conserving mode, do_redistribute hands the entire available pool
back to the tenants: the new aggregate equals the fixed total exactly. -/
lemma do_redistribute_conserving (p : Params) (pol : Policy)
    (total : StatelessResrcVec) (ts : List Tenant)
    (avail : StatelessResrcVec)
    (hpol : pol.conserving = true)
    (hsum : (Tenant.aggregate_resrc ts).add avail = total)
    (hne : ts ≠ []) :
    Tenant.aggregate_resrc
      (Allocator.do_redistribute p pol total ts avail).1 = total := by
  simp only [Allocator.do_redistribute, hpol, if_true]
  have h1 : (ts.map fun t => t.stateless.db_rcu).sum + avail.db_rcu =
      total.db_rcu := by
    rw [← hsum, aggregate_resrc_eq]
    rfl
  have h2 : (ts.map fun t => t.stateless.db_wcu).sum + avail.db_wcu =
      total.db_wcu := by
    rw [← hsum, aggregate_resrc_eq]
    rfl
  have h3 : (ts.map fun t => t.stateless.net_bw).sum + avail.net_bw =
      total.net_bw := by
    rw [← hsum, aggregate_resrc_eq]
    rfl
  rw [aggregate_resrc_eq]
  refine vec_ext ?_ ?_ ?_
  · show ((ts.map (Tenant.scale_stateless_resrc_by_owned avail
        (total.sub avail) ts.length)).map fun t => t.stateless.db_rcu).sum =
      total.db_rcu
    rw [List.map_map]
    simp only [Function.comp_def, Tenant.scale_stateless_resrc_by_owned,
      StatelessResrcVec.sub]
    rw [sum_owned_factor (fun t => t.stateless.db_rcu) avail.db_rcu
      (total.db_rcu - avail.db_rcu) ts (by linarith) hne]
    ring
  · show ((ts.map (Tenant.scale_stateless_resrc_by_owned avail
        (total.sub avail) ts.length)).map fun t => t.stateless.db_wcu).sum =
      total.db_wcu
    rw [List.map_map]
    simp only [Function.comp_def, Tenant.scale_stateless_resrc_by_owned,
      StatelessResrcVec.sub]
    rw [sum_owned_factor (fun t => t.stateless.db_wcu) avail.db_wcu
      (total.db_wcu - avail.db_wcu) ts (by linarith) hne]
    ring
  · show ((ts.map (Tenant.scale_stateless_resrc_by_owned avail
        (total.sub avail) ts.length)).map fun t => t.stateless.net_bw).sum =
      total.net_bw
    rw [List.map_map]
    simp only [Function.comp_def, Tenant.scale_stateless_resrc_by_owned,
      StatelessResrcVec.sub]
    rw [sum_owned_factor (fun t => t.stateless.net_bw) avail.net_bw
      (total.net_bw - avail.net_bw) ts (by linarith) hne]
    ring

/-- C1: In conserving mode with at least two tenants, the componentwise
sum over all tenants of the stateless resource vectors (db_rcu, db_wcu,
net_bw) after do_alloc equals the sum before do_alloc, within the
per-component epsilons db_rcu_epsilon, db_wcu_epsilon, net_bw_epsilon
(taking the allocator's recorded total as the tenants' initial sum and
zero stored net offers when total-net allocation is off). -/
theorem C1_conserving_sum_preserved (p : Params) (fuel : ℕ) (a : Allocator)
    (hpol : a.policy.conserving = true)
    (hn : 2 ≤ a.tenants.length)
    (hagg : Tenant.aggregate_resrc a.tenants = a.total_resrc.stateless)
    (hnet : netDeltaOk p a.tenants) :
    |(Tenant.aggregate_resrc (Allocator.do_alloc p fuel a).1.tenants).db_rcu -
        (Tenant.aggregate_resrc a.tenants).db_rcu| <
      params.numeric.db_rcu_epsilon ∧
    |(Tenant.aggregate_resrc (Allocator.do_alloc p fuel a).1.tenants).db_wcu -
        (Tenant.aggregate_resrc a.tenants).db_wcu| <
      params.numeric.db_wcu_epsilon ∧
    |(Tenant.aggregate_resrc (Allocator.do_alloc p fuel a).1.tenants).net_bw -
        (Tenant.aggregate_resrc a.tenants).net_bw| <
      params.numeric.net_bw_epsilon := by
  have h2 : ¬(a.tenants.length ≤ 1) := by omega
  have hA1 : (Tenant.aggregate_resrc a.tenants).db_rcu =
      a.total_resrc.stateless.db_rcu := congrArg StatelessResrcVec.db_rcu hagg
  have hA2 : (Tenant.aggregate_resrc a.tenants).db_wcu =
      a.total_resrc.stateless.db_wcu := congrArg StatelessResrcVec.db_wcu hagg
  have hA3 : (Tenant.aggregate_resrc a.tenants).net_bw =
      a.total_resrc.stateless.net_bw := congrArg StatelessResrcVec.net_bw hagg
  simp only [Allocator.do_alloc, if_neg h2]
  set ts0 := if a.policy.memshare then Allocator.memshareLoop p fuel a.tenants
    else a.tenants with hts0def
  have hts0f : Tenant.aggregate_resrc ts0 = Tenant.aggregate_resrc a.tenants ∧
      2 ≤ ts0.length ∧ netDeltaOk p ts0 := by
    rw [hts0def]
    split_ifs with hm
    · have hf := memshareLoop_facts p fuel a.tenants
      exact ⟨hf.1, by omega, hf.2.2.1 hnet⟩
    · exact ⟨rfl, hn, hnet⟩
  set collected := ts0.map (Tenant.collect_idle p) with hcolldef
  set avail := collected.foldl (fun s pr => s.add pr.1)
    ({} : StatelessResrcVec) with havaildef
  set ts1 := collected.map (·.2) with hts1def
  have hnet1 : netDeltaOk p ts1 := by
    intro hp t ht
    rw [hts1def, hcolldef] at ht
    obtain ⟨pr, hpr, rfl⟩ := List.mem_map.mp ht
    obtain ⟨t0, ht0, rfl⟩ := List.mem_map.mp hpr
    rw [(collect_idle_frame p t0).2.2.1, (collect_idle_frame p t0).2.2.2]
    exact hts0f.2.2 hp t0 ht0
  have hlen1 : ts1.length = ts0.length := by
    rw [hts1def, hcolldef]
    simp
  have hcons1 : (Tenant.aggregate_resrc ts1).add avail =
      a.total_resrc.stateless := by
    have h := collect_phase_conserve p ts0
    rw [hts0f.1, hagg] at h
    exact h
  set hv := if a.policy.harvest then
      Allocator.do_harvest p a.total_resrc.stateless ts1 avail
    else (ts1, avail) with hhvdef
  have hhvf : (Tenant.aggregate_resrc hv.1).add hv.2 =
      a.total_resrc.stateless ∧ 2 ≤ hv.1.length := by
    rw [hhvdef]
    split_ifs with hh
    · have hf := do_harvest_facts p a.total_resrc.stateless ts1 avail
        (by omega) hcons1 hnet1
      exact ⟨hf.1, hf.2.1⟩
    · refine ⟨hcons1, ?_⟩
      show 2 ≤ ts1.length
      omega
  have hne1 : hv.1 ≠ [] := List.length_pos.mp (by omega)
  have hc1 : (Tenant.aggregate_resrc hv.1).db_rcu + hv.2.db_rcu =
      a.total_resrc.stateless.db_rcu := by
    rw [← hhvf.1]
    rfl
  have hc2 : (Tenant.aggregate_resrc hv.1).db_wcu + hv.2.db_wcu =
      a.total_resrc.stateless.db_wcu := by
    rw [← hhvf.1]
    rfl
  have hc3 : (Tenant.aggregate_resrc hv.1).net_bw + hv.2.net_bw =
      a.total_resrc.stateless.net_bw := by
    rw [← hhvf.1]
    rfl
  split
  · next halm =>
    obtain ⟨e1, e2, e3⟩ := halm
    refine ⟨?_, ?_, ?_⟩
    · show |(Tenant.aggregate_resrc hv.1).db_rcu -
          (Tenant.aggregate_resrc a.tenants).db_rcu| < _
      have hd : (Tenant.aggregate_resrc hv.1).db_rcu -
          (Tenant.aggregate_resrc a.tenants).db_rcu = -hv.2.db_rcu := by
        rw [hA1]
        linarith
      rw [hd, abs_neg]
      exact e1
    · show |(Tenant.aggregate_resrc hv.1).db_wcu -
          (Tenant.aggregate_resrc a.tenants).db_wcu| < _
      have hd : (Tenant.aggregate_resrc hv.1).db_wcu -
          (Tenant.aggregate_resrc a.tenants).db_wcu = -hv.2.db_wcu := by
        rw [hA2]
        linarith
      rw [hd, abs_neg]
      exact e2
    · show |(Tenant.aggregate_resrc hv.1).net_bw -
          (Tenant.aggregate_resrc a.tenants).net_bw| < _
      have hd : (Tenant.aggregate_resrc hv.1).net_bw -
          (Tenant.aggregate_resrc a.tenants).net_bw = -hv.2.net_bw := by
        rw [hA3]
        linarith
      rw [hd, abs_neg]
      exact e3
  · next halm =>
    have hexact := do_redistribute_conserving p a.policy
      a.total_resrc.stateless hv.1 hv.2 hpol hhvf.1 hne1
    refine ⟨?_, ?_, ?_⟩
    · show |(Tenant.aggregate_resrc
          (Allocator.do_redistribute p a.policy a.total_resrc.stateless
            hv.1 hv.2).1).db_rcu -
          (Tenant.aggregate_resrc a.tenants).db_rcu| < _
      rw [hexact, hA1]
      norm_num [params.numeric.db_rcu_epsilon]
    · show |(Tenant.aggregate_resrc
          (Allocator.do_redistribute p a.policy a.total_resrc.stateless
            hv.1 hv.2).1).db_wcu -
          (Tenant.aggregate_resrc a.tenants).db_wcu| < _
      rw [hexact, hA2]
      norm_num [params.numeric.db_wcu_epsilon]
    · show |(Tenant.aggregate_resrc
          (Allocator.do_redistribute p a.policy a.total_resrc.stateless
            hv.1 hv.2).1).net_bw -
          (Tenant.aggregate_resrc a.tenants).net_bw| < _
      rw [hexact, hA3]
      norm_num [params.numeric.net_bw_epsilon]

theorem C1_conserving_sum_preserved_witness :
    aEx.policy.conserving = true ∧ 2 ≤ aEx.tenants.length ∧
    Tenant.aggregate_resrc aEx.tenants = aEx.total_resrc.stateless ∧
    netDeltaOk pEx aEx.tenants ∧
    (|(Tenant.aggregate_resrc
          (Allocator.do_alloc pEx 0 aEx).1.tenants).db_rcu -
        (Tenant.aggregate_resrc aEx.tenants).db_rcu| <
      params.numeric.db_rcu_epsilon ∧
     |(Tenant.aggregate_resrc
          (Allocator.do_alloc pEx 0 aEx).1.tenants).db_wcu -
        (Tenant.aggregate_resrc aEx.tenants).db_wcu| <
      params.numeric.db_wcu_epsilon ∧
     |(Tenant.aggregate_resrc
          (Allocator.do_alloc pEx 0 aEx).1.tenants).net_bw -
        (Tenant.aggregate_resrc aEx.tenants).net_bw| <
      params.numeric.net_bw_epsilon) := by
  have hpol : aEx.policy.conserving = true := by
    norm_num [aEx, Allocator.add_tenant]
  have hn : 2 ≤ aEx.tenants.length := by
    norm_num [aEx, Allocator.add_tenant]
  have hagg : Tenant.aggregate_resrc aEx.tenants =
      aEx.total_resrc.stateless := by
    norm_num [aEx, Allocator.add_tenant, Tenant.mk', Tenant.aggregate_resrc,
      StatelessResrcVec.add, bEx, dEx, List.foldl_cons, List.foldl_nil]
  have hnet : netDeltaOk pEx aEx.tenants := by
    intro hp
    simp [pEx] at hp
  exact ⟨hpol, hn, hagg, hnet,
    C1_conserving_sum_preserved pEx 0 aEx hpol hn hagg hnet⟩

/-- Redistribution only rescales the stateless vectors: every tenant's
cache size and reserved floor are untouched. -/
lemma do_redistribute_floor (p : Params) (pol : Policy)
    (total : StatelessResrcVec) (ts : List Tenant)
    (avail : StatelessResrcVec)
    (hfl : ∀ t ∈ ts, t.reserved_cache_size ≤ t.cache_size) :
    ∀ t ∈ (Allocator.do_redistribute p pol total ts avail).1,
      t.reserved_cache_size ≤ t.cache_size := by
  intro t ht
  simp only [Allocator.do_redistribute] at ht
  split at ht
  · obtain ⟨t0, ht0, rfl⟩ := List.mem_map.mp ht
    exact hfl t0 ht0
  · obtain ⟨t0, ht0, rfl⟩ := List.mem_map.mp ht
    exact hfl t0 ht0

/-- C2 (amended): when the harvest phase is disabled, every tenant's
cache allocation stays at or above its reserved floor across do_alloc:
memshare moves cache only from tenants that can_donate (which keeps one
cache_delta above the floor), and collect/redistribute never touch the
cache sizes. -/
theorem C2_reserved_floor_harvest_off (p : Params) (fuel : ℕ) (a : Allocator)
    (hh : a.policy.harvest = false)
    (hfl : ∀ t ∈ a.tenants, t.reserved_cache_size ≤ t.cache_size) :
    ∀ t ∈ (Allocator.do_alloc p fuel a).1.tenants,
      t.reserved_cache_size ≤ t.cache_size := by
  by_cases h2 : a.tenants.length ≤ 1
  · simp only [Allocator.do_alloc, if_pos h2]
    exact hfl
  · simp only [Allocator.do_alloc, if_neg h2]
    set ts0 := if a.policy.memshare then
      Allocator.memshareLoop p fuel a.tenants else a.tenants with hts0def
    have hfl0 : ∀ t ∈ ts0, t.reserved_cache_size ≤ t.cache_size := by
      rw [hts0def]
      split_ifs with hm
      · exact (memshareLoop_facts p fuel a.tenants).2.2.2 hfl
      · exact hfl
    set collected := ts0.map (Tenant.collect_idle p) with hcolldef
    set avail := collected.foldl (fun s pr => s.add pr.1)
      ({} : StatelessResrcVec) with havaildef
    set ts1 := collected.map (·.2) with hts1def
    have hfl1 : ∀ t ∈ ts1, t.reserved_cache_size ≤ t.cache_size := by
      intro t ht
      rw [hts1def, hcolldef] at ht
      obtain ⟨pr, hpr, rfl⟩ := List.mem_map.mp ht
      obtain ⟨t0, ht0, rfl⟩ := List.mem_map.mp hpr
      rw [(collect_idle_frame p t0).1, (collect_idle_frame p t0).2.1]
      exact hfl0 t0 ht0
    rw [show (if a.policy.harvest then
        Allocator.do_harvest p a.total_resrc.stateless ts1 avail
      else (ts1, avail)) = (ts1, avail) from if_neg (by simp [hh])]
    split
    · exact hfl1
    · exact do_redistribute_floor p a.policy a.total_resrc.stateless
        ts1 avail hfl1

theorem C2_reserved_floor_harvest_off_witness :
    aEx2.policy.harvest = false ∧
    (∀ t ∈ aEx2.tenants, t.reserved_cache_size ≤ t.cache_size) ∧
    ∀ t ∈ (Allocator.do_alloc pEx 0 aEx2).1.tenants,
      t.reserved_cache_size ≤ t.cache_size := by
  have hh : aEx2.policy.harvest = false := by
    norm_num [aEx2, Allocator.add_tenant]
  have hfl : ∀ t ∈ aEx2.tenants, t.reserved_cache_size ≤ t.cache_size := by
    intro t ht
    simp only [aEx2, Allocator.add_tenant, List.append_nil, List.nil_append,
      List.mem_append, List.mem_singleton, List.mem_cons,
      List.not_mem_nil, or_false] at ht
    rcases ht with rfl | rfl <;>
      norm_num [Tenant.mk', bEx, params.alloc.memshare.reserved_of]
  exact ⟨hh, hfl, C2_reserved_floor_harvest_off pEx 0 aEx2 hh hfl⟩

/-- The min of the three componentwise ratios is zero as soon as every
ratio is nonnegative and one numerator (or the whole denominator) is
zero. -/
lemma minRatioDiv_zero (A B : StatelessResrcVec)
    (hA : 0 ≤ A.db_rcu ∧ 0 ≤ A.db_wcu ∧ 0 ≤ A.net_bw)
    (hB : 0 ≤ B.db_rcu ∧ 0 ≤ B.db_wcu ∧ 0 ≤ B.net_bw)
    (hz : A.db_rcu = 0 ∨ A.db_wcu = 0 ∨ A.net_bw = 0 ∨
      (B.db_rcu = 0 ∧ B.db_wcu = 0 ∧ B.net_bw = 0)) :
    A.minRatioDiv B = 0 := by
  unfold StatelessResrcVec.minRatioDiv
  have n1 : 0 ≤ A.db_rcu / B.db_rcu := div_nonneg hA.1 hB.1
  have n2 : 0 ≤ A.db_wcu / B.db_wcu := div_nonneg hA.2.1 hB.2.1
  have n3 : 0 ≤ A.net_bw / B.net_bw := div_nonneg hA.2.2 hB.2.2
  rcases hz with h | h | h | ⟨h1, h2, h3⟩
  · rw [h, zero_div]
    exact min_eq_left (le_min n2 n3)
  · rw [h, zero_div]
    rw [min_eq_left n3, min_eq_right n1]
  · rw [h, zero_div]
    rw [min_eq_right n2, min_eq_right n1]
  · rw [h1, h2, h3]
    simp

/-- Signs and the min-ratio structure of the collect phase: the idle and
used vectors are componentwise nonnegative, they sum back to the tenant's
allocation, and either some idle component is zero (the bottleneck
dimension is fully used) or the whole used vector is zero. -/
lemma collect_idle_props (p : Params) (t : Tenant)
    (hmr : 0 ≤ t.mrc.value t.cache_size ∧ t.mrc.value t.cache_size ≤ 1)
    (halpha : 0 ≤ t.net_bw_alpha ∧ t.net_bw_alpha ≤ 1)
    (hdc : 0 ≤ t.demand_cacheless.db_rcu ∧ 0 ≤ t.demand_cacheless.db_wcu ∧
      0 ≤ t.demand_cacheless.net_bw)
    (hsl : 0 ≤ t.stateless.db_rcu ∧ 0 ≤ t.stateless.db_wcu ∧
      0 ≤ t.stateless.net_bw) :
    (0 ≤ (Tenant.collect_idle p t).1.db_rcu ∧
      0 ≤ (Tenant.collect_idle p t).1.db_wcu ∧
      0 ≤ (Tenant.collect_idle p t).1.net_bw) ∧
    (0 ≤ (Tenant.collect_idle p t).2.stateless.db_rcu ∧
      0 ≤ (Tenant.collect_idle p t).2.stateless.db_wcu ∧
      0 ≤ (Tenant.collect_idle p t).2.stateless.net_bw) ∧
    ((Tenant.collect_idle p t).2.stateless.db_rcu +
        (Tenant.collect_idle p t).1.db_rcu = t.stateless.db_rcu ∧
      (Tenant.collect_idle p t).2.stateless.db_wcu +
        (Tenant.collect_idle p t).1.db_wcu = t.stateless.db_wcu ∧
      (Tenant.collect_idle p t).2.stateless.net_bw +
        (Tenant.collect_idle p t).1.net_bw = t.stateless.net_bw) ∧
    ((Tenant.collect_idle p t).1.db_rcu = 0 ∨
      (Tenant.collect_idle p t).1.db_wcu = 0 ∨
      (Tenant.collect_idle p t).1.net_bw = 0 ∨
      ((Tenant.collect_idle p t).2.stateless.db_rcu = 0 ∧
        (Tenant.collect_idle p t).2.stateless.db_wcu = 0 ∧
        (Tenant.collect_idle p t).2.stateless.net_bw = 0)) := by
  simp only [Tenant.collect_idle]
  set mr := t.mrc.value t.cache_size with hmrdef
  set D : StatelessResrcVec :=
    { t.demand_cacheless with
      db_rcu := t.demand_cacheless.db_rcu * mr
      net_bw :=
        if p.alloc_total_net_bw then
          t.demand_cacheless.net_bw * (mr + (1 - t.net_bw_alpha) * (1 - mr))
        else t.demand_cacheless.net_bw } with hDdef
  set tp := t.stateless.minRatioDiv D with htpdef
  have hD : 0 ≤ D.db_rcu ∧ 0 ≤ D.db_wcu ∧ 0 ≤ D.net_bw := by
    rw [hDdef]
    refine ⟨mul_nonneg hdc.1 hmr.1, hdc.2.1, ?_⟩
    show 0 ≤ if p.alloc_total_net_bw then
        t.demand_cacheless.net_bw * (mr + (1 - t.net_bw_alpha) * (1 - mr))
      else t.demand_cacheless.net_bw
    split_ifs
    · refine mul_nonneg hdc.2.2 ?_
      have := mul_nonneg (by linarith [halpha.2] : (0:ℚ) ≤ 1 - t.net_bw_alpha)
        (by linarith [hmr.2] : (0:ℚ) ≤ 1 - mr)
      linarith [hmr.1]
    · exact hdc.2.2
  have htp : 0 ≤ tp := by
    rw [htpdef]
    exact le_min (div_nonneg hsl.1 hD.1)
      (le_min (div_nonneg hsl.2.1 hD.2.1) (div_nonneg hsl.2.2 hD.2.2))
  have hmul : ∀ (S c : ℚ), 0 ≤ S → 0 ≤ c → tp ≤ S / c → c * tp ≤ S := by
    intro S c hS hc hle
    rcases eq_or_lt_of_le hc with hz | hpos
    · rw [← hz, zero_mul]
      exact hS
    · calc c * tp ≤ c * (S / c) := by
            exact mul_le_mul_of_nonneg_left hle (le_of_lt hpos)
        _ = S := by
            rw [mul_comm, div_mul_cancel₀ _ (ne_of_gt hpos)]
  have hle1 : tp ≤ t.stateless.db_rcu / D.db_rcu := by
    rw [htpdef]
    exact min_le_left _ _
  have hle2 : tp ≤ t.stateless.db_wcu / D.db_wcu := by
    rw [htpdef]
    exact le_trans (min_le_right _ _) (min_le_left _ _)
  have hle3 : tp ≤ t.stateless.net_bw / D.net_bw := by
    rw [htpdef]
    exact le_trans (min_le_right _ _) (min_le_right _ _)
  simp only [StatelessResrcVec.sub, StatelessResrcVec.scale]
  refine ⟨⟨?_, ?_, ?_⟩, ⟨mul_nonneg hD.1 htp, mul_nonneg hD.2.1 htp,
    mul_nonneg hD.2.2 htp⟩, ⟨by ring, by ring, by ring⟩, ?_⟩
  · have := hmul _ _ hsl.1 hD.1 hle1
    rw [show t.demand_cacheless.db_rcu * mr = D.db_rcu from rfl]
    linarith
  · have := hmul _ _ hsl.2.1 hD.2.1 hle2
    rw [show t.demand_cacheless.db_wcu = D.db_wcu from rfl]
    linarith
  · have := hmul _ _ hsl.2.2 hD.2.2 hle3
    rw [show (if p.alloc_total_net_bw then
        t.demand_cacheless.net_bw * (mr + (1 - t.net_bw_alpha) * (1 - mr))
      else t.demand_cacheless.net_bw) = D.net_bw from rfl]
    linarith
  · have hcancel : ∀ (S c : ℚ), c ≠ 0 → tp = S / c → S - c * tp = 0 := by
      intro S c hc heq
      rw [heq, mul_comm, div_mul_cancel₀ _ hc]
      ring
    have hzero : ∀ (S c : ℚ), c = 0 → tp = S / c → tp = 0 := by
      intro S c hc heq
      rw [heq, hc, div_zero]
    rcases min_cases (t.stateless.db_rcu / D.db_rcu)
        (min (t.stateless.db_wcu / D.db_wcu)
          (t.stateless.net_bw / D.net_bw)) with ⟨he, -⟩ | ⟨he, -⟩
    · by_cases hz : D.db_rcu = 0
      · refine Or.inr (Or.inr (Or.inr ?_))
        have h0 := hzero _ _ hz (htpdef.trans he)
        rw [h0]
        refine ⟨by ring, by ring, by ring⟩
      · exact Or.inl (hcancel _ _ hz (htpdef.trans he))
    · rcases min_cases (t.stateless.db_wcu / D.db_wcu)
          (t.stateless.net_bw / D.net_bw) with ⟨he2, -⟩ | ⟨he2, -⟩
      · by_cases hz : D.db_wcu = 0
        · refine Or.inr (Or.inr (Or.inr ?_))
          have h0 := hzero _ _ hz ((htpdef.trans he).trans he2)
          rw [h0]
          refine ⟨by ring, by ring, by ring⟩
        · exact Or.inr (Or.inl
            (hcancel _ _ hz ((htpdef.trans he).trans he2)))
      · by_cases hz : D.net_bw = 0
        · refine Or.inr (Or.inr (Or.inr ?_))
          have h0 := hzero _ _ hz ((htpdef.trans he).trans he2)
          rw [h0]
          refine ⟨by ring, by ring, by ring⟩
        · exact Or.inr (Or.inr (Or.inl
            (hcancel _ _ hz ((htpdef.trans he).trans he2))))

/-- C3 (amended): with harvest and memshare disabled (plain conserving
DRF), identical tenants are a fixed point of do_alloc up to the
almost-empty epsilons: every cache size is returned exactly, every
stateless vector within the componentwise epsilons, and the improvement
ratio is 0. -/
theorem C3_symmetric_fixed_point (p : Params) (fuel : ℕ) (a : Allocator)
    (t0 : Tenant)
    (hh : a.policy.harvest = false)
    (hmem : a.policy.memshare = false)
    (hc : a.policy.conserving = true)
    (hid : ∀ t ∈ a.tenants, t.demand_cacheless = t0.demand_cacheless ∧
      t.cache_size = t0.cache_size ∧ t.stateless = t0.stateless ∧
      t.mrc = t0.mrc ∧ t.net_bw_alpha = t0.net_bw_alpha)
    (hagg : Tenant.aggregate_resrc a.tenants = a.total_resrc.stateless)
    (hmr : 0 ≤ t0.mrc.value t0.cache_size ∧ t0.mrc.value t0.cache_size ≤ 1)
    (halpha : 0 ≤ t0.net_bw_alpha ∧ t0.net_bw_alpha ≤ 1)
    (hdc : 0 ≤ t0.demand_cacheless.db_rcu ∧ 0 ≤ t0.demand_cacheless.db_wcu ∧
      0 ≤ t0.demand_cacheless.net_bw)
    (hsl : 0 ≤ t0.stateless.db_rcu ∧ 0 ≤ t0.stateless.db_wcu ∧
      0 ≤ t0.stateless.net_bw) :
    (Allocator.do_alloc p fuel a).2 = 0 ∧
    ∀ t ∈ (Allocator.do_alloc p fuel a).1.tenants,
      t.cache_size = t0.cache_size ∧
      |t.stateless.db_rcu - t0.stateless.db_rcu| <
        params.numeric.db_rcu_epsilon ∧
      |t.stateless.db_wcu - t0.stateless.db_wcu| <
        params.numeric.db_wcu_epsilon ∧
      |t.stateless.net_bw - t0.stateless.net_bw| <
        params.numeric.net_bw_epsilon := by
  by_cases h2 : a.tenants.length ≤ 1
  · simp only [Allocator.do_alloc, if_pos h2]
    refine ⟨trivial, ?_⟩
    intro t ht
    obtain ⟨-, hcs, hst, -, -⟩ := hid t ht
    refine ⟨hcs, ?_, ?_, ?_⟩ <;>
      rw [hst, sub_self, abs_zero] <;>
      norm_num [params.numeric.db_rcu_epsilon, params.numeric.db_wcu_epsilon,
        params.numeric.net_bw_epsilon]
  · have hn2 : 2 ≤ a.tenants.length := by omega
    have hcast : (2:ℚ) ≤ (a.tenants.length : ℚ) := by exact_mod_cast hn2
    have hnne : (a.tenants.length : ℚ) ≠ 0 := by
      have : (0:ℚ) < (a.tenants.length : ℚ) := by linarith
      exact this.ne'
    simp only [Allocator.do_alloc, if_neg h2]
    rw [show (if a.policy.memshare then
        Allocator.memshareLoop p fuel a.tenants else a.tenants) = a.tenants
      from if_neg (by simp [hmem])]
    set collected := a.tenants.map (Tenant.collect_idle p) with hcolldef
    set avail := collected.foldl (fun s pr => s.add pr.1)
      ({} : StatelessResrcVec) with havaildef
    set ts1 := collected.map (·.2) with hts1def
    rw [show (if a.policy.harvest then
        Allocator.do_harvest p a.total_resrc.stateless ts1 avail
      else (ts1, avail)) = (ts1, avail) from if_neg (by simp [hh])]
    set idle := (Tenant.collect_idle p t0).1 with hidledef
    set used := (Tenant.collect_idle p t0).2.stateless with huseddef
    obtain ⟨hidle_nn, hused_nn, hsum3, hzd⟩ :=
      collect_idle_props p t0 hmr halpha hdc hsl
    rw [← hidledef] at hidle_nn hzd
    rw [← huseddef] at hused_nn hzd
    rw [← hidledef, ← huseddef] at hsum3
    have hsame : ∀ t ∈ a.tenants,
        (Tenant.collect_idle p t).1 = idle ∧
        (Tenant.collect_idle p t).2.stateless = used := by
      intro t ht
      obtain ⟨h1, h2c, h3, h4, h5⟩ := hid t ht
      rw [hidledef, huseddef]
      constructor
      · simp only [Tenant.collect_idle]
        rw [h1, h2c, h3, h4, h5]
      · simp only [Tenant.collect_idle]
        rw [h1, h2c, h3, h4, h5]
    clear_value idle used
    have hlen1 : ts1.length = a.tenants.length := by
      rw [hts1def, hcolldef]
      simp
    have hfold := foldl_add_eq (fun pr : StatelessResrcVec × Tenant => pr.1)
      collected ({} : StatelessResrcVec)
    have hmapsum : ∀ (g : StatelessResrcVec × Tenant → ℚ) (c : ℚ),
        (∀ t ∈ a.tenants, g (Tenant.collect_idle p t) = c) →
        (collected.map g).sum = (a.tenants.length : ℚ) * c := by
      intro g c hg
      have hcomp : (a.tenants.map (g ∘ Tenant.collect_idle p)) =
          a.tenants.map (fun _ => c) :=
        List.map_congr_left (fun t ht => hg t ht)
      rw [hcolldef, List.map_map, hcomp, sum_map_const_q]
    have havail1 : avail.db_rcu = (a.tenants.length : ℚ) * idle.db_rcu := by
      rw [havaildef, hfold]
      show 0 + (collected.map fun pr => pr.1.db_rcu).sum = _
      rw [hmapsum (fun pr => pr.1.db_rcu) idle.db_rcu
        (fun t ht => congrArg StatelessResrcVec.db_rcu (hsame t ht).1)]
      ring
    have havail2 : avail.db_wcu = (a.tenants.length : ℚ) * idle.db_wcu := by
      rw [havaildef, hfold]
      show 0 + (collected.map fun pr => pr.1.db_wcu).sum = _
      rw [hmapsum (fun pr => pr.1.db_wcu) idle.db_wcu
        (fun t ht => congrArg StatelessResrcVec.db_wcu (hsame t ht).1)]
      ring
    have havail3 : avail.net_bw = (a.tenants.length : ℚ) * idle.net_bw := by
      rw [havaildef, hfold]
      show 0 + (collected.map fun pr => pr.1.net_bw).sum = _
      rw [hmapsum (fun pr => pr.1.net_bw) idle.net_bw
        (fun t ht => congrArg StatelessResrcVec.net_bw (hsame t ht).1)]
      ring
    have htot1 : a.total_resrc.stateless.db_rcu =
        (a.tenants.length : ℚ) * t0.stateless.db_rcu := by
      rw [← hagg, aggregate_resrc_eq]
      show (a.tenants.map fun t => t.stateless.db_rcu).sum = _
      rw [List.map_congr_left (fun t ht =>
          congrArg StatelessResrcVec.db_rcu (hid t ht).2.2.1),
        sum_map_const_q]
    have htot2 : a.total_resrc.stateless.db_wcu =
        (a.tenants.length : ℚ) * t0.stateless.db_wcu := by
      rw [← hagg, aggregate_resrc_eq]
      show (a.tenants.map fun t => t.stateless.db_wcu).sum = _
      rw [List.map_congr_left (fun t ht =>
          congrArg StatelessResrcVec.db_wcu (hid t ht).2.2.1),
        sum_map_const_q]
    have htot3 : a.total_resrc.stateless.net_bw =
        (a.tenants.length : ℚ) * t0.stateless.net_bw := by
      rw [← hagg, aggregate_resrc_eq]
      show (a.tenants.map fun t => t.stateless.net_bw).sum = _
      rw [List.map_congr_left (fun t ht =>
          congrArg StatelessResrcVec.net_bw (hid t ht).2.2.1),
        sum_map_const_q]
    have hrs1 : (a.total_resrc.stateless.sub avail).db_rcu =
        (a.tenants.length : ℚ) * used.db_rcu := by
      show a.total_resrc.stateless.db_rcu - avail.db_rcu = _
      rw [htot1, havail1, ← hsum3.1]
      ring
    have hrs2 : (a.total_resrc.stateless.sub avail).db_wcu =
        (a.tenants.length : ℚ) * used.db_wcu := by
      show a.total_resrc.stateless.db_wcu - avail.db_wcu = _
      rw [htot2, havail2, ← hsum3.2.1]
      ring
    have hrs3 : (a.total_resrc.stateless.sub avail).net_bw =
        (a.tenants.length : ℚ) * used.net_bw := by
      show a.total_resrc.stateless.net_bw - avail.net_bw = _
      rw [htot3, havail3, ← hsum3.2.2]
      ring
    split
    · next halm =>
      have halm' : avail.is_almost_empty := halm
      obtain ⟨e1, e2, e3⟩ := halm'
      refine ⟨rfl, ?_⟩
      intro t ht
      have ht' : t ∈ ts1 := ht
      rw [hts1def, hcolldef] at ht'
      obtain ⟨pr, hpr, rfl⟩ := List.mem_map.mp ht'
      obtain ⟨t2, ht2, rfl⟩ := List.mem_map.mp hpr
      have hkey : ∀ (u s0 nid : ℚ), 0 ≤ nid →
          u + nid = s0 → |(a.tenants.length : ℚ) * nid| < (1:ℚ)/10000 →
          |u - s0| < (1:ℚ)/10000 := by
        intro u s0 nid hnn hsum habs
        have hnn2 : 0 ≤ (a.tenants.length : ℚ) * nid :=
          mul_nonneg (by linarith) hnn
        rw [abs_of_nonneg hnn2] at habs
        have h3 : nid ≤ (a.tenants.length : ℚ) * nid := by nlinarith
        rw [show u - s0 = -nid from by linarith, abs_neg,
          abs_of_nonneg hnn]
        linarith
      refine ⟨?_, ?_, ?_, ?_⟩
      · rw [(collect_idle_frame p t2).1]
        exact (hid t2 ht2).2.1
      · rw [(hsame t2 ht2).2]
        exact hkey _ _ _ hidle_nn.1 hsum3.1 (by
          rw [← havail1]
          exact e1)
      · rw [(hsame t2 ht2).2]
        exact hkey _ _ _ hidle_nn.2.1 hsum3.2.1 (by
          rw [← havail2]
          exact e2)
      · rw [(hsame t2 ht2).2]
        exact hkey _ _ _ hidle_nn.2.2 hsum3.2.2 (by
          rw [← havail3]
          exact e3)
    · next halm =>
      simp only [Allocator.do_redistribute, hc, if_true]
      have hnn : (0:ℚ) ≤ (a.tenants.length : ℚ) := by linarith
      constructor
      · show avail.minRatioDiv (a.total_resrc.stateless.sub avail) = 0
        apply minRatioDiv_zero
        · exact ⟨by rw [havail1]; exact mul_nonneg hnn hidle_nn.1,
            by rw [havail2]; exact mul_nonneg hnn hidle_nn.2.1,
            by rw [havail3]; exact mul_nonneg hnn hidle_nn.2.2⟩
        · exact ⟨by rw [hrs1]; exact mul_nonneg hnn hused_nn.1,
            by rw [hrs2]; exact mul_nonneg hnn hused_nn.2.1,
            by rw [hrs3]; exact mul_nonneg hnn hused_nn.2.2⟩
        · rcases hzd with h | h | h | ⟨hu1, hu2, hu3⟩
          · exact Or.inl (by rw [havail1, h]; ring)
          · exact Or.inr (Or.inl (by rw [havail2, h]; ring))
          · exact Or.inr (Or.inr (Or.inl (by rw [havail3, h]; ring)))
          · exact Or.inr (Or.inr (Or.inr ⟨by rw [hrs1, hu1]; ring,
              by rw [hrs2, hu2]; ring, by rw [hrs3, hu3]; ring⟩))
      · intro t ht
        obtain ⟨t1, ht1, rfl⟩ := List.mem_map.mp ht
        rw [hts1def, hcolldef] at ht1
        obtain ⟨pr, hpr, rfl⟩ := List.mem_map.mp ht1
        obtain ⟨t2, ht2, rfl⟩ := List.mem_map.mp hpr
        have hx := (hsame t2 ht2).2
        refine ⟨?_, ?_, ?_, ?_⟩
        · rw [show (Tenant.scale_stateless_resrc_by_owned avail
              (a.total_resrc.stateless.sub avail) ts1.length
              ((Tenant.collect_idle p t2).2)).cache_size =
              ((Tenant.collect_idle p t2).2).cache_size from rfl,
            (collect_idle_frame p t2).1]
          exact (hid t2 ht2).2.1
        · have hval : (Tenant.scale_stateless_resrc_by_owned avail
              (a.total_resrc.stateless.sub avail) ts1.length
              ((Tenant.collect_idle p t2).2)).stateless.db_rcu =
              t0.stateless.db_rcu := by
            show ((Tenant.collect_idle p t2).2).stateless.db_rcu +
                avail.db_rcu *
                  (if (a.total_resrc.stateless.sub avail).db_rcu ≠ 0
                  then ((Tenant.collect_idle p t2).2).stateless.db_rcu /
                    (a.total_resrc.stateless.sub avail).db_rcu
                  else 1 / (ts1.length : ℚ)) = t0.stateless.db_rcu
            rw [hx, hrs1, havail1, hlen1]
            by_cases hz : used.db_rcu = 0
            · rw [if_neg (not_not_intro (by rw [hz]; ring)), hz,
                ← hsum3.1, hz]
              field_simp
            · rw [if_pos (mul_ne_zero hnne hz), ← hsum3.1]
              field_simp
              ring
          rw [hval, sub_self, abs_zero]
          norm_num [params.numeric.db_rcu_epsilon]
        · have hval : (Tenant.scale_stateless_resrc_by_owned avail
              (a.total_resrc.stateless.sub avail) ts1.length
              ((Tenant.collect_idle p t2).2)).stateless.db_wcu =
              t0.stateless.db_wcu := by
            show ((Tenant.collect_idle p t2).2).stateless.db_wcu +
                avail.db_wcu *
                  (if (a.total_resrc.stateless.sub avail).db_wcu ≠ 0
                  then ((Tenant.collect_idle p t2).2).stateless.db_wcu /
                    (a.total_resrc.stateless.sub avail).db_wcu
                  else 1 / (ts1.length : ℚ)) = t0.stateless.db_wcu
            rw [hx, hrs2, havail2, hlen1]
            by_cases hz : used.db_wcu = 0
            · rw [if_neg (not_not_intro (by rw [hz]; ring)), hz,
                ← hsum3.2.1, hz]
              field_simp
            · rw [if_pos (mul_ne_zero hnne hz), ← hsum3.2.1]
              field_simp
              ring
          rw [hval, sub_self, abs_zero]
          norm_num [params.numeric.db_wcu_epsilon]
        · have hval : (Tenant.scale_stateless_resrc_by_owned avail
              (a.total_resrc.stateless.sub avail) ts1.length
              ((Tenant.collect_idle p t2).2)).stateless.net_bw =
              t0.stateless.net_bw := by
            show ((Tenant.collect_idle p t2).2).stateless.net_bw +
                avail.net_bw *
                  (if (a.total_resrc.stateless.sub avail).net_bw ≠ 0
                  then ((Tenant.collect_idle p t2).2).stateless.net_bw /
                    (a.total_resrc.stateless.sub avail).net_bw
                  else 1 / (ts1.length : ℚ)) = t0.stateless.net_bw
            rw [hx, hrs3, havail3, hlen1]
            by_cases hz : used.net_bw = 0
            · rw [if_neg (not_not_intro (by rw [hz]; ring)), hz,
                ← hsum3.2.2, hz]
              field_simp
            · rw [if_pos (mul_ne_zero hnne hz), ← hsum3.2.2]
              field_simp
              ring
          rw [hval, sub_self, abs_zero]
          norm_num [params.numeric.net_bw_epsilon]

theorem C3_symmetric_fixed_point_witness :
    aEx2.policy.harvest = false ∧ aEx2.policy.memshare = false ∧
    aEx2.policy.conserving = true ∧
    (∀ t ∈ aEx2.tenants,
      t.demand_cacheless = (Tenant.mk' 0 dEx bEx mrcEx 0).demand_cacheless ∧
      t.cache_size = (Tenant.mk' 0 dEx bEx mrcEx 0).cache_size ∧
      t.stateless = (Tenant.mk' 0 dEx bEx mrcEx 0).stateless ∧
      t.mrc = (Tenant.mk' 0 dEx bEx mrcEx 0).mrc ∧
      t.net_bw_alpha = (Tenant.mk' 0 dEx bEx mrcEx 0).net_bw_alpha) ∧
    Tenant.aggregate_resrc aEx2.tenants = aEx2.total_resrc.stateless ∧
    ((Allocator.do_alloc pEx 0 aEx2).2 = 0 ∧
      ∀ t ∈ (Allocator.do_alloc pEx 0 aEx2).1.tenants,
        t.cache_size = (Tenant.mk' 0 dEx bEx mrcEx 0).cache_size ∧
        |t.stateless.db_rcu -
            (Tenant.mk' 0 dEx bEx mrcEx 0).stateless.db_rcu| <
          params.numeric.db_rcu_epsilon ∧
        |t.stateless.db_wcu -
            (Tenant.mk' 0 dEx bEx mrcEx 0).stateless.db_wcu| <
          params.numeric.db_wcu_epsilon ∧
        |t.stateless.net_bw -
            (Tenant.mk' 0 dEx bEx mrcEx 0).stateless.net_bw| <
          params.numeric.net_bw_epsilon) := by
  have hh : aEx2.policy.harvest = false := by
    norm_num [aEx2, Allocator.add_tenant]
  have hmem : aEx2.policy.memshare = false := by
    norm_num [aEx2, Allocator.add_tenant]
  have hc : aEx2.policy.conserving = true := by
    norm_num [aEx2, Allocator.add_tenant]
  have hid : ∀ t ∈ aEx2.tenants,
      t.demand_cacheless = (Tenant.mk' 0 dEx bEx mrcEx 0).demand_cacheless ∧
      t.cache_size = (Tenant.mk' 0 dEx bEx mrcEx 0).cache_size ∧
      t.stateless = (Tenant.mk' 0 dEx bEx mrcEx 0).stateless ∧
      t.mrc = (Tenant.mk' 0 dEx bEx mrcEx 0).mrc ∧
      t.net_bw_alpha = (Tenant.mk' 0 dEx bEx mrcEx 0).net_bw_alpha := by
    intro t ht
    simp only [aEx2, Allocator.add_tenant, List.nil_append,
      List.cons_append, List.mem_cons, List.not_mem_nil, or_false,
      List.mem_singleton] at ht
    rcases ht with rfl | rfl <;> exact ⟨rfl, rfl, rfl, rfl, rfl⟩
  have hagg : Tenant.aggregate_resrc aEx2.tenants =
      aEx2.total_resrc.stateless := by
    norm_num [aEx2, Allocator.add_tenant, Tenant.mk', Tenant.aggregate_resrc,
      StatelessResrcVec.add, bEx, dEx, List.foldl_cons, List.foldl_nil]
  have hmrv : (Tenant.mk' 0 dEx bEx mrcEx 0).mrc.value
      (Tenant.mk' 0 dEx bEx mrcEx 0).cache_size = 89/100 := by
    norm_num [Tenant.mk', bEx, MissRatioCurve.value,
      MissRatioCurve.get_miss_ratio_const, MissRatioCurve.lowerBoundIdx,
      mrcEx, params.mrc.disable_interpolation_near_inf,
      params.mrc.conservative_estimation_if_out_of_range]
  refine ⟨hh, hmem, hc, hid, hagg, ?_⟩
  exact C3_symmetric_fixed_point pEx 0 aEx2 (Tenant.mk' 0 dEx bEx mrcEx 0)
    hh hmem hc hid hagg (by rw [hmrv]; norm_num)
    (by norm_num [Tenant.mk'])
    (by norm_num [Tenant.mk', dEx])
    (by norm_num [Tenant.mk', bEx])

/-! Concrete evaluation of the counterexample harvest run. -/

lemma aEx_tenants :
    aEx.tenants = [Tenant.mk' 0 dEx bEx mrcEx 0, Tenant.mk' 1 dEx bEx mrcEx 0] := by
  norm_num [aEx, Allocator.add_tenant]

lemma aEx_total : aEx.total_resrc.stateless = ⟨89/50, 4, 4⟩ := by
  norm_num [aEx, Allocator.add_tenant, bEx, StatelessResrcVec.add,
    StatelessResrcVec.mk.injEq]

lemma mrcEx_val4 : mrcEx.value 4 = 9/10 := by
  norm_num [MissRatioCurve.value, MissRatioCurve.get_miss_ratio_const,
    MissRatioCurve.lowerBoundIdx, mrcEx,
    params.mrc.disable_interpolation_near_inf,
    params.mrc.conservative_estimation_if_out_of_range]

lemma mrcEx_val12 : mrcEx.value 12 = 89/100 := by
  norm_num [MissRatioCurve.value, MissRatioCurve.get_miss_ratio_const,
    MissRatioCurve.lowerBoundIdx, mrcEx,
    params.mrc.disable_interpolation_near_inf,
    params.mrc.conservative_estimation_if_out_of_range]

lemma mrcEx_val20 : mrcEx.value 20 = 1/2 := by
  norm_num [MissRatioCurve.value, MissRatioCurve.get_miss_ratio_const,
    MissRatioCurve.lowerBoundIdx, mrcEx,
    params.mrc.disable_interpolation_near_inf,
    params.mrc.conservative_estimation_if_out_of_range]

lemma mrcEx_val28 : mrcEx.value 28 = 1/2 := by
  norm_num [MissRatioCurve.value, MissRatioCurve.get_miss_ratio_const,
    MissRatioCurve.lowerBoundIdx, mrcEx,
    params.mrc.disable_interpolation_near_inf,
    params.mrc.conservative_estimation_if_out_of_range]

lemma collect_mk0 :
    Tenant.collect_idle pEx (Tenant.mk' 0 dEx bEx mrcEx 0) = (⟨0, 1, 1⟩, cEx0) := by
  norm_num [Tenant.collect_idle, Tenant.mk', bEx, dEx, pEx, mrcEx_val12,
    StatelessResrcVec.minRatioDiv, StatelessResrcVec.scale,
    StatelessResrcVec.sub, params.alloc.memshare.reserved_of,
    cEx0, tBase0, Prod.mk.injEq, Tenant.mk.injEq, StatelessResrcVec.mk.injEq,
    min_def]

lemma collect_mk1 :
    Tenant.collect_idle pEx (Tenant.mk' 1 dEx bEx mrcEx 0) = (⟨0, 1, 1⟩, cEx1) := by
  norm_num [Tenant.collect_idle, Tenant.mk', bEx, dEx, pEx, mrcEx_val12,
    StatelessResrcVec.minRatioDiv, StatelessResrcVec.scale,
    StatelessResrcVec.sub, params.alloc.memshare.reserved_of,
    cEx1, cEx0, tBase0, Prod.mk.injEq, Tenant.mk.injEq,
    StatelessResrcVec.mk.injEq, min_def]

lemma update_cEx0 : Tenant.update_rcu_net_delta pEx cEx0 = tEx0 := by
  norm_num [Tenant.update_rcu_net_delta, Tenant.pred_rcu_net_delta_if_more_cache,
    Tenant.pred_rcu_net_delta_if_less_cache, Tenant.pred_more_abort,
    Tenant.pred_less_abort, Tenant.pred_less_immediate,
    cEx0, tBase0, tEx0, pEx, dEx, mrcEx_val12, mrcEx_val20, mrcEx_val4,
    params.numeric.epilson, params.alloc.min_miss_ratio,
    params.alloc.max_miss_ratio, params.numeric.relinq_abort_offer,
    Tenant.mk.injEq, StatelessResrcVec.mk.injEq]

lemma update_cEx1 : Tenant.update_rcu_net_delta pEx cEx1 = tEx1 := by
  norm_num [Tenant.update_rcu_net_delta, Tenant.pred_rcu_net_delta_if_more_cache,
    Tenant.pred_rcu_net_delta_if_less_cache, Tenant.pred_more_abort,
    Tenant.pred_less_abort, Tenant.pred_less_immediate,
    cEx1, cEx0, tBase0, tEx1, tEx0, pEx, dEx, mrcEx_val12, mrcEx_val20,
    mrcEx_val4, params.numeric.epilson, params.alloc.min_miss_ratio,
    params.alloc.max_miss_ratio, params.numeric.relinq_abort_offer,
    Tenant.mk.injEq, StatelessResrcVec.mk.injEq]

lemma estimate_Ex0 :
    Allocator.estimate_bottleneck ⟨89/50, 4, 4⟩ ⟨0, 2, 2⟩ = (0, true, false) := by
  norm_num [Allocator.estimate_bottleneck, StatelessResrcVec.sub,
    StatelessResrcVec.minRatioDiv, Prod.mk.injEq, min_def,
    decide_eq_true_eq, decide_eq_false_iff_not]

set_option maxHeartbeats 1000000 in
lemma harvestStep_sEx0 :
    Allocator.harvestStep pEx ⟨89/50, 4, 4⟩ sEx0 = some sEx1 := by
  norm_num [Allocator.harvestStep, Allocator.harvestPick,
    Allocator.harvestCommit, Allocator.estimate_bottleneck,
    Allocator.dummyTenant, sEx0, sEx1, tEx0, tEx1, tBase0, pEx, dEx,
    maxPosBy, minPosBy, List.range_succ, StatelessResrcVec.sub,
    StatelessResrcVec.minRatioDiv, min_def,
    params.alloc.min_improve_ratio_delta, Tenant.relocate_resrc, sub64,
    Tenant.update_rcu_net_delta, Tenant.pred_rcu_net_delta_if_more_cache,
    Tenant.pred_rcu_net_delta_if_less_cache, Tenant.pred_more_abort,
    Tenant.pred_less_abort, Tenant.pred_less_immediate,
    mrcEx_val4, mrcEx_val12, mrcEx_val20, mrcEx_val28,
    params.numeric.epilson, params.alloc.min_miss_ratio,
    params.alloc.max_miss_ratio, params.numeric.relinq_abort_offer,
    params.numeric.compen_abort_offer,
    Allocator.HarvestState.mk.injEq, Tenant.mk.injEq,
    StatelessResrcVec.mk.injEq, Prod.mk.injEq,
    decide_eq_true_eq, decide_eq_false_iff_not]

set_option maxHeartbeats 1000000 in
lemma harvestStep_sEx1 :
    Allocator.harvestStep pEx ⟨89/50, 4, 4⟩ sEx1 = none := by
  norm_num [Allocator.harvestStep, Allocator.harvestPick,
    Allocator.estimate_bottleneck, Allocator.dummyTenant, sEx1, tEx0, tEx1,
    tBase0, pEx, dEx, maxPosBy, minPosBy, List.range_succ,
    StatelessResrcVec.sub, StatelessResrcVec.minRatioDiv, min_def,
    params.alloc.min_improve_ratio_delta, params.numeric.compen_abort_offer,
    params.numeric.relinq_abort_offer]

lemma harvestLoop_Ex :
    Allocator.harvestLoop pEx ⟨89/50, 4, 4⟩ params.alloc.max_trade_round
      sEx0 = sEx1 := by
  rw [show params.alloc.max_trade_round = 9999 + 1 from rfl,
    harvestLoop_step pEx _ 9999 harvestStep_sEx0,
    harvestLoop_stop pEx _ harvestStep_sEx1]

lemma do_harvest_Ex :
    Allocator.do_harvest pEx ⟨89/50, 4, 4⟩ [cEx0, cEx1] ⟨0, 2, 2⟩ =
      (sEx1.tenants, (⟨38/100, 2, 2⟩ : StatelessResrcVec)) := by
  have hrec : (Allocator.HarvestState.mk (List.map (Tenant.update_rcu_net_delta pEx) [cEx0, cEx1]) (List.range (List.map (Tenant.update_rcu_net_delta pEx) [cEx0, cEx1]).length) (List.range (List.map (Tenant.update_rcu_net_delta pEx) [cEx0, cEx1]).length) ⟨0, 2, 2⟩ (Allocator.estimate_bottleneck ⟨89/50, 4, 4⟩ ⟨0, 2, 2⟩).1 (Allocator.estimate_bottleneck ⟨89/50, 4, 4⟩ ⟨0, 2, 2⟩).2.1 (Allocator.estimate_bottleneck ⟨89/50, 4, 4⟩ ⟨0, 2, 2⟩).2.2) = sEx0 := by
    norm_num [update_cEx0, update_cEx1, estimate_Ex0, sEx0,
      Allocator.HarvestState.mk.injEq, List.range_succ]
  simp only [Allocator.do_harvest]
  rw [hrec, harvestLoop_Ex]
  rfl

lemma do_alloc_aEx :
    Allocator.do_alloc pEx 0 aEx =
      ({ aEx with
          tenants := (Allocator.do_redistribute pEx aEx.policy ⟨89/50, 4, 4⟩
            sEx1.tenants ⟨38/100, 2, 2⟩).1 },
       (Allocator.do_redistribute pEx aEx.policy ⟨89/50, 4, 4⟩
          sEx1.tenants ⟨38/100, 2, 2⟩).2.2) := by
  have hlen : ¬(aEx.tenants.length ≤ 1) := by
    rw [aEx_tenants]
    norm_num
  have hmem : aEx.policy.memshare = false := by
    norm_num [aEx, Allocator.add_tenant]
  have hh : aEx.policy.harvest = true := by
    norm_num [aEx, Allocator.add_tenant]
  simp only [Allocator.do_alloc]
  rw [if_neg hlen]
  rw [show (if aEx.policy.memshare then
      Allocator.memshareLoop pEx 0 aEx.tenants else aEx.tenants) =
      aEx.tenants from if_neg (by simp [hmem])]
  rw [aEx_tenants]
  rw [show List.map (Tenant.collect_idle pEx)
      [Tenant.mk' 0 dEx bEx mrcEx 0, Tenant.mk' 1 dEx bEx mrcEx 0] =
      [((⟨0, 1, 1⟩ : StatelessResrcVec), cEx0), (⟨0, 1, 1⟩, cEx1)] from by
    rw [List.map_cons, List.map_cons, List.map_nil, collect_mk0, collect_mk1]]
  rw [show List.foldl (fun s pr => s.add pr.1) ({} : StatelessResrcVec)
      [((⟨0, 1, 1⟩ : StatelessResrcVec), cEx0), (⟨0, 1, 1⟩, cEx1)] =
      (⟨0, 2, 2⟩ : StatelessResrcVec) from by
    norm_num [List.foldl, StatelessResrcVec.add, StatelessResrcVec.mk.injEq]]
  rw [show List.map (fun pr : StatelessResrcVec × Tenant => pr.2)
      [((⟨0, 1, 1⟩ : StatelessResrcVec), cEx0), (⟨0, 1, 1⟩, cEx1)] =
      [cEx0, cEx1] from by simp]
  rw [show (if aEx.policy.harvest then
      Allocator.do_harvest pEx aEx.total_resrc.stateless [cEx0, cEx1]
        ⟨0, 2, 2⟩
    else ([cEx0, cEx1], ⟨0, 2, 2⟩)) =
      Allocator.do_harvest pEx aEx.total_resrc.stateless [cEx0, cEx1]
        ⟨0, 2, 2⟩ from if_pos hh]
  rw [aEx_total, do_harvest_Ex]
  rw [if_neg (show ¬((sEx1.tenants,
      (⟨38/100, 2, 2⟩ : StatelessResrcVec)).2.is_almost_empty) from by
    norm_num [StatelessResrcVec.is_almost_empty,
      params.numeric.db_rcu_epsilon, params.numeric.db_wcu_epsilon,
      params.numeric.net_bw_epsilon])]

lemma ratio_Ex :
    (Allocator.do_redistribute pEx aEx.policy ⟨89/50, 4, 4⟩ sEx1.tenants
      ⟨38/100, 2, 2⟩).2.2 = 19/70 := by
  have hc : aEx.policy.conserving = true := by
    norm_num [aEx, Allocator.add_tenant]
  simp only [Allocator.do_redistribute, hc, if_true]
  norm_num [StatelessResrcVec.minRatioDiv, StatelessResrcVec.sub, min_def]

/-- C2 counterexample: both tenants start at their reserved floor
condition (reserved 6 ≤ cache 12), yet after one do_alloc with the
harvest phase enabled tenant 1 ends with 4 bytes of cache, strictly below
its reserved floor of 6: harvest trades only respect the global
min_cache_size, not the per-tenant reserved floor. -/
theorem C2_counterexample :
    (∀ t ∈ aEx.tenants, t.reserved_cache_size ≤ t.cache_size) ∧
    ∃ t ∈ (Allocator.do_alloc pEx 0 aEx).1.tenants,
      t.cache_size < t.reserved_cache_size := by
  constructor
  · intro t ht
    rw [aEx_tenants] at ht
    rcases List.mem_cons.mp ht with rfl | ht2
    · norm_num [Tenant.mk', bEx, params.alloc.memshare.reserved_of]
    rcases List.mem_cons.mp ht2 with rfl | ht3
    · norm_num [Tenant.mk', bEx, params.alloc.memshare.reserved_of]
    · simp at ht3
  · rw [do_alloc_aEx]
    show ∃ t ∈ (Allocator.do_redistribute pEx aEx.policy ⟨89/50, 4, 4⟩
      sEx1.tenants ⟨38/100, 2, 2⟩).1, t.cache_size < t.reserved_cache_size
    have hc : aEx.policy.conserving = true := by
      norm_num [aEx, Allocator.add_tenant]
    simp only [Allocator.do_redistribute, hc, if_true]
    have hB : ({ tEx1 with
        cache_size := 4
        stateless := ⟨9/10, 1, 1⟩
        rcu_delta_relinq := 1/100
        rcu_delta_compen := params.numeric.compen_abort_offer
        net_delta_compen := params.numeric.compen_abort_offer } : Tenant) ∈
        sEx1.tenants := by
      simp [sEx1]
    refine ⟨_, List.mem_map_of_mem _ hB, ?_⟩
    norm_num [Tenant.scale_stateless_resrc_by_owned, tEx1, tEx0, tBase0]

/-- C3 counterexample: two tenants added with identical demand, identical
initial allocation (12 bytes cache, stateless (89/100, 2, 2)), identical
curve and identical alpha are NOT a fixed point of do_alloc when the
harvest phase is on: the run commits a trade (caches become 20 and 4, not
12 and 12) and returns improvement ratio 19/70 ≠ 0 — with a strictly
concave region of the curve, trading between equals still profits. -/
theorem C3_counterexample :
    (∀ t ∈ aEx.tenants,
      t.demand_cacheless = (Tenant.mk' 0 dEx bEx mrcEx 0).demand_cacheless ∧
      t.cache_size = (Tenant.mk' 0 dEx bEx mrcEx 0).cache_size ∧
      t.stateless = (Tenant.mk' 0 dEx bEx mrcEx 0).stateless ∧
      t.mrc = (Tenant.mk' 0 dEx bEx mrcEx 0).mrc ∧
      t.net_bw_alpha = (Tenant.mk' 0 dEx bEx mrcEx 0).net_bw_alpha) ∧
    (Allocator.do_alloc pEx 0 aEx).2 ≠ 0 ∧
    ∃ t ∈ (Allocator.do_alloc pEx 0 aEx).1.tenants,
      t.cache_size ≠ (Tenant.mk' 0 dEx bEx mrcEx 0).cache_size := by
  refine ⟨?_, ?_, ?_⟩
  · intro t ht
    rw [aEx_tenants] at ht
    rcases List.mem_cons.mp ht with rfl | ht2
    · exact ⟨rfl, rfl, rfl, rfl, rfl⟩
    rcases List.mem_cons.mp ht2 with rfl | ht3
    · exact ⟨rfl, rfl, rfl, rfl, rfl⟩
    · simp at ht3
  · rw [do_alloc_aEx]
    show (Allocator.do_redistribute pEx aEx.policy ⟨89/50, 4, 4⟩
      sEx1.tenants ⟨38/100, 2, 2⟩).2.2 ≠ 0
    rw [ratio_Ex]
    norm_num
  · rw [do_alloc_aEx]
    show ∃ t ∈ (Allocator.do_redistribute pEx aEx.policy ⟨89/50, 4, 4⟩
      sEx1.tenants ⟨38/100, 2, 2⟩).1,
      t.cache_size ≠ (Tenant.mk' 0 dEx bEx mrcEx 0).cache_size
    have hc : aEx.policy.conserving = true := by
      norm_num [aEx, Allocator.add_tenant]
    simp only [Allocator.do_redistribute, hc, if_true]
    have hB : ({ tEx1 with
        cache_size := 4
        stateless := ⟨9/10, 1, 1⟩
        rcu_delta_relinq := 1/100
        rcu_delta_compen := params.numeric.compen_abort_offer
        net_delta_compen := params.numeric.compen_abort_offer } : Tenant) ∈
        sEx1.tenants := by
      simp [sEx1]
    refine ⟨_, List.mem_map_of_mem _ hB, ?_⟩
    norm_num [Tenant.scale_stateless_resrc_by_owned, tEx1, tEx0, tBase0,
      Tenant.mk', bEx]

end HopperKV
